import Mathlib

/-!
# Carrot Finder: grid model and search engine

A shallow embedding of `src/js/grid.js` (class `Grid`) and `src/js/algorithms.js`
(class `PathfindingAlgorithm`).

Modelling conventions.

* A JavaScript cell object is identified by a `CellId`: the generation of the
  `cells` array that allocated it together with its immutable `row` / `col`
  fields.  `Grid.gen` is the generation of the array currently held in
  `this.cells`; every call of the allocation routine moves to a new generation,
  so objects of an earlier array stay distinct from the current ones (a
  reference kept across a reallocation is stale: it names no cell of the grid).
* The mutable fields of every cell object ever allocated live in
  `Grid.store`.
* The numeric fields `f`, `g`, `h` hold a natural number or `Infinity` (`Num`).
* The asynchronous run is sequentialised.  The only points at which other code
  can run are the `await this.delayExecution(..)` calls; a run receives
  `stops : Nat → Bool`, where `stops k` tells whether `stop()` is called
  while the run waits at its `k`-th delay.  The callbacks `onNodeVisited` and
  `onPathFound` are recorded as a list of events.
* Loops that may fail to terminate on arbitrary heaps take a fuel argument; a
  result `none` means that the fuel ran out.
-/

namespace CarrotFinder

/-! ## Constants (`constants.js`) -/

/-- The values of `CELL_TYPES`. -/
inductive CellType where
  | EMPTY
  | OBSTACLE
  | START
  | END
  | PATH
  | VISITED
  | TILLED_DIRT
  | PLANT
  deriving DecidableEq, Repr

/-- A JavaScript number as stored in `f`, `g`, `h`: a natural number or `Infinity`. -/
inductive Num where
  | fin (n : Nat)
  | inf
  deriving DecidableEq, Repr

/-- JavaScript `a + b` on these numbers. -/
def Num.add : Num → Num → Num
  | .fin a, .fin b => .fin (a + b)
  | _, _ => .inf

/-- JavaScript `a < b` on these numbers. -/
def Num.lt : Num → Num → Bool
  | .fin a, .fin b => decide (a < b)
  | .fin _, .inf => true
  | .inf, _ => false

/-! ## Grid model (`grid.js`) -/

/-- Identity of a cell object: allocating generation and the `row`, `col` fields. -/
structure CellId where
  gen : Nat
  row : Nat
  col : Nat
  deriving DecidableEq, Repr

/-- The mutable fields of a cell object. -/
structure Cell where
  type : CellType
  f : Num
  g : Num
  h : Num
  parent : Option CellId
  deriving DecidableEq, Repr

/-- The object literal created for each position by the allocation loop. -/
def Cell.fresh : Cell :=
  { type := .EMPTY, f := .fin 0, g := .fin 0, h := .fin 0, parent := none }

/-- The state of a `Grid` instance. -/
structure Grid where
  rows : Nat
  cols : Nat
  gen : Nat
  store : CellId → Cell
  startCell : Option CellId
  endCell : Option CellId
  pathCells : List (Nat × Nat)
  bunnyPosition : Option (Nat × Nat)

/-- The object `this.cells[i][j]`. -/
def Grid.cellAt (g : Grid) (i j : Nat) : CellId :=
  { gen := g.gen, row := i, col := j }

/-- Whether `c` is one of the objects held in `this.cells`. -/
def Grid.isLive (g : Grid) (c : CellId) : Bool :=
  decide (c.gen = g.gen) && decide (c.row < g.rows) && decide (c.col < g.cols)

/-- Apply `f` to the fields of the object `c`. -/
def Grid.modify (g : Grid) (c : CellId) (f : Cell → Cell) : Grid :=
  { g with store := fun x => if x = c then f (g.store c) else g.store x }

/-- Apply `f` to every object held in `this.cells` (a `for i, for j` loop). -/
def Grid.forEachCell (g : Grid) (f : Cell → Cell) : Grid :=
  { g with store := fun x => if g.isLive x then f (g.store x) else g.store x }

/-- The method `Grid.initialize()`: a new `cells` array of fresh objects. -/
def Grid.initCells (g : Grid) : Grid :=
  { g with
    gen := g.gen + 1
    store := fun x => if x.gen = g.gen + 1 then Cell.fresh else g.store x }

/-- The constructor `new Grid(rows, cols)`. -/
def Grid.new (rows cols : Nat) : Grid :=
  Grid.initCells
    { rows := rows, cols := cols, gen := 0, store := fun _ => Cell.fresh,
      startCell := none, endCell := none, pathCells := [], bunnyPosition := none }

/-- The method `getCell(row, col)`. -/
def Grid.getCell (g : Grid) (row col : Int) : Option CellId :=
  if 0 ≤ row ∧ row < g.rows ∧ 0 ≤ col ∧ col < g.cols then
    some (g.cellAt row.toNat col.toNat)
  else none

/-- The body of the loop of `resetPath()` for one cell. -/
def Cell.resetPath (c : Cell) : Cell :=
  { type := if c.type = .PATH ∨ c.type = .VISITED ∨ c.type = .TILLED_DIRT then .EMPTY
            else c.type
    f := .fin 0, g := .fin 0, h := .fin 0, parent := none }

/-- The method `resetPath()`. -/
def Grid.resetPath (g : Grid) : Grid :=
  { g.forEachCell Cell.resetPath with pathCells := [] }

/-- The method `setCellType(row, col, type)`: the new grid and the returned flag. -/
def Grid.setCellType (g : Grid) (row col : Int) (type : CellType) : Grid × Bool :=
  match g.getCell row col with
  | none => (g, false)
  | some cell =>
    if type = .START then
      let g1 := match g.startCell with
        | some old => if old ≠ cell then g.modify old (fun c => { c with type := .EMPTY }) else g
        | none => g
      let g2 := g1.resetPath
      let g3 := g2.modify cell (fun c => { c with type := type })
      ({ g3 with startCell := some cell, bunnyPosition := some (cell.row, cell.col) }, true)
    else if type = .END then
      let g1 := match g.endCell with
        | some old => if old ≠ cell then g.modify old (fun c => { c with type := .EMPTY }) else g
        | none => g
      let g2 := g1.resetPath
      let g3 := g2.modify cell (fun c => { c with type := type })
      ({ g3 with endCell := some cell }, true)
    else
      (g.modify cell (fun c => { c with type := type }), true)

/-- The method `toggleCellObstacle(row, col)`: the new grid and the returned flag. -/
def Grid.toggleCellObstacle (g : Grid) (row col : Int) : Grid × Bool :=
  match g.getCell row col with
  | none => (g, false)
  | some cell =>
    if (g.store cell).type = .EMPTY then
      (g.modify cell (fun c => { c with type := .OBSTACLE }), true)
    else if (g.store cell).type = .OBSTACLE then
      (g.modify cell (fun c => { c with type := .EMPTY }), true)
    else (g, true)

/-- The method `resize(newRows, newCols)`. -/
def Grid.resize (g : Grid) (newRows newCols : Nat) : Grid :=
  Grid.initCells { g with rows := newRows, cols := newCols }

/-! ## Search engine (`algorithms.js`) -/

/-- The fields of a `PathfindingAlgorithm` instance that a run reads or writes. -/
structure Engine where
  grid : Grid
  isRunning : Bool
  shouldStop : Bool

/-- A callback invocation. -/
inductive Event where
  | nodeVisited (cell : CellId)
  | pathFound (path : List CellId)
  deriving DecidableEq, Repr

/-- The two search procedures; `astar` carries the heuristic it calls. -/
inductive Algorithm where
  | dijkstra
  | astar (heuristic : CellId → CellId → Nat)

/-- The method `calculateHeuristic(cellA, cellB)`. -/
def calculateHeuristic (cellA cellB : CellId) : Nat :=
  ((cellA.row : Int) - cellB.row).natAbs + ((cellA.col : Int) - cellB.col).natAbs

/-- The array `directions` of `getNeighbors`. -/
def directions : List (Int × Int) := [(-1, 0), (1, 0), (0, -1), (0, 1)]

/-- The method `getNeighbors(cell)`. -/
def getNeighbors (g : Grid) (cell : CellId) : List CellId :=
  directions.filterMap fun dir =>
    match g.getCell (cell.row + dir.1) (cell.col + dir.2) with
    | some neighbor => if (g.store neighbor).type ≠ .OBSTACLE then some neighbor else none
    | none => none

/-- The local and instance variables of a run while its `while` loop executes. -/
structure Search where
  grid : Grid
  shouldStop : Bool
  openSet : List CellId
  closedSet : List CellId
  delays : Nat
  events : List Event

/-- One `await this.delayExecution(..)`: `stop()` may be called meanwhile. -/
def Search.delayExecution (stops : Nat → Bool) (st : Search) : Search :=
  { st with shouldStop := st.shouldStop || stops st.delays, delays := st.delays + 1 }

/-- The key of the comparator passed to `openSet.sort`: `g` or `f`. -/
def sortKey (alg : Algorithm) (g : Grid) (c : CellId) : Num :=
  match alg with
  | .dijkstra => (g.store c).g
  | .astar _ => (g.store c).f

/-- Insert `x` into a sorted list before the first element that does not sort
before it (`key y - key x` is not negative). -/
def insertSorted (key : CellId → Num) (x : CellId) : List CellId → List CellId
  | [] => [x]
  | y :: ys => if Num.lt (key y) (key x) then y :: insertSorted key x ys else x :: y :: ys

/-- The call `openSet.sort((a, b) => key a - key b)`: a stable sort. -/
def sortCells (key : CellId → Num) (l : List CellId) : List CellId :=
  l.foldr (insertSorted key) []

/-- The assignments of the initialisation loop for one cell. -/
def initCell (alg : Algorithm) (c : Cell) : Cell :=
  match alg with
  | .dijkstra => { c with g := .inf, parent := none }
  | .astar _ => { c with g := .inf, h := .fin 0, f := .inf, parent := none }

/-- The assignments to the start cell that follow the initialisation loop. -/
def initStart (alg : Algorithm) (s t : CellId) (c : Cell) : Cell :=
  match alg with
  | .dijkstra => { c with g := .fin 0 }
  | .astar heuristic => { c with g := .fin 0, h := .fin (heuristic s t), f := .fin (heuristic s t) }

/-- The state of a run when it first reaches its `while` loop. -/
def initSearch (alg : Algorithm) (e : Engine) (s t : CellId) : Search :=
  { grid := ((e.grid.forEachCell (initCell alg)).modify s (initStart alg s t))
    shouldStop := false
    openSet := [s]
    closedSet := []
    delays := 0
    events := [] }

/-- The assignments that update a neighbour (`neighbor.g = tentativeG; ...`). -/
def relaxCell (alg : Algorithm) (t current neighbor : CellId) (tentativeG : Num) (c : Cell) :
    Cell :=
  match alg with
  | .dijkstra => { c with g := tentativeG, parent := some current }
  | .astar heuristic =>
    { c with g := tentativeG, h := .fin (heuristic neighbor t),
             f := tentativeG.add (.fin (heuristic neighbor t)), parent := some current }

/-- The body of `for (const neighbor of neighbors)`. -/
def relaxNeighbor (alg : Algorithm) (t current : CellId) (st : Search) (neighbor : CellId) :
    Search :=
  if neighbor ∈ st.closedSet then st
  else
    let tentativeG := ((st.grid.store current).g).add (.fin 1)
    if Num.lt tentativeG (st.grid.store neighbor).g = true ∨ neighbor ∉ st.openSet then
      { st with
        grid := st.grid.modify neighbor (relaxCell alg t current neighbor tentativeG)
        openSet := if neighbor ∈ st.openSet then st.openSet else st.openSet ++ [neighbor] }
    else st

/-- The "mark as visited" block of the loop body. -/
def markVisited (stops : Nat → Bool) (s t current : CellId) (st : Search) : Search :=
  if current ≠ s ∧ current ≠ t then
    let st1 := { st with grid := st.grid.modify current (fun c => { c with type := .VISITED }) }
    let st2 := st1.delayExecution stops
    { st2 with events := st2.events ++ [Event.nodeVisited current] }
  else st

/-- How one evaluation of the `while` loop ends. -/
inductive StepResult where
  | next (st : Search)
  | found (st : Search)
  | exhausted (st : Search)

/-- One evaluation of the `while` condition and, if it holds, of the loop body up
to the call of `reconstructPath` (`found`) or to the end of the body (`next`). -/
def searchStep (alg : Algorithm) (stops : Nat → Bool) (s t : CellId) (st : Search) :
    StepResult :=
  if st.openSet = [] ∨ st.shouldStop = true then .exhausted st
  else
    match sortCells (sortKey alg st.grid) st.openSet with
    | [] => .exhausted st
    | current :: rest =>
      if current = t then .found { st with openSet := rest }
      else
        let st1 := { st with openSet := rest, closedSet := current :: st.closedSet }
        let st2 := markVisited stops s t current st1
        .next ((getNeighbors st2.grid current).foldl (relaxNeighbor alg t current) st2)

/-- The `while` loop, with fuel. -/
def searchLoop (alg : Algorithm) (stops : Nat → Bool) (s t : CellId) :
    Nat → Search → Option StepResult
  | 0, _ => none
  | fuel + 1, st =>
    match searchStep alg stops s t st with
    | .next st1 => searchLoop alg stops s t fuel st1
    | r => some r

/-- The `while (current && current.parent)` loop of `reconstructPath`, with fuel. -/
def parentWalk (store : CellId → Cell) : Nat → CellId → List CellId → Option (List CellId)
  | 0, _, _ => none
  | fuel + 1, current, path =>
    match (store current).parent with
    | none => some path
    | some p => parentWalk store fuel p (current :: path)

/-- The `for (const cell of path)` loop of `reconstructPath`. -/
def revealPath (stops : Nat → Bool) : List CellId → Search → Search
  | [], st => st
  | cell :: more, st =>
    if st.shouldStop = true then st
    else if (st.grid.store cell).type ≠ .START ∧ (st.grid.store cell).type ≠ .END then
      let st1 := { st with grid := st.grid.modify cell (fun c => { c with type := .PATH }) }
      let st2 := st1.delayExecution stops
      revealPath stops more { st2 with events := st2.events ++ [Event.nodeVisited cell] }
    else revealPath stops more st

/-- The method `reconstructPath(endCell)`: the returned array and the state after it. -/
def reconstructPath (stops : Nat → Bool) (fuel : Nat) (endCell : CellId) (st : Search) :
    Option (List CellId × Search) :=
  match parentWalk st.grid.store fuel endCell [] with
  | none => none
  | some path => some (path, revealPath stops path st)

/-- What a run leaves behind: the returned value (`none` is `null`), the engine
and the callback invocations in order. -/
structure RunResult where
  path : Option (List CellId)
  engine : Engine
  events : List Event

/-- The common shape of `runDijkstra` and `runAStar`. -/
def runSearch (alg : Algorithm) (fuel : Nat) (stops : Nat → Bool) (e : Engine) :
    Option RunResult :=
  match e.grid.startCell, e.grid.endCell with
  | some s, some t =>
    match searchLoop alg stops s t fuel (initSearch alg e s t) with
    | none => none
    | some (.next _) => none
    | some (.exhausted st) =>
      some { path := none
             engine := { grid := st.grid, isRunning := false, shouldStop := st.shouldStop }
             events := st.events }
    | some (.found st) =>
      match reconstructPath stops fuel t st with
      | none => none
      | some (path, st1) =>
        some { path := some path
               engine := { grid := st1.grid, isRunning := false, shouldStop := st1.shouldStop }
               events := st1.events ++ [Event.pathFound path] }
  | _, _ => some { path := none, engine := e, events := [] }

/-- The method `runDijkstra()`. -/
def runDijkstra (fuel : Nat) (stops : Nat → Bool) (e : Engine) : Option RunResult :=
  runSearch .dijkstra fuel stops e

/-- The method `runAStar()`. -/
def runAStar (fuel : Nat) (stops : Nat → Bool) (e : Engine) : Option RunResult :=
  runSearch (.astar calculateHeuristic) fuel stops e

/-- The state at the `n`-th evaluation of the `while` condition after `st`, if the
loop gets that far. -/
def searchStates (alg : Algorithm) (stops : Nat → Bool) (s t : CellId) :
    Nat → Search → Option Search
  | 0, st => some st
  | n + 1, st =>
    match searchStep alg stops s t st with
    | .next st1 => searchStates alg stops s t n st1
    | _ => none

/-! ## Notions used to state the properties -/

/-- Manhattan distance between the positions of two cells. -/
def manhattan (a b : CellId) : Nat :=
  ((a.row : Int) - (b.row : Int)).natAbs + ((a.col : Int) - (b.col : Int)).natAbs

/-- One move of a route: `b` is a cell of the grid, is not an Obstacle and is
4-adjacent to `a`. -/
def StepOk (g : Grid) (a b : CellId) : Prop :=
  g.isLive b = true ∧ (g.store b).type ≠ .OBSTACLE ∧ manhattan a b = 1

instance (g : Grid) (a b : CellId) : Decidable (StepOk g a b) := by
  unfold StepOk; infer_instance

/-- A 4-directional route from `s` to `t`, given as its sequence of cells: every
cell after the first is a non-Obstacle cell of the grid 4-adjacent to the one
before it. -/
def IsRoute (g : Grid) (s t : CellId) (p : List CellId) : Prop :=
  p.head? = some s ∧ p.getLast? = some t ∧ List.Chain' (StepOk g) p

instance (g : Grid) (s t : CellId) (p : List CellId) : Decidable (IsRoute g s t p) := by
  unfold IsRoute; infer_instance

/-- The start reference names a cell of the grid, or an object without parent. -/
def StartSane (g : Grid) (s : CellId) : Prop :=
  g.isLive s = true ∨ (g.store s).parent = none

instance (g : Grid) (s : CellId) : Decidable (StartSane g s) := by
  unfold StartSane; infer_instance

/-- The start reference, when set, names an object without parent.  Every grid built
by the constructor and changed by the methods of `Grid` and by runs is such. -/
def Grid.StartParentless (g : Grid) : Prop :=
  ∀ s, g.startCell = some s → (g.store s).parent = none

/-- The objects held in `this.cells`, row by row. -/
def Grid.liveCells (g : Grid) : List CellId :=
  (List.range g.rows).flatMap fun i => (List.range g.cols).map fun j => g.cellAt i j

/-- The value `g` of a cell in a search state. -/
def Search.gOf (st : Search) (c : CellId) : Num := (st.grid.store c).g

/-- The estimate added to `g` in the sort key: nothing for Dijkstra, the heuristic
towards the end cell for A*. -/
def hfun (alg : Algorithm) (t v : CellId) : Nat :=
  match alg with
  | .dijkstra => 0
  | .astar heuristic => heuristic v t

/-- Consistency of the estimate along the moves of the grid. -/
def Consistent (alg : Algorithm) (g : Grid) (t : CellId) : Prop :=
  ∀ a b, b ∈ getNeighbors g a → hfun alg t a ≤ hfun alg t b + 1

/-- Routes counted by their number of moves: `Reach g a n b` holds when `b` is
reached from `a` by `n` successive neighbour expansions. -/
inductive Reach (g : Grid) (a : CellId) : Nat → CellId → Prop where
  | refl : Reach g a 0 a
  | step {n : Nat} {b c : CellId} : Reach g a n b → c ∈ getNeighbors g b → Reach g a (n + 1) c

/-- The head of a list sorts before none of the other elements. -/
def HeadMin (key : CellId → Num) : List CellId → Prop
  | [] => True
  | x :: xs => ∀ y ∈ xs, Num.lt (key y) (key x) = false

/-- The invariant of the `while` loop of a run on the grid `g0` from `s` to `t`.
The predicate `P` selects the pairs (closed cell, neighbour) whose relaxation is
complete: all of them at the loop head, all but the pending neighbours of the
current cell inside the loop body. -/
structure Inv (alg : Algorithm) (g0 : Grid) (s t : CellId) (P : CellId → CellId → Prop)
    (st : Search) : Prop where
  rows_eq : st.grid.rows = g0.rows
  cols_eq : st.grid.cols = g0.cols
  gen_eq : st.grid.gen = g0.gen
  start_eq : st.grid.startCell = g0.startCell
  end_eq : st.grid.endCell = g0.endCell
  obst : ∀ c, (st.grid.store c).type = .OBSTACLE ↔ (g0.store c).type = .OBSTACLE
  open_nodup : st.openSet.Nodup
  closed_nodup : st.closedSet.Nodup
  disj : ∀ c ∈ st.openSet, c ∉ st.closedSet
  start_seen : s ∈ st.closedSet ∨ (st.openSet = [s] ∧ st.closedSet = [])
  start_g : st.gOf s = .fin 0
  start_parent : StartSane g0 s → (st.grid.store s).parent = none
  end_open : t ∉ st.closedSet
  finite : ∀ v, v ∈ st.openSet ∨ v ∈ st.closedSet → ∃ n, st.gOf v = .fin n
  tree : ∀ v, v ∈ st.openSet ∨ v ∈ st.closedSet → v ≠ s →
    ∃ p, p ∈ st.closedSet ∧ (st.grid.store v).parent = some p ∧ v ∈ getNeighbors g0 p ∧
      st.gOf v = (st.gOf p).add (.fin 1)
  edge : ∀ u ∈ st.closedSet, ∀ w ∈ getNeighbors g0 u, P u w →
    w ∈ st.closedSet ∨ (w ∈ st.openSet ∧ Num.lt ((st.gOf u).add (.fin 1)) (st.gOf w) = false)
  optimal : ∀ u ∈ st.closedSet, ∀ k, Reach g0 s k u → Num.lt (.fin k) (st.gOf u) = false
  key : ∀ v ∈ st.openSet, sortKey alg st.grid v = (st.gOf v).add (.fin (hfun alg t v))
  unseen : ∀ v, g0.isLive v = true → v ∉ st.openSet → v ∉ st.closedSet →
    st.gOf v = .inf ∧ (st.grid.store v).parent = none
  visited : ∀ c ∈ st.closedSet, c ≠ s → (st.grid.store c).type = .VISITED
  untouched : ∀ c, c ∉ st.closedSet ∨ c = s → (st.grid.store c).type = (g0.store c).type
  stale_parent : ∀ c, g0.isLive c = false → (st.grid.store c).parent = (g0.store c).parent
  stale_store : ∀ c, g0.isLive c = false → c ≠ s → st.grid.store c = g0.store c
  bound_open : ∀ v ∈ st.openSet, Num.lt (.fin st.closedSet.length) (st.gOf v) = false
  bound_closed : ∀ v ∈ st.closedSet, Num.lt (st.gOf v) (.fin st.closedSet.length) = true

/-- No call of `stop()` during the run. -/
def noStop : Nat → Bool := fun _ => false

/-! ## Concrete grids -/

/-- An engine that has not run yet on the grid `g`. -/
def Engine.idle (g : Grid) : Engine :=
  { grid := g, isRunning := false, shouldStop := false }

/-- A 6 x 6 grid on which neither Start nor End has been placed. -/
def scenarioUnset : Engine := Engine.idle (Grid.new 6 6)

/-- Scenario A: a 5 x 5 grid without obstacles, Start at (0,0), End at (4,4). -/
def scenarioA : Engine :=
  Engine.idle (((Grid.new 5 5).setCellType 0 0 .START).1.setCellType 4 4 .END).1

/-- Scenario B: a 6 x 6 grid on which Start and End are placed on the cell (2,3). -/
def scenarioB : Engine :=
  Engine.idle (((Grid.new 6 6).setCellType 2 3 .START).1.setCellType 2 3 .END).1

/-- Scenario C: a 4 x 4 grid, Start at (0,0), End at the corner (3,3), whose two
neighbours (2,3) and (3,2) are obstacles. -/
def scenarioC : Engine :=
  Engine.idle
    (((((Grid.new 4 4).setCellType 0 0 .START).1.setCellType 3 3 .END).1.toggleCellObstacle
      2 3).1.toggleCellObstacle 3 2).1

/-- Scenario D: a 3 x 3 grid, Start at (1,0), End at (1,2), one obstacle at (1,1):
two shortest routes of four moves go round the obstacle. -/
def scenarioD : Engine :=
  Engine.idle
    ((((Grid.new 3 3).setCellType 1 0 .START).1.setCellType 1 2 .END).1.toggleCellObstacle
      1 1).1

/-- End is walled off from Start: Start is not next to End and every cell of the
grid next to End is an Obstacle. -/
def WalledOff (g : Grid) (s t : CellId) : Prop :=
  s ≠ t ∧ manhattan s t ≠ 1 ∧
    ∀ c, g.isLive c = true → manhattan c t = 1 → (g.store c).type = .OBSTACLE

/-! ## Grid model, continued (`grid.js`) -/

/-- The numbers picked by one iteration of the loop of `randomizeStartAndEnd()`: the
values of `Math.floor(Math.random() * this.rows)`, `... * this.cols` for the start and
then for the end position. -/
structure Draw where
  startRow : Nat
  startCol : Nat
  endRow : Nat
  endCol : Nat
  deriving DecidableEq, Repr

/-- The test of `randomizeStartAndEnd()` that sets `validPositions`: both cells exist,
neither is an obstacle and they are at least 5 cells apart. -/
def Grid.validPositions (g : Grid) (d : Draw) : Bool :=
  match g.getCell d.startRow d.startCol, g.getCell d.endRow d.endCol with
  | some startCell, some endCell =>
    decide ((g.store startCell).type ≠ .OBSTACLE ∧ (g.store endCell).type ≠ .OBSTACLE ∧
      5 ≤ ((d.startRow : Int) - d.endRow).natAbs + ((d.startCol : Int) - d.endCol).natAbs)
  | _, _ => false

/-- The method `randomizeStartAndEnd()`.  `draws` lists the numbers picked by the
successive iterations of its `while` loop; the result is `none` when none of them ends
the loop. -/
def Grid.randomizeStartAndEnd (g : Grid) (draws : List Draw) : Option Grid :=
  let g1 := match g.startCell with
    | some s => g.modify s (fun c => { c with type := .EMPTY })
    | none => g
  let g2 := match g1.endCell with
    | some t => g1.modify t (fun c => { c with type := .EMPTY })
    | none => g1
  let g3 := { g2 with startCell := none, endCell := none }
  match draws.find? g3.validPositions with
  | none => none
  | some d =>
    let g4 := (g3.setCellType d.startRow d.startCol .START).1
    let g5 := (g4.setCellType d.endRow d.endCol .END).1
    some { g5 with bunnyPosition := some (d.startRow, d.startCol) }

/-- The method `clear()` of `js/grid.js`. -/
def Grid.clear (g : Grid) (draws : List Draw) : Option Grid :=
  Grid.randomizeStartAndEnd
    (Grid.initCells { g with startCell := none, endCell := none, pathCells := [] }) draws

/-- A call of one of the editing methods of `Grid`. -/
inductive GridOp where
  | setCellType (row col : Int) (type : CellType)
  | toggleCellObstacle (row col : Int)
  | resetPath

/-- The grid after the call `op`. -/
def Grid.apply (g : Grid) : GridOp → Grid
  | .setCellType row col type => (g.setCellType row col type).1
  | .toggleCellObstacle row col => (g.toggleCellObstacle row col).1
  | .resetPath => g.resetPath

/-- The grid after a sequence of calls. -/
def Grid.applyAll (g : Grid) : List GridOp → Grid
  | [] => g
  | op :: ops => Grid.applyAll (g.apply op) ops

/-- Whether the call `op` leaves the referenced cells their types: a `setCellType` call
respects the grid when it gives the cell referenced as Start no type but START and the
cell referenced as End no type but END.  The other calls always do. -/
def GridOp.respects (g : Grid) : GridOp → Bool
  | .setCellType row col type =>
    match g.getCell row col with
    | none => true
    | some cell =>
      (decide (g.startCell ≠ some cell) || decide (type = .START)) &&
        (decide (g.endCell ≠ some cell) || decide (type = .END))
  | _ => true

/-- Whether every call of the sequence respects the grid it is applied to. -/
def Grid.respectsAll (g : Grid) : List GridOp → Bool
  | [] => true
  | op :: ops => op.respects g && Grid.respectsAll (g.apply op) ops

/-! ## The grid class of `assets/js/grid.js`

Its instances have no `pathCells` and no `bunnyPosition`; these two fields of `Grid`
are carried along unchanged. -/

/-- The constructor `new Grid(rows, cols)` of `assets/js/grid.js`. -/
def Assets.new (rows cols : Nat) : Grid := Grid.new rows cols

/-- The method `resize(newRows, newCols)` of `assets/js/grid.js`. -/
def Assets.resize (g : Grid) (newRows newCols : Nat) : Grid :=
  Grid.initCells { g with rows := newRows, cols := newCols }

/-- The method `setCellType(row, col, type)` of `assets/js/grid.js`. -/
def Assets.setCellType (g : Grid) (row col : Int) (type : CellType) : Grid × Bool :=
  match g.getCell row col with
  | none => (g, false)
  | some cell =>
    let g1 :=
      if type = .START then
        let g0 := match g.startCell with
          | some old => g.modify old (fun c => { c with type := .EMPTY })
          | none => g
        { g0 with startCell := some cell }
      else if type = .END then
        let g0 := match g.endCell with
          | some old => g.modify old (fun c => { c with type := .EMPTY })
          | none => g
        { g0 with endCell := some cell }
      else g
    (g1.modify cell (fun c => { c with type := type }), true)

/-- The method `toggleCellObstacle(row, col)` of `assets/js/grid.js`. -/
def Assets.toggleCellObstacle (g : Grid) (row col : Int) : Grid × Bool :=
  match g.getCell row col with
  | none => (g, false)
  | some cell =>
    if (g.store cell).type = .EMPTY then
      (g.modify cell (fun c => { c with type := .OBSTACLE }), true)
    else if (g.store cell).type = .OBSTACLE then
      (g.modify cell (fun c => { c with type := .EMPTY }), true)
    else (g, true)

/-- The body of the loop of `resetPath()` of `assets/js/grid.js` for one cell. -/
def Assets.resetPathCell (c : Cell) : Cell :=
  { type := if c.type = .PATH ∨ c.type = .VISITED then .EMPTY else c.type
    f := .fin 0, g := .fin 0, h := .fin 0, parent := none }

/-- The method `resetPath()` of `assets/js/grid.js`. -/
def Assets.resetPath (g : Grid) : Grid :=
  g.forEachCell Assets.resetPathCell

/-- The method `clear()` of `assets/js/grid.js`. -/
def Assets.clear (g : Grid) : Grid :=
  Grid.initCells { g with startCell := none, endCell := none }

/-- The grid after a sequence of `setCellType` calls (`js/grid.js`). -/
def Grid.setCellTypes (g : Grid) : List (Int × Int × CellType) → Grid
  | [] => g
  | (row, col, type) :: calls => Grid.setCellTypes (g.setCellType row col type).1 calls

/-- The grid after a sequence of `setCellType` calls (`assets/js/grid.js`). -/
def Assets.setCellTypes (g : Grid) : List (Int × Int × CellType) → Grid
  | [] => g
  | (row, col, type) :: calls => Assets.setCellTypes (Assets.setCellType g row col type).1 calls

/-- A schedule on which `stop()` is called during the `k`-th delay only. -/
def stopAt (k : Nat) : Nat → Bool := fun i => decide (i = k)

/-- Every cell typed START is the one referenced as Start and every cell typed END is
the one referenced as End. -/
def Grid.MarksReferenced (g : Grid) : Prop :=
  (∀ c, (g.store c).type = .START → g.startCell = some c) ∧
    (∀ c, (g.store c).type = .END → g.endCell = some c)

/-- The cell referenced as Start is typed START and the cell referenced as End is
typed END. -/
def Grid.RefsTyped (g : Grid) : Prop :=
  (∀ c, g.startCell = some c → (g.store c).type = .START) ∧
    (∀ c, g.endCell = some c → (g.store c).type = .END)

/-- A new 6 x 6 grid after `setCellType(0,0,START)` and `setCellType(5,5,END)`. -/
def gridWithEndpoints : Grid :=
  (((Grid.new 6 6).setCellType 0 0 .START).1.setCellType 5 5 .END).1

/-- The same two calls on the grid class of `assets/js/grid.js`. -/
def Assets.gridWithEndpoints : Grid :=
  (Assets.setCellType (Assets.setCellType (Assets.new 6 6) 0 0 .START).1 5 5 .END).1

/-- A sequence of edits none of which retypes a referenced cell. -/
def respectfulEdits : List GridOp :=
  [.setCellType 0 0 .START, .setCellType 5 5 .END, .toggleCellObstacle 2 2,
    .setCellType 0 1 .START, .setCellType 0 0 .PLANT, .resetPath]

/-- The grid that an uncancelled `runDijkstra()` leaves on Scenario D. -/
def gridAfterRun : Grid :=
  match runDijkstra 12 noStop scenarioD with
  | some r => r.engine.grid
  | none => scenarioD.grid

/-- Two successive picks of `randomizeStartAndEnd()` on a 6 x 6 grid: the first is
rejected (the cells are 2 apart), the second is accepted. -/
def exampleDraws : List Draw :=
  [⟨0, 0, 1, 1⟩, ⟨1, 2, 5, 5⟩]

/-! ## Runs, continued (`algorithms.js`) -/

/-- The cells passed to `onNodeVisited`, in the order of the invocations. -/
def visitedCells : List Event → List CellId
  | [] => []
  | .nodeVisited c :: more => c :: visitedCells more
  | .pathFound _ :: more => visitedCells more

/-- The variables of a run when its `while` loop is left: at the failing evaluation of
the loop condition, or when the end cell has been taken from the open set. -/
def finalSearch (alg : Algorithm) (fuel : Nat) (stops : Nat → Bool) (e : Engine) :
    Option Search :=
  match e.grid.startCell, e.grid.endCell with
  | some s, some t =>
    match searchLoop alg stops s t fuel (initSearch alg e s t) with
    | some (.exhausted st) => some st
    | some (.found st) => some st
    | _ => none
  | _, _ => none

/-- The expanded cells of a run in the order of their expansion: the insertion order of
`closedSet`. -/
def expandedCells (alg : Algorithm) (fuel : Nat) (stops : Nat → Bool) (e : Engine) :
    Option (List CellId) :=
  (finalSearch alg fuel stops e).map fun st => st.closedSet.reverse

/-- The method `runAStar()` of an instance whose `calculateHeuristic` is `heuristic`. -/
def runAStarWith (heuristic : CellId → CellId → Nat) (fuel : Nat) (stops : Nat → Bool)
    (e : Engine) : Option RunResult :=
  runSearch (.astar heuristic) fuel stops e

/-- The heuristic that is identically 0. -/
def zeroHeuristic : CellId → CellId → Nat := fun _ _ => 0

/-- The body of `for (const neighbor of neighbors)` as the description of the relaxation
words it: a neighbour outside the closed set is updated exactly when
`tentativeG < neighbor.g`, without the disjunct `!openSet.includes(neighbor)`. -/
def relaxNeighborStrict (alg : Algorithm) (t current : CellId) (st : Search)
    (neighbor : CellId) : Search :=
  if neighbor ∈ st.closedSet then st
  else
    let tentativeG := ((st.grid.store current).g).add (.fin 1)
    if Num.lt tentativeG (st.grid.store neighbor).g = true then
      { st with
        grid := st.grid.modify neighbor (relaxCell alg t current neighbor tentativeG)
        openSet := if neighbor ∈ st.openSet then st.openSet else st.openSet ++ [neighbor] }
    else st

/-- The loop step with the relaxation of `relaxNeighborStrict`. -/
def searchStepStrict (alg : Algorithm) (stops : Nat → Bool) (s t : CellId) (st : Search) :
    StepResult :=
  if st.openSet = [] ∨ st.shouldStop = true then .exhausted st
  else
    match sortCells (sortKey alg st.grid) st.openSet with
    | [] => .exhausted st
    | current :: rest =>
      if current = t then .found { st with openSet := rest }
      else
        let st1 := { st with openSet := rest, closedSet := current :: st.closedSet }
        let st2 := markVisited stops s t current st1
        .next ((getNeighbors st2.grid current).foldl (relaxNeighborStrict alg t current) st2)

/-- The `while` loop with the relaxation of `relaxNeighborStrict`. -/
def searchLoopStrict (alg : Algorithm) (stops : Nat → Bool) (s t : CellId) :
    Nat → Search → Option StepResult
  | 0, _ => none
  | fuel + 1, st =>
    match searchStepStrict alg stops s t st with
    | .next st1 => searchLoopStrict alg stops s t fuel st1
    | r => some r

/-- The run with the relaxation of `relaxNeighborStrict`. -/
def runSearchStrict (alg : Algorithm) (fuel : Nat) (stops : Nat → Bool) (e : Engine) :
    Option RunResult :=
  match e.grid.startCell, e.grid.endCell with
  | some s, some t =>
    match searchLoopStrict alg stops s t fuel (initSearch alg e s t) with
    | none => none
    | some (.next _) => none
    | some (.exhausted st) =>
      some { path := none
             engine := { grid := st.grid, isRunning := false, shouldStop := st.shouldStop }
             events := st.events }
    | some (.found st) =>
      match reconstructPath stops fuel t st with
      | none => none
      | some (path, st1) =>
        some { path := some path
               engine := { grid := st1.grid, isRunning := false, shouldStop := st1.shouldStop }
               events := st1.events ++ [Event.pathFound path] }
  | _, _ => some { path := none, engine := e, events := [] }

/-- The cell reached from `c` by following `k` parent links, if there are that many. -/
def nthParent (store : CellId → Cell) : Nat → CellId → Option CellId
  | 0, c => some c
  | k + 1, c =>
    match (store c).parent with
    | none => none
    | some p => nthParent store k p

/-- The parent links of the cells of the grid `g0` form a tree rooted at `s` whose depth
is `g`: `s` has `g = 0` and no parent; a cell with a parent has the `g` of its parent
plus one and is 4-adjacent to it; from a cell with `g = k` exactly `k` links lead to `s`,
where the links end; and no positive number of links leads from a cell back to it. -/
def ParentTree (g0 : Grid) (s : CellId) (store : CellId → Cell) : Prop :=
  ((store s).g = .fin 0 ∧ (store s).parent = none) ∧
  (∀ c p, g0.isLive c = true → (store c).parent = some p →
    (store c).g = ((store p).g).add (.fin 1) ∧ manhattan p c = 1) ∧
  (∀ c k, g0.isLive c = true → (store c).g = .fin k →
    nthParent store k c = some s ∧ nthParent store (k + 1) c = none) ∧
  (∀ c k, g0.isLive c = true → 0 < k → nthParent store k c ≠ some c)

/-- Two runs in lockstep: the loop variables agree, the cells agree on their types, and
on the cells of `D`, which hold the open and closed sets, the cells of the grid and
every parent of a cell of `D`, they agree on `g` and `parent`; the cells of the open set
have the same sort key in both. -/
structure Sim (D : CellId → Prop) (alg1 alg2 : Algorithm) (st1 st2 : Search) : Prop where
  openSet_eq : st1.openSet = st2.openSet
  closedSet_eq : st1.closedSet = st2.closedSet
  shouldStop_eq : st1.shouldStop = st2.shouldStop
  delays_eq : st1.delays = st2.delays
  events_eq : st1.events = st2.events
  rows_eq : st1.grid.rows = st2.grid.rows
  cols_eq : st1.grid.cols = st2.grid.cols
  gen_eq : st1.grid.gen = st2.grid.gen
  type_eq : ∀ c, (st1.grid.store c).type = (st2.grid.store c).type
  g_eq : ∀ c, D c → (st1.grid.store c).g = (st2.grid.store c).g
  parent_eq : ∀ c, D c → (st1.grid.store c).parent = (st2.grid.store c).parent
  key_eq : ∀ c ∈ st1.openSet, sortKey alg1 st1.grid c = sortKey alg2 st2.grid c
  dom : ∀ c, c ∈ st1.openSet ∨ c ∈ st1.closedSet → D c
  up : ∀ c p, D c → (st1.grid.store c).parent = some p → D p
  live : ∀ c, st1.grid.isLive c = true → D c

/-- Scenario D with stale search values in every cell: `g = 7`, `f = 9`, `h = 2` and the
cell (2,2) as parent. -/
def scenarioDStale : Engine :=
  Engine.idle (scenarioD.grid.forEachCell fun c =>
    { c with f := .fin 9, g := .fin 7, h := .fin 2, parent := some ⟨1, 2, 2⟩ })

/-! ## Renderer (`drawing.js`) -/

/-- The fields of a `GridRenderer` read by `canvasToGridCoordinates`; canvas coordinates
are exact rationals. -/
structure GridRenderer where
  grid : Grid
  cellSize : ℚ
  offsetX : ℚ
  offsetY : ℚ

/-- The method `canvasToGridCoordinates(canvasX, canvasY)`: `none` is `null`, otherwise
the pair `(row, col)`. -/
def GridRenderer.canvasToGridCoordinates (r : GridRenderer) (canvasX canvasY : ℚ) :
    Option (Int × Int) :=
  if canvasX < r.offsetX ∨ canvasX > r.offsetX + r.grid.cols * r.cellSize ∨
      canvasY < r.offsetY ∨ canvasY > r.offsetY + r.grid.rows * r.cellSize then none
  else
    let gridCol := Rat.floor ((canvasX - r.offsetX) / r.cellSize)
    let gridRow := Rat.floor ((canvasY - r.offsetY) / r.cellSize)
    some (gridRow, gridCol)

/-- A renderer of a 6 x 6 grid on a canvas of 800 x 600: cells of size 100, the grid
between x = 100 and x = 700. -/
def rendererExample : GridRenderer :=
  { grid := Grid.new 6 6, cellSize := 100, offsetX := 100, offsetY := 0 }

/-! ## Bunny (`characters.js`) -/

/-- The fields of a `BunnyCharacter` that decide where it walks.  The animation and
`moveProgress`, which only time the walk from one position to the next, are left out. -/
structure BunnyCharacter where
  currentPosition : Option (Nat × Nat)
  targetPosition : Option (Nat × Nat)
  path : List CellId
  isMoving : Bool
  deriving DecidableEq, Repr

/-- The position fields set by the constructor. -/
def BunnyCharacter.new : BunnyCharacter :=
  { currentPosition := none, targetPosition := none, path := [], isMoving := false }

/-- The method `setPosition(cell)`. -/
def BunnyCharacter.setPosition (_b : BunnyCharacter) (cell : Nat × Nat) : BunnyCharacter :=
  { currentPosition := some cell, targetPosition := none, path := [], isMoving := false }

/-- The method `setPath(path)`. -/
def BunnyCharacter.setPath (b : BunnyCharacter) (path : List CellId) : BunnyCharacter :=
  let p := if b.currentPosition.isSome = true ∧ 0 < path.length then path.tail else path
  match p with
  | [] => { b with path := p }
  | c :: _ => { b with path := p, targetPosition := some (c.row, c.col), isMoving := true }

/-- The branch `if (this.moveProgress >= 1)` of `update`: the bunny arrives at its
target and turns to the next cell of its path. -/
def BunnyCharacter.arrive (b : BunnyCharacter) : BunnyCharacter :=
  match b.isMoving, b.targetPosition with
  | true, some target =>
    match b.path.tail with
    | [] => { currentPosition := some target, targetPosition := none, path := [],
              isMoving := false }
    | c :: more => { currentPosition := some target, targetPosition := some (c.row, c.col),
                     path := c :: more, isMoving := true }
  | _, _ => b

/-- The moves of the walk, as pairs (position, target), for at most `n` arrivals. -/
def BunnyCharacter.moves : Nat → BunnyCharacter → List ((Nat × Nat) × (Nat × Nat))
  | 0, _ => []
  | n + 1, b =>
    match b.isMoving, b.currentPosition, b.targetPosition with
    | true, some pos, some target => (pos, target) :: BunnyCharacter.moves n b.arrive
    | _, _, _ => []

/-- What `visualizePath(path)` does to the bunny: for a path that is not empty
`setPathAsTilledDirt` resets the bunny to the start cell through `resetBunnyPosition`;
then `setPath(path)` is called. -/
def visualizePath (g : Grid) (b : BunnyCharacter) (path : List CellId) : BunnyCharacter :=
  let b1 :=
    if path = [] then b
    else
      match g.startCell with
      | some s => b.setPosition (s.row, s.col)
      | none => b
  b1.setPath path

variable {alg : Algorithm} {g0 : Grid} {s t : CellId}

/-! ## Numbers -/

@[simp] theorem Num.add_fin_fin (a b : Nat) : (Num.fin a).add (.fin b) = .fin (a + b) := rfl
@[simp] theorem Num.inf_add (b : Num) : Num.inf.add b = .inf := rfl
@[simp] theorem Num.add_inf (a : Num) : a.add .inf = .inf := by cases a <;> rfl
@[simp] theorem Num.lt_fin_fin (a b : Nat) : Num.lt (.fin a) (.fin b) = decide (a < b) := rfl
@[simp] theorem Num.lt_fin_inf (a : Nat) : Num.lt (.fin a) .inf = true := rfl
@[simp] theorem Num.inf_lt (b : Num) : Num.lt .inf b = false := rfl
@[simp] theorem Num.add_zero (a : Num) : a.add (.fin 0) = a := by cases a <;> simp [Num.add]

/-! ## Sorting -/

theorem insertSorted_perm (key : CellId → Num) (x : CellId) (l : List CellId) :
    (insertSorted key x l).Perm (x :: l) := by
  induction l with
  | nil => simp [insertSorted]
  | cons y ys ih =>
    unfold insertSorted
    split_ifs
    · exact (List.Perm.cons y ih).trans (List.Perm.swap x y ys)
    · exact List.Perm.refl _

theorem sortCells_perm (key : CellId → Num) (l : List CellId) : (sortCells key l).Perm l := by
  induction l with
  | nil => simp [sortCells]
  | cons x xs ih =>
    have h : sortCells key (x :: xs) = insertSorted key x (sortCells key xs) := rfl
    rw [h]
    exact (insertSorted_perm key x _).trans (List.Perm.cons x ih)

theorem Num.lt_trans_false {a b c : Num} (h1 : Num.lt b a = false) (h2 : Num.lt c b = false) :
    Num.lt c a = false := by
  cases a <;> cases b <;> cases c <;> simp_all [Num.lt]
  omega

theorem Num.lt_asymm_false {a b : Num} (h : Num.lt a b = true) : Num.lt b a = false := by
  cases a <;> cases b <;> simp_all [Num.lt]
  omega

theorem insertSorted_headMin (key : CellId → Num) (x : CellId) (l : List CellId)
    (h : HeadMin key l) : HeadMin key (insertSorted key x l) := by
  cases l with
  | nil => simp [insertSorted, HeadMin]
  | cons y ys =>
    unfold insertSorted
    split_ifs with hlt
    · intro z hz
      have hz' : z ∈ x :: ys := (insertSorted_perm key x ys).mem_iff.mp hz
      rcases List.mem_cons.mp hz' with rfl | hz''
      · exact Num.lt_asymm_false hlt
      · exact h z hz''
    · intro z hz
      rcases List.mem_cons.mp hz with rfl | hz''
      · simpa using hlt
      · exact Num.lt_trans_false (by simpa using hlt) (h z hz'')

theorem sortCells_headMin (key : CellId → Num) (l : List CellId) : HeadMin key (sortCells key l) := by
  induction l with
  | nil => simp [sortCells, HeadMin]
  | cons x xs ih =>
    have h : sortCells key (x :: xs) = insertSorted key x (sortCells key xs) := rfl
    rw [h]
    exact insertSorted_headMin key x _ ih

theorem sortCells_head {key : CellId → Num} {l : List CellId} {u : CellId} {rest : List CellId}
    (h : sortCells key l = u :: rest) :
    (u :: rest).Perm l ∧ ∀ y ∈ l, Num.lt (key y) (key u) = false := by
  have hp := sortCells_perm key l
  rw [h] at hp
  refine ⟨hp, fun y hy => ?_⟩
  have hm := sortCells_headMin key l
  rw [h] at hm
  rcases List.mem_cons.mp (hp.mem_iff.mpr hy) with rfl | hy'
  · cases hk : key y <;> simp [Num.lt]
  · exact hm y hy'

/-! ## Grid access -/

@[simp] theorem Grid.modify_rows (g : Grid) (c : CellId) (f : Cell → Cell) :
    (g.modify c f).rows = g.rows := rfl
@[simp] theorem Grid.modify_cols (g : Grid) (c : CellId) (f : Cell → Cell) :
    (g.modify c f).cols = g.cols := rfl
@[simp] theorem Grid.modify_gen (g : Grid) (c : CellId) (f : Cell → Cell) :
    (g.modify c f).gen = g.gen := rfl
@[simp] theorem Grid.modify_startCell (g : Grid) (c : CellId) (f : Cell → Cell) :
    (g.modify c f).startCell = g.startCell := rfl
@[simp] theorem Grid.modify_endCell (g : Grid) (c : CellId) (f : Cell → Cell) :
    (g.modify c f).endCell = g.endCell := rfl
theorem Grid.modify_store (g : Grid) (c : CellId) (f : Cell → Cell) (x : CellId) :
    (g.modify c f).store x = if x = c then f (g.store c) else g.store x := rfl
@[simp] theorem Grid.modify_store_self (g : Grid) (c : CellId) (f : Cell → Cell) :
    (g.modify c f).store c = f (g.store c) := by simp [Grid.modify_store]
theorem Grid.modify_store_ne (g : Grid) {c x : CellId} (f : Cell → Cell) (h : x ≠ c) :
    (g.modify c f).store x = g.store x := by simp [Grid.modify_store, h]

@[simp] theorem Grid.forEachCell_rows (g : Grid) (f : Cell → Cell) :
    (g.forEachCell f).rows = g.rows := rfl
@[simp] theorem Grid.forEachCell_cols (g : Grid) (f : Cell → Cell) :
    (g.forEachCell f).cols = g.cols := rfl
@[simp] theorem Grid.forEachCell_gen (g : Grid) (f : Cell → Cell) :
    (g.forEachCell f).gen = g.gen := rfl
@[simp] theorem Grid.forEachCell_startCell (g : Grid) (f : Cell → Cell) :
    (g.forEachCell f).startCell = g.startCell := rfl
@[simp] theorem Grid.forEachCell_endCell (g : Grid) (f : Cell → Cell) :
    (g.forEachCell f).endCell = g.endCell := rfl
theorem Grid.forEachCell_store (g : Grid) (f : Cell → Cell) (x : CellId) :
    (g.forEachCell f).store x = if g.isLive x then f (g.store x) else g.store x := rfl

theorem Grid.isLive_iff (g : Grid) (c : CellId) :
    g.isLive c = true ↔ c.gen = g.gen ∧ c.row < g.rows ∧ c.col < g.cols := by
  simp [Grid.isLive, and_assoc]

theorem Grid.isLive_congr {g g1 : Grid} (hr : g1.rows = g.rows) (hc : g1.cols = g.cols)
    (hg : g1.gen = g.gen) (c : CellId) : g1.isLive c = g.isLive c := by
  simp [Grid.isLive, hr, hc, hg]

theorem Grid.getCell_eq_some (g : Grid) (row col : Int) (b : CellId) :
    g.getCell row col = some b ↔
      0 ≤ row ∧ row < g.rows ∧ 0 ≤ col ∧ col < g.cols ∧ b.gen = g.gen ∧
        (b.row : Int) = row ∧ (b.col : Int) = col := by
  unfold Grid.getCell Grid.cellAt
  split_ifs with h
  · obtain ⟨h1, h2, h3, h4⟩ := h
    constructor
    · intro hb
      cases hb
      simp [h1, h2, h3, h4, Int.toNat_of_nonneg]
    · rintro ⟨-, -, -, -, hg, hr, hc⟩
      cases b
      simp at hg hr hc
      subst hg
      simp [← hr, ← hc]
  · constructor
    · intro hb; cases hb
    · rintro ⟨h1, h2, h3, h4, -⟩
      exact absurd ⟨h1, h2, h3, h4⟩ h

theorem mem_getNeighbors_iff (g : Grid) (a b : CellId) :
    b ∈ getNeighbors g a ↔ StepOk g a b := by
  unfold getNeighbors StepOk manhattan
  rw [List.mem_filterMap]
  constructor
  · rintro ⟨dir, hdir, hf⟩
    cases hgc : g.getCell (a.row + dir.1) (a.col + dir.2) with
    | none => simp [hgc] at hf
    | some n =>
      simp only [hgc] at hf
      split_ifs at hf with hty
      cases hf
      rw [Grid.getCell_eq_some] at hgc
      obtain ⟨h1, h2, h3, h4, h5, h6, h7⟩ := hgc
      refine ⟨?_, hty, ?_⟩
      · rw [Grid.isLive_iff]
        refine ⟨h5, ?_, ?_⟩ <;> omega
      · simp only [directions, List.mem_cons, List.mem_singleton, List.not_mem_nil, or_false] at hdir
        rcases hdir with rfl | rfl | rfl | rfl <;> simp at h6 h7 <;> omega
  · rintro ⟨hl, hty, hm⟩
    rw [Grid.isLive_iff] at hl
    obtain ⟨hg, hr, hc⟩ := hl
    have key : ∃ dir ∈ directions, (b.row : Int) = a.row + dir.1 ∧ (b.col : Int) = a.col + dir.2 := by
      simp only [directions, List.mem_cons, List.mem_singleton, List.not_mem_nil, or_false,
        exists_eq_or_imp, exists_eq_left]
      omega
    obtain ⟨dir, hdir, h6, h7⟩ := key
    refine ⟨dir, hdir, ?_⟩
    have : g.getCell (a.row + dir.1) (a.col + dir.2) = some b := by
      rw [Grid.getCell_eq_some]
      refine ⟨?_, ?_, ?_, ?_, hg, h6, h7⟩ <;> omega
    simp [this, hty]

theorem getNeighbors_congr {g g1 : Grid} (hr : g1.rows = g.rows) (hc : g1.cols = g.cols)
    (hg : g1.gen = g.gen)
    (ho : ∀ c, (g1.store c).type = .OBSTACLE ↔ (g.store c).type = .OBSTACLE) (a : CellId) :
    getNeighbors g1 a = getNeighbors g a := by
  unfold getNeighbors
  apply List.filterMap_congr
  intro dir _
  have hgc : g1.getCell (a.row + dir.1) (a.col + dir.2) = g.getCell (a.row + dir.1) (a.col + dir.2) := by
    unfold Grid.getCell Grid.cellAt
    rw [hr, hc, hg]
  rw [hgc]
  cases g.getCell (a.row + dir.1) (a.col + dir.2) with
  | none => rfl
  | some n =>
    simp only [ne_eq, ite_not]
    by_cases h : (g.store n).type = .OBSTACLE
    · simp [h, (ho n).mpr h]
    · have h1 : ¬ (g1.store n).type = .OBSTACLE := fun h1 => h ((ho n).mp h1)
      simp [h, h1]

/-! ## Cell updates -/

@[simp] theorem initCell_type (alg : Algorithm) (c : Cell) : (initCell alg c).type = c.type := by
  cases alg <;> rfl
@[simp] theorem initCell_g (alg : Algorithm) (c : Cell) : (initCell alg c).g = .inf := by
  cases alg <;> rfl
@[simp] theorem initCell_parent (alg : Algorithm) (c : Cell) : (initCell alg c).parent = none := by
  cases alg <;> rfl
@[simp] theorem initStart_type (alg : Algorithm) (s t : CellId) (c : Cell) :
    (initStart alg s t c).type = c.type := by
  cases alg <;> rfl
@[simp] theorem initStart_g (alg : Algorithm) (s t : CellId) (c : Cell) :
    (initStart alg s t c).g = .fin 0 := by
  cases alg <;> rfl
@[simp] theorem initStart_parent (alg : Algorithm) (s t : CellId) (c : Cell) :
    (initStart alg s t c).parent = c.parent := by
  cases alg <;> rfl
@[simp] theorem relaxCell_type (alg : Algorithm) (t u w : CellId) (tg : Num) (c : Cell) :
    (relaxCell alg t u w tg c).type = c.type := by
  cases alg <;> rfl
@[simp] theorem relaxCell_g (alg : Algorithm) (t u w : CellId) (tg : Num) (c : Cell) :
    (relaxCell alg t u w tg c).g = tg := by
  cases alg <;> rfl
@[simp] theorem relaxCell_parent (alg : Algorithm) (t u w : CellId) (tg : Num) (c : Cell) :
    (relaxCell alg t u w tg c).parent = some u := by
  cases alg <;> rfl

theorem sortKey_congr (alg : Algorithm) {g g1 : Grid} {c : CellId}
    (hg : (g1.store c).g = (g.store c).g) (hf : (g1.store c).f = (g.store c).f) :
    sortKey alg g1 c = sortKey alg g c := by
  cases alg <;> simp [sortKey, hg, hf]

/-! ## The loop invariant -/

theorem Inv.mono {P Q : CellId → CellId → Prop} {st : Search}
    (h : Inv alg g0 s t P st) (hPQ : ∀ u w, w ∈ getNeighbors g0 u → Q u w → P u w) :
    Inv alg g0 s t Q st :=
  { h with edge := fun u hu w hw hq => h.edge u hu w hw (hPQ u w hw hq) }

theorem Inv.neighbors_eq {P : CellId → CellId → Prop} {st : Search}
    (h : Inv alg g0 s t P st) (a : CellId) : getNeighbors st.grid a = getNeighbors g0 a :=
  getNeighbors_congr h.rows_eq h.cols_eq h.gen_eq h.obst a

theorem initSearch_store (alg : Algorithm) (e : Engine) (s t x : CellId) :
    (initSearch alg e s t).grid.store x =
      if x = s then initStart alg s t (if e.grid.isLive s then initCell alg (e.grid.store s)
        else e.grid.store s)
      else if e.grid.isLive x then initCell alg (e.grid.store x) else e.grid.store x := rfl

theorem inv_initSearch (alg : Algorithm) (e : Engine) (s t : CellId) :
    Inv alg e.grid s t (fun _ _ => True) (initSearch alg e s t) := by
  have hty : ∀ c, ((initSearch alg e s t).grid.store c).type = (e.grid.store c).type := by
    intro c
    rw [initSearch_store]
    split_ifs <;> simp_all
  have hgs : (initSearch alg e s t).gOf s = .fin 0 := by
    simp [Search.gOf, initSearch_store]
  refine
    { rows_eq := rfl, cols_eq := rfl, gen_eq := rfl, start_eq := rfl, end_eq := rfl
      obst := fun c => by rw [hty]
      open_nodup := by simp [initSearch]
      closed_nodup := by simp [initSearch]
      disj := by simp [initSearch]
      start_seen := Or.inr ⟨rfl, rfl⟩
      start_g := hgs
      start_parent := ?_
      end_open := by simp [initSearch]
      finite := ?_
      tree := ?_
      edge := by simp [initSearch]
      optimal := by simp [initSearch]
      key := ?_
      unseen := ?_
      visited := by simp [initSearch]
      untouched := fun c _ => hty c
      stale_parent := ?_
      stale_store := ?_
      bound_open := ?_
      bound_closed := by simp [initSearch] }
  · intro hs
    rw [initSearch_store]
    rcases hs with hs | hs
    · simp [hs]
    · split_ifs <;> simp_all
  · intro v hv
    have : v = s := by simpa [initSearch] using hv
    subst this
    exact ⟨0, hgs⟩
  · intro v hv hne
    have : v = s := by simpa [initSearch] using hv
    exact absurd this hne
  · intro v hv
    have : v = s := by simpa [initSearch] using hv
    subst this
    rw [hgs]
    cases alg <;> simp [sortKey, hfun, initSearch_store, initStart]
  · intro v hl hv _
    have hne : v ≠ s := by simpa [initSearch] using hv
    simp [Search.gOf, initSearch_store, hne, hl]
  · intro c hl
    rw [initSearch_store]
    split_ifs <;> simp_all
  · intro c hl hcs
    rw [initSearch_store]
    simp [hcs, hl]
  · intro v hv
    have : v = s := by simpa [initSearch] using hv
    subst this
    rw [hgs]
    simp [Num.lt]

theorem Num.lt_false_fin {k : Nat} {x : Num} (h : Num.lt (.fin k) x = false) :
    ∃ n, x = .fin n ∧ n ≤ k := by
  cases x with
  | fin n => exact ⟨n, rfl, by simpa [Num.lt] using h⟩
  | inf => simp [Num.lt] at h

/-- Every route from the start either ends in the closed set or crosses the open set
at a cell whose `g` is at most its position on the route. -/
theorem frontier {st : Search} (h : Inv alg g0 s t (fun _ _ => True) st)
    (hc : Consistent alg g0 t) (hs : s ∈ st.closedSet) {k : Nat} {v : CellId}
    (hr : Reach g0 s k v) :
    v ∈ st.closedSet ∨ ∃ w ∈ st.openSet, ∃ j, j ≤ k ∧ Num.lt (.fin j) (st.gOf w) = false ∧
      hfun alg t w + j ≤ hfun alg t v + k := by
  induction hr with
  | refl => exact Or.inl hs
  | @step n b c _ hn ih =>
    rcases ih with hb | ⟨w, hw, j, hj, hg, hh⟩
    · rcases h.edge b hb c hn trivial with hcc | ⟨hco, hlt⟩
      · exact Or.inl hcc
      · right
        obtain ⟨m, hm, hmk⟩ := Num.lt_false_fin (h.optimal b hb n ‹_›)
        refine ⟨c, hco, n + 1, le_refl _, ?_, le_refl _⟩
        rw [hm] at hlt
        obtain ⟨m', hm', hle⟩ := Num.lt_false_fin hlt
        rw [hm']
        simp [Num.lt]
        omega
    · right
      have := hc b c hn
      exact ⟨w, hw, j, by omega, hg, by omega⟩

/-- The cell taken from the sorted open set has the least possible `g`. -/
theorem pop_optimal {st : Search} (h : Inv alg g0 s t (fun _ _ => True) st)
    (hc : Consistent alg g0 t) {u : CellId} (hu : u ∈ st.openSet)
    (hmin : ∀ y ∈ st.openSet, Num.lt (sortKey alg st.grid y) (sortKey alg st.grid u) = false)
    {k : Nat} (hr : Reach g0 s k u) : Num.lt (.fin k) (st.gOf u) = false := by
  rcases h.start_seen with hs | ⟨ho, _⟩
  · rcases frontier h hc hs hr with huc | ⟨w, hw, j, hj, hg, hh⟩
    · exact absurd huc (h.disj u hu)
    · have hk := hmin w hw
      rw [h.key w hw, h.key u hu] at hk
      obtain ⟨m, hm, hmj⟩ := Num.lt_false_fin hg
      obtain ⟨n, hn⟩ := h.finite u (Or.inl hu)
      rw [hm, hn] at hk
      rw [hn]
      simp [Num.lt] at hk ⊢
      omega
  · rw [ho] at hu
    have : u = s := by simpa using hu
    subst this
    rw [h.start_g]
    simp [Num.lt]

/-! ### Taking the current cell and marking it -/

theorem markVisited_openSet (stops : Nat → Bool) (s t u : CellId) (st : Search) :
    (markVisited stops s t u st).openSet = st.openSet := by
  unfold markVisited; split_ifs <;> rfl

theorem markVisited_closedSet (stops : Nat → Bool) (s t u : CellId) (st : Search) :
    (markVisited stops s t u st).closedSet = st.closedSet := by
  unfold markVisited; split_ifs <;> rfl

theorem markVisited_grid (stops : Nat → Bool) (s t u : CellId) (st : Search) :
    (markVisited stops s t u st).grid =
      if u ≠ s ∧ u ≠ t then st.grid.modify u (fun c => { c with type := .VISITED })
      else st.grid := by
  unfold markVisited; split_ifs <;> rfl

theorem markVisited_store (stops : Nat → Bool) (s t u : CellId) (st : Search) (x : CellId) :
    (markVisited stops s t u st).grid.store x =
      if x = u ∧ u ≠ s ∧ u ≠ t then { st.grid.store x with type := .VISITED }
      else st.grid.store x := by
  rw [markVisited_grid]
  by_cases h : u ≠ s ∧ u ≠ t
  · rw [if_pos h, Grid.modify_store]
    by_cases hx : x = u
    · subst hx; simp [h]
    · simp [hx]
  · rw [if_neg h]
    have : ¬ (x = u ∧ u ≠ s ∧ u ≠ t) := fun hh => h hh.2
    rw [if_neg this]

theorem markVisited_gOf (stops : Nat → Bool) (s t u : CellId) (st : Search) (x : CellId) :
    (markVisited stops s t u st).gOf x = st.gOf x := by
  unfold Search.gOf
  rw [markVisited_store]; split_ifs <;> rfl

theorem markVisited_parent (stops : Nat → Bool) (s t u : CellId) (st : Search) (x : CellId) :
    ((markVisited stops s t u st).grid.store x).parent = (st.grid.store x).parent := by
  rw [markVisited_store]; split_ifs <;> rfl

theorem markVisited_f (stops : Nat → Bool) (s t u : CellId) (st : Search) (x : CellId) :
    ((markVisited stops s t u st).grid.store x).f = (st.grid.store x).f := by
  rw [markVisited_store]; split_ifs <;> rfl

theorem markVisited_type (stops : Nat → Bool) (s t u : CellId) (st : Search) (x : CellId) :
    ((markVisited stops s t u st).grid.store x).type =
      if x = u ∧ u ≠ s ∧ u ≠ t then .VISITED else (st.grid.store x).type := by
  rw [markVisited_store]; split_ifs <;> rfl

theorem markVisited_frame (stops : Nat → Bool) (s t u : CellId) (st : Search) :
    (markVisited stops s t u st).grid.rows = st.grid.rows ∧
    (markVisited stops s t u st).grid.cols = st.grid.cols ∧
    (markVisited stops s t u st).grid.gen = st.grid.gen ∧
    (markVisited stops s t u st).grid.startCell = st.grid.startCell ∧
    (markVisited stops s t u st).grid.endCell = st.grid.endCell := by
  rw [markVisited_grid]; split_ifs <;> simp

/-- The invariant after the current cell has moved to the closed set and been marked. -/
theorem inv_pop_mark (stops : Nat → Bool) {st : Search}
    (h : Inv alg g0 s t (fun _ _ => True) st) (hc : Consistent alg g0 t)
    {u : CellId} {rest : List CellId}
    (hsort : sortCells (sortKey alg st.grid) st.openSet = u :: rest) (hut : u ≠ t) :
    Inv alg g0 s t (fun u' _ => u' ≠ u)
      (markVisited stops s t u { st with openSet := rest, closedSet := u :: st.closedSet }) := by
  obtain ⟨hperm, hmin⟩ := sortCells_head hsort
  have huo : u ∈ st.openSet := hperm.mem_iff.mp (List.mem_cons_self _ _)
  have hnd : (u :: rest).Nodup := hperm.nodup_iff.mpr h.open_nodup
  have hur : u ∉ rest := (List.nodup_cons.mp hnd).1
  have hro : ∀ v, v ∈ rest → v ∈ st.openSet := fun v hv =>
    hperm.mem_iff.mp (List.mem_cons_of_mem _ hv)
  have hor : ∀ v, v ∈ st.openSet → v = u ∨ v ∈ rest := fun v hv =>
    List.mem_cons.mp (hperm.mem_iff.mpr hv)
  have huc : u ∉ st.closedSet := h.disj u huo
  obtain ⟨fr1, fr2, fr3, fr4, fr5⟩ :=
    markVisited_frame stops s t u { st with openSet := rest, closedSet := u :: st.closedSet }
  have hg : ∀ x, (markVisited stops s t u
      { st with openSet := rest, closedSet := u :: st.closedSet }).gOf x = st.gOf x :=
    fun x => markVisited_gOf _ _ _ _ _ _
  refine
    { rows_eq := fr1.trans h.rows_eq, cols_eq := fr2.trans h.cols_eq, gen_eq := fr3.trans h.gen_eq
      start_eq := fr4.trans h.start_eq, end_eq := fr5.trans h.end_eq
      obst := ?_
      open_nodup := by rw [markVisited_openSet]; exact (List.nodup_cons.mp hnd).2
      closed_nodup := by rw [markVisited_closedSet]; exact List.nodup_cons.mpr ⟨huc, h.closed_nodup⟩
      disj := ?_
      start_seen := ?_
      start_g := by rw [hg]; exact h.start_g
      start_parent := fun hs => by rw [markVisited_parent]; exact h.start_parent hs
      end_open := ?_
      finite := ?_
      tree := ?_
      edge := ?_
      optimal := ?_
      key := ?_
      unseen := ?_
      visited := ?_
      untouched := ?_
      stale_parent := fun c hl => by rw [markVisited_parent]; exact h.stale_parent c hl
      stale_store := ?_
      bound_open := ?_
      bound_closed := ?_ }
  · intro c
    rw [markVisited_type]
    split_ifs with hcu
    · obtain ⟨rfl, hcs, _⟩ := hcu
      obtain ⟨p, _, _, hn, _⟩ := h.tree c (Or.inl huo) hcs
      have := ((mem_getNeighbors_iff g0 p c).mp hn).2.1
      simp [this]
    · exact h.obst c
  · intro c hc'
    rw [markVisited_openSet] at hc'
    rw [markVisited_closedSet]
    simp only [List.mem_cons, not_or]
    exact ⟨fun hcu => hur (hcu ▸ hc'), h.disj c (hro c hc')⟩
  · left
    rw [markVisited_closedSet]
    rcases h.start_seen with hs | ⟨ho, _⟩
    · exact List.mem_cons_of_mem _ hs
    · rw [ho] at huo
      have : u = s := by simpa using huo
      simp [this]
  · rw [markVisited_closedSet]
    simp only [List.mem_cons, not_or]
    exact ⟨fun htu => hut htu.symm, h.end_open⟩
  · intro v hv
    rw [markVisited_openSet, markVisited_closedSet] at hv
    rw [hg]
    apply h.finite
    rcases hv with hv | hv
    · exact Or.inl (hro v hv)
    · rcases List.mem_cons.mp hv with rfl | hv
      · exact Or.inl huo
      · exact Or.inr hv
  · intro v hv hvs
    rw [markVisited_openSet, markVisited_closedSet] at hv
    have hv' : v ∈ st.openSet ∨ v ∈ st.closedSet := by
      rcases hv with hv | hv
      · exact Or.inl (hro v hv)
      · rcases List.mem_cons.mp hv with rfl | hv
        · exact Or.inl huo
        · exact Or.inr hv
    obtain ⟨p, hp, hpar, hn, hgv⟩ := h.tree v hv' hvs
    refine ⟨p, ?_, ?_, hn, ?_⟩
    · rw [markVisited_closedSet]; exact List.mem_cons_of_mem _ hp
    · rw [markVisited_parent]; exact hpar
    · rw [hg, hg]; exact hgv
  · intro u' hu' w hw hne
    rw [markVisited_closedSet] at hu' ⊢
    rw [markVisited_openSet, hg, hg]
    have hu'c : u' ∈ st.closedSet := by
      rcases List.mem_cons.mp hu' with rfl | hu'
      · exact absurd rfl hne
      · exact hu'
    rcases h.edge u' hu'c w hw trivial with hwc | ⟨hwo, hlt⟩
    · exact Or.inl (List.mem_cons_of_mem _ hwc)
    · rcases hor w hwo with rfl | hwr
      · exact Or.inl (List.mem_cons_self _ _)
      · exact Or.inr ⟨hwr, hlt⟩
  · intro u' hu' k hr
    rw [markVisited_closedSet] at hu'
    rw [hg]
    rcases List.mem_cons.mp hu' with rfl | hu'
    · exact pop_optimal h hc huo hmin hr
    · exact h.optimal u' hu' k hr
  · intro v hv
    rw [markVisited_openSet] at hv
    rw [hg]
    rw [← h.key v (hro v hv)]
    apply sortKey_congr
    · exact markVisited_gOf _ _ _ _ _ _
    · exact markVisited_f _ _ _ _ _ _
  · intro v hl hvo hvc
    rw [markVisited_openSet] at hvo
    rw [markVisited_closedSet] at hvc
    rw [hg, markVisited_parent]
    simp only [List.mem_cons, not_or] at hvc
    apply h.unseen v hl _ hvc.2
    intro hvo'
    rcases hor v hvo' with rfl | hvr
    · exact hvc.1 rfl
    · exact hvo hvr
  · intro c hc' hcs
    rw [markVisited_closedSet] at hc'
    rw [markVisited_type]
    rcases List.mem_cons.mp hc' with rfl | hc'
    · simp [hcs, hut]
    · have : c ≠ u := fun hcu => huc (hcu ▸ hc')
      simp [this]
      exact h.visited c hc' hcs
  · intro c hc'
    rw [markVisited_closedSet] at hc'
    rw [markVisited_type]
    split_ifs with hcu
    · obtain ⟨rfl, hcs, _⟩ := hcu
      rcases hc' with hc' | hc'
      · exact absurd (List.mem_cons_self _ _) hc'
      · exact absurd hc' hcs
    · apply h.untouched
      rcases hc' with hc' | hc'
      · exact Or.inl (fun hcc => hc' (List.mem_cons_of_mem _ hcc))
      · exact Or.inr hc'
  · intro c hl hcs
    rw [markVisited_store, if_neg]
    · exact h.stale_store c hl hcs
    · rintro ⟨rfl, hus, _⟩
      obtain ⟨p, _, _, hn, _⟩ := h.tree c (Or.inl huo) hus
      have := ((mem_getNeighbors_iff g0 p c).mp hn).1
      rw [hl] at this
      cases this
  · intro v hv
    rw [markVisited_openSet] at hv
    rw [markVisited_closedSet, hg]
    have := h.bound_open v (hro v hv)
    obtain ⟨n, hn, hle⟩ := Num.lt_false_fin this
    rw [hn]
    simp [Num.lt]
    omega
  · intro v hv
    rw [markVisited_closedSet] at hv ⊢
    rw [hg]
    rcases List.mem_cons.mp hv with rfl | hv
    · have := h.bound_open v huo
      obtain ⟨n, hn, hle⟩ := Num.lt_false_fin this
      rw [hn]
      simp [Num.lt]
      omega
    · have := h.bound_closed v hv
      obtain ⟨n, hn⟩ := h.finite v (Or.inr hv)
      rw [hn] at this ⊢
      simp [Num.lt] at this ⊢
      omega

/-! ### Relaxing one neighbour -/

theorem relaxNeighbor_closed (alg : Algorithm) (t u : CellId) {st : Search} {w : CellId}
    (h : w ∈ st.closedSet) : relaxNeighbor alg t u st w = st := by
  simp [relaxNeighbor, h]

theorem relaxNeighbor_keep (alg : Algorithm) (t u : CellId) {st : Search} {w : CellId}
    (h : w ∉ st.closedSet)
    (hc : ¬ (Num.lt ((st.grid.store u).g.add (.fin 1)) (st.grid.store w).g = true ∨
      w ∉ st.openSet)) : relaxNeighbor alg t u st w = st := by
  unfold relaxNeighbor
  rw [if_neg h]
  exact if_neg hc

theorem relaxNeighbor_update (alg : Algorithm) (t u : CellId) {st : Search} {w : CellId}
    (h : w ∉ st.closedSet)
    (hc : Num.lt ((st.grid.store u).g.add (.fin 1)) (st.grid.store w).g = true ∨
      w ∉ st.openSet) :
    relaxNeighbor alg t u st w =
      { st with
        grid := st.grid.modify w
          (relaxCell alg t u w ((st.grid.store u).g.add (.fin 1)))
        openSet := if w ∈ st.openSet then st.openSet else st.openSet ++ [w] } := by
  unfold relaxNeighbor
  rw [if_neg h]
  exact if_pos hc

theorem relaxNeighbor_cases (alg : Algorithm) (t u : CellId) (st : Search) (w : CellId) :
    relaxNeighbor alg t u st w = st ∨
    (w ∉ st.closedSet ∧ relaxNeighbor alg t u st w =
      { st with
        grid := st.grid.modify w
          (relaxCell alg t u w ((st.grid.store u).g.add (.fin 1)))
        openSet := if w ∈ st.openSet then st.openSet else st.openSet ++ [w] }) := by
  by_cases h : w ∈ st.closedSet
  · exact Or.inl (relaxNeighbor_closed alg t u h)
  · by_cases hc : Num.lt ((st.grid.store u).g.add (.fin 1)) (st.grid.store w).g = true ∨
        w ∉ st.openSet
    · exact Or.inr ⟨h, relaxNeighbor_update alg t u h hc⟩
    · exact Or.inl (relaxNeighbor_keep alg t u h hc)

theorem relaxNeighbor_closedSet (alg : Algorithm) (t u : CellId) (st : Search) (w : CellId) :
    (relaxNeighbor alg t u st w).closedSet = st.closedSet := by
  rcases relaxNeighbor_cases alg t u st w with h | ⟨_, h⟩ <;> rw [h]

theorem relaxNeighbor_shouldStop (alg : Algorithm) (t u : CellId) (st : Search) (w : CellId) :
    (relaxNeighbor alg t u st w).shouldStop = st.shouldStop := by
  rcases relaxNeighbor_cases alg t u st w with h | ⟨_, h⟩ <;> rw [h]

theorem relaxNeighbor_delays (alg : Algorithm) (t u : CellId) (st : Search) (w : CellId) :
    (relaxNeighbor alg t u st w).delays = st.delays := by
  rcases relaxNeighbor_cases alg t u st w with h | ⟨_, h⟩ <;> rw [h]

theorem relaxNeighbor_events (alg : Algorithm) (t u : CellId) (st : Search) (w : CellId) :
    (relaxNeighbor alg t u st w).events = st.events := by
  rcases relaxNeighbor_cases alg t u st w with h | ⟨_, h⟩ <;> rw [h]

/-- Relaxation writes to the neighbour only, and only when it is not closed. -/
theorem relaxNeighbor_store_of_ne (alg : Algorithm) (t u : CellId) (st : Search) {w x : CellId}
    (h : x ≠ w ∨ w ∈ st.closedSet) :
    (relaxNeighbor alg t u st w).grid.store x = st.grid.store x := by
  rcases relaxNeighbor_cases alg t u st w with h1 | ⟨hwc, h1⟩
  · rw [h1]
  · rw [h1]
    rcases h with h | h
    · exact Grid.modify_store_ne _ _ h
    · exact absurd h hwc

/-- The invariant is kept by the relaxation of a neighbour of the current cell. -/
theorem inv_relax {P : CellId → CellId → Prop} {st : Search} (h : Inv alg g0 s t P st)
    {u w : CellId} (hu : u ∈ st.closedSet) (hw : w ∈ getNeighbors g0 u) :
    Inv alg g0 s t (fun u' w' => P u' w' ∨ (u' = u ∧ w' = w)) (relaxNeighbor alg t u st w) := by
  have hsc : s ∈ st.closedSet := by
    rcases h.start_seen with hs | ⟨_, hcl⟩
    · exact hs
    · rw [hcl] at hu; cases hu
  obtain ⟨n, hn⟩ := h.finite u (Or.inr hu)
  by_cases hwc : w ∈ st.closedSet
  · -- the neighbour is closed
    rw [relaxNeighbor_closed alg t u hwc]
    refine { h with edge := ?_ }
    intro u' hu' w' hw' hp
    rcases hp with hp | ⟨rfl, rfl⟩
    · exact h.edge u' hu' w' hw' hp
    · exact Or.inl hwc
  by_cases hcond : Num.lt ((st.grid.store u).g.add (.fin 1)) (st.grid.store w).g = true ∨
      w ∉ st.openSet
  · -- the neighbour is updated
    rw [relaxNeighbor_update alg t u hwc hcond]
    have hwu : w ≠ u := fun e => hwc (e ▸ hu)
    have hws : w ≠ s := fun e => hwc (e ▸ hsc)
    have hcw : ∀ c, c ∈ st.closedSet → c ≠ w := fun c hc e => hwc (e ▸ hc)
    have htg : (st.grid.store u).g.add (.fin 1) = .fin (n + 1) := by
      have : (st.grid.store u).g = .fin n := hn
      rw [this]; rfl
    rw [htg]
    rw [htg] at hcond
    set st' : Search :=
      { st with
        grid := st.grid.modify w (relaxCell alg t u w (.fin (n + 1)))
        openSet := if w ∈ st.openSet then st.openSet else st.openSet ++ [w] } with hst'
    have hopen : ∀ v, v ∈ st'.openSet ↔ v ∈ st.openSet ∨ v = w := by
      intro v
      simp only [hst']
      split_ifs with hwo
      · constructor
        · exact Or.inl
        · rintro (hv | rfl)
          · exact hv
          · exact hwo
      · simp
    have hgw : st'.gOf w = .fin (n + 1) := by
      simp [Search.gOf, hst']
    have hgo : ∀ x, x ≠ w → st'.gOf x = st.gOf x := by
      intro x hx
      simp [Search.gOf, hst', Grid.modify_store_ne _ _ hx]
    have hso : ∀ x, x ≠ w → st'.grid.store x = st.grid.store x := by
      intro x hx
      simp [hst', Grid.modify_store_ne _ _ hx]
    have hlw : ∀ c, g0.isLive c = false → c ≠ w := by
      intro c hl e
      have := ((mem_getNeighbors_iff g0 u w).mp hw).1
      rw [← e, hl] at this
      cases this
    have hty : ∀ x, (st'.grid.store x).type = (st.grid.store x).type := by
      intro x
      by_cases hx : x = w
      · subst hx; simp [hst']
      · rw [hso x hx]
    refine
      { rows_eq := h.rows_eq, cols_eq := h.cols_eq, gen_eq := h.gen_eq
        start_eq := h.start_eq, end_eq := h.end_eq
        obst := fun c => by rw [hty]; exact h.obst c
        open_nodup := ?_
        closed_nodup := h.closed_nodup
        disj := ?_
        start_seen := Or.inl hsc
        start_g := by rw [hgo s hws.symm]; exact h.start_g
        start_parent := fun hs => by rw [hso s hws.symm]; exact h.start_parent hs
        end_open := h.end_open
        finite := ?_
        tree := ?_
        edge := ?_
        optimal := ?_
        key := ?_
        unseen := ?_
        visited := fun c hc hcs => by rw [hty]; exact h.visited c hc hcs
        untouched := fun c hc => by rw [hty]; exact h.untouched c hc
        stale_parent := fun c hl => by rw [hso c (hlw c hl)]; exact h.stale_parent c hl
        stale_store := fun c hl hcs => by rw [hso c (hlw c hl)]; exact h.stale_store c hl hcs
        bound_open := ?_
        bound_closed := fun v hv => by rw [hgo v (hcw v hv)]; exact h.bound_closed v hv }
    · simp only [hst']
      split_ifs with hwo
      · exact h.open_nodup
      · rw [List.nodup_append]
        refine ⟨h.open_nodup, List.nodup_singleton w, ?_⟩
        intro a ha hb
        have : a = w := by simpa using hb
        exact hwo (this ▸ ha)
    · intro c hc
      rcases (hopen c).mp hc with hc | rfl
      · exact h.disj c hc
      · exact hwc
    · intro v hv
      by_cases hvw : v = w
      · subst hvw; exact ⟨n + 1, hgw⟩
      · rw [hgo v hvw]
        apply h.finite
        rcases hv with hv | hv
        · rcases (hopen v).mp hv with hv | hv
          · exact Or.inl hv
          · exact absurd hv hvw
        · exact Or.inr hv
    · intro v hv hvs
      by_cases hvw : v = w
      · subst hvw
        refine ⟨u, hu, ?_, hw, ?_⟩
        · simp [hst']
        · rw [hgw, hgo u hwu.symm, hn]; rfl
      · have hv' : v ∈ st.openSet ∨ v ∈ st.closedSet := by
          rcases hv with hv | hv
          · rcases (hopen v).mp hv with hv | hv
            · exact Or.inl hv
            · exact absurd hv hvw
          · exact Or.inr hv
        obtain ⟨p, hp, hpar, hnb, hgv⟩ := h.tree v hv' hvs
        refine ⟨p, hp, ?_, hnb, ?_⟩
        · rw [hso v hvw]; exact hpar
        · rw [hgo v hvw, hgo p (hcw p hp)]; exact hgv
    · intro u' hu' w' hw' hp
      rw [hgo u' (hcw u' hu')]
      by_cases hww : w' = w
      · subst hww
        right
        refine ⟨(hopen w').mpr (Or.inr rfl), ?_⟩
        rw [hgw]
        by_cases huu : u' = u
        · subst huu
          rw [hn]; simp [Num.lt]
        · have hp' : P u' w' := by
            rcases hp with hp | ⟨e, _⟩
            · exact hp
            · exact absurd e huu
          rcases h.edge u' hu' w' hw' hp' with hwc' | ⟨hwo, hlt⟩
          · exact absurd hwc' hwc
          · have hlt2 : Num.lt (.fin (n + 1)) (st.grid.store w').g = true := by
              rcases hcond with hc1 | hc2
              · exact hc1
              · exact absurd hwo hc2
            obtain ⟨m, hm⟩ := h.finite u' (Or.inr hu')
            obtain ⟨m', hm'⟩ := h.finite w' (Or.inl hwo)
            have hm'' : (st.grid.store w').g = .fin m' := hm'
            rw [hm, hm'] at hlt
            rw [hm''] at hlt2
            rw [hm]
            simp [Num.lt] at hlt hlt2 ⊢
            omega
      · have hp' : P u' w' := by
          rcases hp with hp | ⟨_, e⟩
          · exact hp
          · exact absurd e hww
        rw [hgo w' hww]
        rcases h.edge u' hu' w' hw' hp' with hwc' | ⟨hwo, hlt⟩
        · exact Or.inl hwc'
        · exact Or.inr ⟨(hopen w').mpr (Or.inl hwo), hlt⟩
    · intro u' hu' k hr
      rw [hgo u' (hcw u' hu')]
      exact h.optimal u' hu' k hr
    · intro v hv
      by_cases hvw : v = w
      · subst hvw
        rw [hgw]
        cases alg <;> simp [sortKey, hfun, hst', relaxCell]
      · rw [hgo v hvw]
        have hvo : v ∈ st.openSet := by
          rcases (hopen v).mp hv with hv | hv
          · exact hv
          · exact absurd hv hvw
        rw [← h.key v hvo]
        apply sortKey_congr <;> rw [hso v hvw]
    · intro v hl hvo hvc
      have hvw : v ≠ w := fun e => hvo ((hopen v).mpr (Or.inr e))
      rw [hgo v hvw, hso v hvw]
      exact h.unseen v hl (fun hv => hvo ((hopen v).mpr (Or.inl hv))) hvc
    · intro v hv
      by_cases hvw : v = w
      · subst hvw
        rw [hgw]
        have := h.bound_closed u hu
        rw [hn] at this
        simp [Num.lt] at this ⊢
        omega
      · rw [hgo v hvw]
        apply h.bound_open
        rcases (hopen v).mp hv with hv | hv
        · exact hv
        · exact absurd hv hvw
  · -- the neighbour stays as it is
    rw [relaxNeighbor_keep alg t u hwc hcond]
    refine { h with edge := ?_ }
    intro u' hu' w' hw' hp
    rcases hp with hp | ⟨rfl, rfl⟩
    · exact h.edge u' hu' w' hw' hp
    · right
      have hcond' : ¬ Num.lt ((st.grid.store u').g.add (.fin 1)) (st.grid.store w').g = true ∧
          w' ∈ st.openSet := by
        constructor
        · exact fun hh => hcond (Or.inl hh)
        · by_contra hh
          exact hcond (Or.inr hh)
      exact ⟨hcond'.2, by simpa [Search.gOf] using hcond'.1⟩

/-- The invariant along the `for` loop over the neighbours of the current cell. -/
theorem inv_fold {u : CellId} (l : List CellId) :
    ∀ {P : CellId → CellId → Prop} {st : Search}, Inv alg g0 s t P st → u ∈ st.closedSet →
      (∀ w ∈ l, w ∈ getNeighbors g0 u) →
      Inv alg g0 s t (fun u' w' => P u' w' ∨ (u' = u ∧ w' ∈ l))
        (l.foldl (relaxNeighbor alg t u) st) := by
  induction l with
  | nil =>
    intro P st h _ _
    exact h.mono (fun u' w' _ hq => by simpa using hq)
  | cons w ws ih =>
    intro P st h hu hl
    have h1 := inv_relax h hu (hl w (List.mem_cons_self _ _))
    have hu1 : u ∈ (relaxNeighbor alg t u st w).closedSet := by
      rw [relaxNeighbor_closedSet]; exact hu
    have h2 := ih h1 hu1 (fun w' hw' => hl w' (List.mem_cons_of_mem _ hw'))
    rw [List.foldl_cons]
    refine h2.mono ?_
    intro u' w' _ hq
    rcases hq with hq | ⟨e1, e2⟩
    · exact Or.inl (Or.inl hq)
    · rcases List.mem_cons.mp e2 with e3 | e3
      · exact Or.inl (Or.inr ⟨e1, e3⟩)
      · exact Or.inr ⟨e1, e3⟩

/-! ### One evaluation of the loop -/

theorem searchStep_next {stops : Nat → Bool} {st st1 : Search}
    (h : searchStep alg stops s t st = .next st1) :
    ∃ u rest, sortCells (sortKey alg st.grid) st.openSet = u :: rest ∧ u ≠ t ∧
      st.shouldStop = false ∧
      st1 = (getNeighbors (markVisited stops s t u
          { st with openSet := rest, closedSet := u :: st.closedSet }).grid u).foldl
        (relaxNeighbor alg t u)
        (markVisited stops s t u { st with openSet := rest, closedSet := u :: st.closedSet }) := by
  unfold searchStep at h
  split_ifs at h with hc
  split at h
  · cases h
  · rename_i u rest hsort
    split_ifs at h with hut
    injection h with h
    refine ⟨u, rest, hsort, hut, ?_, h.symm⟩
    simp only [not_or] at hc
    simpa using hc.2

theorem searchStep_found {stops : Nat → Bool} {st st1 : Search}
    (h : searchStep alg stops s t st = .found st1) :
    ∃ rest, sortCells (sortKey alg st.grid) st.openSet = t :: rest ∧
      st.shouldStop = false ∧ st1 = { st with openSet := rest } := by
  unfold searchStep at h
  split_ifs at h with hc
  split at h
  · cases h
  · rename_i u rest hsort
    split_ifs at h with hut
    injection h with h
    subst hut
    refine ⟨rest, hsort, ?_, h.symm⟩
    simp only [not_or] at hc
    simpa using hc.2

theorem sortCells_eq_nil {key : CellId → Num} {l : List CellId} (h : sortCells key l = []) :
    l = [] := by
  have := (sortCells_perm key l).length_eq
  rw [h] at this
  exact List.length_eq_zero.mp this.symm

theorem searchStep_exhausted {stops : Nat → Bool} {st st1 : Search}
    (h : searchStep alg stops s t st = .exhausted st1) :
    st1 = st ∧ (st.openSet = [] ∨ st.shouldStop = true) := by
  unfold searchStep at h
  split_ifs at h with hc
  · injection h with h
    exact ⟨h.symm, hc⟩
  · split at h
    · rename_i hsort
      injection h with h
      exact ⟨h.symm, Or.inl (sortCells_eq_nil hsort)⟩
    · split_ifs at h

/-- The loop invariant is kept by one evaluation of the loop body. -/
theorem inv_step {stops : Nat → Bool} {st st1 : Search}
    (h : Inv alg g0 s t (fun _ _ => True) st) (hc : Consistent alg g0 t)
    (hstep : searchStep alg stops s t st = .next st1) :
    Inv alg g0 s t (fun _ _ => True) st1 := by
  obtain ⟨u, rest, hsort, hut, _, rfl⟩ := searchStep_next hstep
  have h1 := inv_pop_mark stops h hc hsort hut
  have hu : u ∈ (markVisited stops s t u
      { st with openSet := rest, closedSet := u :: st.closedSet }).closedSet := by
    rw [markVisited_closedSet]; exact List.mem_cons_self _ _
  rw [h1.neighbors_eq]
  have h2 := inv_fold (getNeighbors g0 u) h1 hu (fun w hw => hw)
  refine h2.mono ?_
  intro u' w' hw' _
  by_cases e : u' = u
  · subst e; exact Or.inr ⟨rfl, hw'⟩
  · exact Or.inl e

/-! ### Frame of the loop body -/

theorem foldl_relax_closedSet (alg : Algorithm) (t u : CellId) (l : List CellId) :
    ∀ st : Search, (l.foldl (relaxNeighbor alg t u) st).closedSet = st.closedSet := by
  induction l with
  | nil => intro st; rfl
  | cons w ws ih => intro st; rw [List.foldl_cons, ih, relaxNeighbor_closedSet]

theorem foldl_relax_shouldStop (alg : Algorithm) (t u : CellId) (l : List CellId) :
    ∀ st : Search, (l.foldl (relaxNeighbor alg t u) st).shouldStop = st.shouldStop := by
  induction l with
  | nil => intro st; rfl
  | cons w ws ih => intro st; rw [List.foldl_cons, ih, relaxNeighbor_shouldStop]

theorem foldl_relax_delays (alg : Algorithm) (t u : CellId) (l : List CellId) :
    ∀ st : Search, (l.foldl (relaxNeighbor alg t u) st).delays = st.delays := by
  induction l with
  | nil => intro st; rfl
  | cons w ws ih => intro st; rw [List.foldl_cons, ih, relaxNeighbor_delays]

theorem foldl_relax_events (alg : Algorithm) (t u : CellId) (l : List CellId) :
    ∀ st : Search, (l.foldl (relaxNeighbor alg t u) st).events = st.events := by
  induction l with
  | nil => intro st; rfl
  | cons w ws ih => intro st; rw [List.foldl_cons, ih, relaxNeighbor_events]

/-- The `for` loop over the neighbours leaves every closed cell as it is. -/
theorem foldl_relax_store_closed (alg : Algorithm) (t u : CellId) (l : List CellId) :
    ∀ (st : Search) (c : CellId), c ∈ st.closedSet →
      (l.foldl (relaxNeighbor alg t u) st).grid.store c = st.grid.store c := by
  induction l with
  | nil => intro st c _; rfl
  | cons w ws ih =>
    intro st c hc
    rw [List.foldl_cons, ih _ c (by rw [relaxNeighbor_closedSet]; exact hc)]
    apply relaxNeighbor_store_of_ne
    by_cases h : c = w
    · exact Or.inr (h ▸ hc)
    · exact Or.inl h

theorem markVisited_shouldStop (stops : Nat → Bool) (s t u : CellId) (st : Search)
    (hstops : ∀ k, stops k = false) :
    (markVisited stops s t u st).shouldStop = st.shouldStop := by
  unfold markVisited Search.delayExecution
  split_ifs <;> simp [hstops]

/-- What one evaluation of the loop body does to the closed set and its cells. -/
theorem searchStep_next_closed {stops : Nat → Bool} {st st1 : Search}
    (h : searchStep alg stops s t st = .next st1) :
    (∃ u, u ∈ st.openSet ∧ st1.closedSet = u :: st.closedSet) ∧
    ∀ c ∈ st.closedSet, (st1.grid.store c).g = (st.grid.store c).g ∧
      (st1.grid.store c).parent = (st.grid.store c).parent := by
  obtain ⟨u, rest, hsort, _, _, rfl⟩ := searchStep_next h
  have hu : u ∈ st.openSet := (sortCells_head hsort).1.mem_iff.mp (List.mem_cons_self _ _)
  constructor
  · exact ⟨u, hu, by rw [foldl_relax_closedSet, markVisited_closedSet]⟩
  · intro c hc
    rw [foldl_relax_store_closed _ _ _ _ _ c
      (by rw [markVisited_closedSet]; exact List.mem_cons_of_mem _ hc)]
    exact ⟨markVisited_gOf _ _ _ _ _ _, markVisited_parent _ _ _ _ _ _⟩

theorem searchStep_next_shouldStop {stops : Nat → Bool} {st st1 : Search}
    (hstops : ∀ k, stops k = false)
    (h : searchStep alg stops s t st = .next st1) : st1.shouldStop = false := by
  obtain ⟨u, rest, _, _, hss, rfl⟩ := searchStep_next h
  rw [foldl_relax_shouldStop, markVisited_shouldStop _ _ _ _ _ hstops]
  exact hss

/-! ### Cells of the grid -/

theorem Grid.mem_liveCells (g : Grid) (c : CellId) : c ∈ g.liveCells ↔ g.isLive c = true := by
  rw [Grid.isLive_iff]
  unfold Grid.liveCells Grid.cellAt
  simp only [List.mem_flatMap, List.mem_range, List.mem_map]
  constructor
  · rintro ⟨i, hi, j, hj, rfl⟩
    exact ⟨rfl, hi, hj⟩
  · rintro ⟨hg, hr, hc⟩
    refine ⟨c.row, hr, c.col, hc, ?_⟩
    cases c
    simp at hg
    simp [hg]

theorem length_flatMap_const {α β : Type} (f : α → List β) (n : Nat)
    (hf : ∀ a, (f a).length = n) :
    ∀ l : List α, (l.flatMap f).length = l.length * n := by
  intro l
  induction l with
  | nil => simp
  | cons a as ih =>
    rw [List.flatMap_cons, List.length_append, ih, hf, List.length_cons]
    ring

theorem Grid.length_liveCells (g : Grid) : g.liveCells.length = g.rows * g.cols := by
  unfold Grid.liveCells
  rw [length_flatMap_const _ g.cols (fun a => by simp)]
  simp

theorem Inv.seen_live {P : CellId → CellId → Prop} {st : Search} (h : Inv alg g0 s t P st)
    {v : CellId} (hv : v ∈ st.openSet ∨ v ∈ st.closedSet) : v = s ∨ g0.isLive v = true := by
  by_cases hvs : v = s
  · exact Or.inl hvs
  · obtain ⟨p, _, _, hn, _⟩ := h.tree v hv hvs
    exact Or.inr ((mem_getNeighbors_iff g0 p v).mp hn).1

theorem Inv.closed_length_le {P : CellId → CellId → Prop} {st : Search}
    (h : Inv alg g0 s t P st) : st.closedSet.length ≤ g0.rows * g0.cols + 1 := by
  have hsub : st.closedSet ⊆ s :: g0.liveCells := by
    intro c hc
    rcases h.seen_live (Or.inr hc) with e | e
    · exact e ▸ List.mem_cons_self _ _
    · exact List.mem_cons_of_mem _ ((Grid.mem_liveCells g0 c).mpr e)
  have := (List.subperm_of_subset h.closed_nodup hsub).length_le
  simpa [Grid.length_liveCells] using this

/-! ### The loop as a whole -/

/-- The loop ends within `rows * cols + 2` evaluations of its condition. -/
theorem searchLoop_terminates (stops : Nat → Bool) (hc : Consistent alg g0 t) :
    ∀ (fuel : Nat) (st : Search), Inv alg g0 s t (fun _ _ => True) st →
      g0.rows * g0.cols + 2 ≤ fuel + st.closedSet.length →
      ∃ r, searchLoop alg stops s t fuel st = some r := by
  intro fuel
  induction fuel with
  | zero =>
    intro st h hf
    have := h.closed_length_le
    omega
  | succ n ih =>
    intro st h hf
    unfold searchLoop
    cases hstep : searchStep alg stops s t st with
    | next st1 =>
      simp only
      apply ih st1 (inv_step h hc hstep)
      obtain ⟨⟨u, _, hcl⟩, _⟩ := searchStep_next_closed hstep
      rw [hcl, List.length_cons]
      omega
    | found st1 => exact ⟨_, rfl⟩
    | exhausted st1 => exact ⟨_, rfl⟩

/-- How the loop ends: at a state `stf` satisfying the invariant, either because the
open set is empty or a stop was requested, or with the end cell first in the sorted
open set. -/
theorem searchLoop_end (stops : Nat → Bool) (hc : Consistent alg g0 t) :
    ∀ (fuel : Nat) (st : Search) (r : StepResult), Inv alg g0 s t (fun _ _ => True) st →
      searchLoop alg stops s t fuel st = some r →
      ∃ stf, Inv alg g0 s t (fun _ _ => True) stf ∧
        ((∀ k, stops k = false) → st.shouldStop = false → stf.shouldStop = false) ∧
        ((r = .exhausted stf ∧ (stf.openSet = [] ∨ stf.shouldStop = true)) ∨
         (∃ rest, r = .found { stf with openSet := rest } ∧
            sortCells (sortKey alg stf.grid) stf.openSet = t :: rest ∧
            stf.shouldStop = false)) := by
  intro fuel
  induction fuel with
  | zero => intro st r _ hl; cases hl
  | succ n ih =>
    intro st r h hl
    unfold searchLoop at hl
    cases hstep : searchStep alg stops s t st with
    | next st1 =>
      rw [hstep] at hl
      obtain ⟨stf, hi, hss, hr⟩ := ih st1 r (inv_step h hc hstep) hl
      exact ⟨stf, hi, fun hstops _ => hss hstops (searchStep_next_shouldStop hstops hstep), hr⟩
    | found st1 =>
      rw [hstep] at hl
      injection hl with hl
      obtain ⟨rest, hsort, hss, rfl⟩ := searchStep_found hstep
      exact ⟨st, h, fun _ h0 => h0, Or.inr ⟨rest, hl.symm, hsort, hss⟩⟩
    | exhausted st1 =>
      rw [hstep] at hl
      injection hl with hl
      obtain ⟨rfl, hor⟩ := searchStep_exhausted hstep
      exact ⟨st1, h, fun _ h0 => h0, Or.inl ⟨hl.symm, hor⟩⟩

theorem searchLoop_mono (stops : Nat → Bool) :
    ∀ (fuel : Nat) (st : Search) (r : StepResult) (k : Nat),
      searchLoop alg stops s t fuel st = some r →
      searchLoop alg stops s t (fuel + k) st = some r := by
  intro fuel
  induction fuel with
  | zero => intro st r k hl; cases hl
  | succ n ih =>
    intro st r k hl
    have e : n + 1 + k = (n + k) + 1 := by omega
    rw [e]
    unfold searchLoop at hl ⊢
    cases hstep : searchStep alg stops s t st with
    | next st1 =>
      rw [hstep] at hl
      exact ih st1 r k hl
    | found st1 => rw [hstep] at hl; exact hl
    | exhausted st1 => rw [hstep] at hl; exact hl

/-! ### Routes and the invariant -/

/-- A cell met by the search is reached by a route of `g` moves. -/
theorem Inv.reach_of_seen {P : CellId → CellId → Prop} {st : Search}
    (h : Inv alg g0 s t P st) :
    ∀ (n : Nat) (v : CellId), v ∈ st.openSet ∨ v ∈ st.closedSet → st.gOf v = .fin n →
      Reach g0 s n v := by
  intro n
  induction n with
  | zero =>
    intro v hv hg
    by_cases hvs : v = s
    · subst hvs; exact Reach.refl
    · obtain ⟨p, hp, _, _, hgv⟩ := h.tree v hv hvs
      obtain ⟨m, hm⟩ := h.finite p (Or.inr hp)
      rw [hm, hg] at hgv
      simp [Num.add] at hgv
  | succ n ih =>
    intro v hv hg
    by_cases hvs : v = s
    · subst hvs
      rw [h.start_g] at hg
      cases hg
    · obtain ⟨p, hp, _, hn, hgv⟩ := h.tree v hv hvs
      obtain ⟨m, hm⟩ := h.finite p (Or.inr hp)
      rw [hm, hg] at hgv
      simp [Num.add] at hgv
      subst hgv
      exact Reach.step (ih p (Or.inr hp) hm) hn

/-- When the open set is empty every cell reachable from the start is closed. -/
theorem Inv.closed_of_reach {st : Search} (h : Inv alg g0 s t (fun _ _ => True) st)
    (ho : st.openSet = []) {k : Nat} {v : CellId} (hr : Reach g0 s k v) :
    v ∈ st.closedSet := by
  induction hr with
  | refl =>
    rcases h.start_seen with hs | ⟨ho', _⟩
    · exact hs
    · rw [ho] at ho'; cases ho'
  | @step n b c _ hn ih =>
    rcases h.edge b ih c hn trivial with hcc | ⟨hco, _⟩
    · exact hcc
    · rw [ho] at hco; cases hco

/-! ### Following the parent links -/

theorem parentWalk_mono (store : CellId → Cell) :
    ∀ (fuel : Nat) (v : CellId) (acc path : List CellId) (k : Nat),
      parentWalk store fuel v acc = some path → parentWalk store (fuel + k) v acc = some path := by
  intro fuel
  induction fuel with
  | zero => intro v acc path k h; cases h
  | succ n ih =>
    intro v acc path k h
    have e : n + 1 + k = (n + k) + 1 := by omega
    rw [e]
    unfold parentWalk at h ⊢
    cases hp : (store v).parent with
    | none => rw [hp] at h; exact h
    | some p => rw [hp] at h; exact ih p _ path k h

/-- From a cell met by the search the parent links lead to the start in `g` steps,
along cells that are closed. -/
theorem parentWalk_spec {P : CellId → CellId → Prop} {st : Search}
    (h : Inv alg g0 s t P st) (hsane : StartSane g0 s) :
    ∀ (n : Nat) (v : CellId) (acc : List CellId) (fuel : Nat),
      v ∈ st.openSet ∨ v ∈ st.closedSet → st.gOf v = .fin n → n < fuel →
      ∃ chain, parentWalk st.grid.store fuel v acc = some (chain ++ acc) ∧
        chain.length = n ∧ (s :: chain).getLast? = some v ∧
        List.Chain' (fun a b => b ∈ getNeighbors g0 a) (s :: chain) ∧
        List.Chain' (fun a b => (st.grid.store b).parent = some a) (s :: chain) ∧
        ∀ c ∈ chain, c ≠ s ∧ (c = v ∨ c ∈ st.closedSet) := by
  intro n
  induction n with
  | zero =>
    intro v acc fuel hv hg hf
    have hvs : v = s := by
      by_contra hvs
      obtain ⟨p, hp, _, _, hgv⟩ := h.tree v hv hvs
      obtain ⟨m, hm⟩ := h.finite p (Or.inr hp)
      rw [hm, hg] at hgv
      simp [Num.add] at hgv
    subst hvs
    obtain ⟨f, rfl⟩ : ∃ f, fuel = f + 1 := ⟨fuel - 1, by omega⟩
    refine ⟨[], ?_, rfl, rfl, List.chain'_singleton _, List.chain'_singleton _, by simp⟩
    unfold parentWalk
    rw [h.start_parent hsane]
    rfl
  | succ n ih =>
    intro v acc fuel hv hg hf
    have hvs : v ≠ s := by
      intro hvs
      subst hvs
      rw [h.start_g] at hg
      cases hg
    obtain ⟨p, hp, hpar, hn, hgv⟩ := h.tree v hv hvs
    obtain ⟨m, hm⟩ := h.finite p (Or.inr hp)
    rw [hm, hg] at hgv
    simp [Num.add] at hgv
    subst hgv
    obtain ⟨f, rfl⟩ : ∃ f, fuel = f + 1 := ⟨fuel - 1, by omega⟩
    obtain ⟨chain, hw, hlen, hlast, hch, hpc, hmem⟩ :=
      ih p (v :: acc) f (Or.inr hp) hm (by omega)
    refine ⟨chain ++ [v], ?_, by simp [hlen], ?_, ?_, ?_, ?_⟩
    · unfold parentWalk
      rw [hpar]
      simp only
      rw [hw]
      simp
    · rw [← List.cons_append, List.getLast?_concat]
    · rw [← List.cons_append]
      apply List.Chain'.append hch (List.chain'_singleton _)
      intro x hx y hy
      rw [hlast] at hx
      simp at hx hy
      subst hx hy
      exact hn
    · rw [← List.cons_append]
      apply List.Chain'.append hpc (List.chain'_singleton _)
      intro x hx y hy
      rw [hlast] at hx
      simp at hx hy
      subst hx hy
      exact hpar
    · intro c hc
      rcases List.mem_append.mp hc with hc | hc
      · obtain ⟨h1, h2⟩ := hmem c hc
        refine ⟨h1, Or.inr ?_⟩
        rcases h2 with rfl | h2
        · exact hp
        · exact h2
      · have : c = v := by simpa using hc
        exact ⟨this ▸ hvs, Or.inl this⟩

/-! ### Revealing the path -/

/-- The reveal loop breaks at once when a stop has been requested. -/
theorem revealPath_cons_stop (stops : Nat → Bool) (c : CellId) (cs : List CellId) {st : Search}
    (h : st.shouldStop = true) : revealPath stops (c :: cs) st = st := by
  unfold revealPath; rw [if_pos h]

theorem revealPath_cons_skip (stops : Nat → Bool) (c : CellId) (cs : List CellId) {st : Search}
    (h : st.shouldStop = false)
    (h2 : ¬ ((st.grid.store c).type ≠ .START ∧ (st.grid.store c).type ≠ .END)) :
    revealPath stops (c :: cs) st = revealPath stops cs st := by
  conv_lhs => unfold revealPath
  rw [if_neg (by simp [h]), if_neg h2]

theorem revealPath_cons_mark (stops : Nat → Bool) (c : CellId) (cs : List CellId) {st : Search}
    (h : st.shouldStop = false)
    (h2 : (st.grid.store c).type ≠ .START ∧ (st.grid.store c).type ≠ .END) :
    revealPath stops (c :: cs) st = revealPath stops cs
      { grid := st.grid.modify c (fun c => { c with type := .PATH })
        shouldStop := st.shouldStop || stops st.delays
        openSet := st.openSet, closedSet := st.closedSet
        delays := st.delays + 1
        events := st.events ++ [Event.nodeVisited c] } := by
  conv_lhs => unfold revealPath
  rw [if_neg (by simp [h]), if_pos h2]
  rfl

theorem revealPath_frame (stops : Nat → Bool) (path : List CellId) :
    ∀ st : Search,
      (revealPath stops path st).grid.rows = st.grid.rows ∧
      (revealPath stops path st).grid.cols = st.grid.cols ∧
      (revealPath stops path st).grid.gen = st.grid.gen ∧
      (revealPath stops path st).grid.startCell = st.grid.startCell ∧
      (revealPath stops path st).grid.endCell = st.grid.endCell ∧
      ∀ x, ((revealPath stops path st).grid.store x).g = (st.grid.store x).g ∧
        ((revealPath stops path st).grid.store x).parent = (st.grid.store x).parent := by
  induction path with
  | nil => intro st; simp [revealPath]
  | cons c cs ih =>
    intro st
    by_cases h1 : st.shouldStop = true
    · rw [revealPath_cons_stop stops c cs h1]; simp
    · have h1' : st.shouldStop = false := by simpa using h1
      by_cases h2 : (st.grid.store c).type ≠ .START ∧ (st.grid.store c).type ≠ .END
      · rw [revealPath_cons_mark stops c cs h1' h2]
        obtain ⟨a1, a2, a3, a4, a5, a6⟩ := ih
          { grid := st.grid.modify c (fun c => { c with type := .PATH })
            shouldStop := st.shouldStop || stops st.delays
            openSet := st.openSet, closedSet := st.closedSet
            delays := st.delays + 1
            events := st.events ++ [Event.nodeVisited c] }
        refine ⟨a1, a2, a3, a4, a5, fun x => ?_⟩
        rw [(a6 x).1, (a6 x).2]
        simp only [Grid.modify_store]
        by_cases hx : x = c
        · subst hx; simp
        · simp [hx]
      · rw [revealPath_cons_skip stops c cs h1' h2]
        exact ih st

/-- Without a stop request the reveal loop turns every cell of the path that is not
typed START or END into a PATH cell and leaves all other types alone. -/
theorem revealPath_type (stops : Nat → Bool) (hstops : ∀ k, stops k = false)
    (path : List CellId) :
    ∀ st : Search, st.shouldStop = false → ∀ x,
      ((revealPath stops path st).grid.store x).type =
        if x ∈ path ∧ (st.grid.store x).type ≠ .START ∧ (st.grid.store x).type ≠ .END
        then .PATH else (st.grid.store x).type := by
  induction path with
  | nil => intro st _ x; simp [revealPath]
  | cons c cs ih =>
    intro st hss x
    by_cases h2 : (st.grid.store c).type ≠ .START ∧ (st.grid.store c).type ≠ .END
    · rw [revealPath_cons_mark stops c cs hss h2]
      rw [ih _ (by simp [hss, hstops]) x]
      simp only [Grid.modify_store]
      by_cases hx : x = c
      · subst hx
        simp [h2.1, h2.2]
      · simp [hx]
    · rw [revealPath_cons_skip stops c cs hss h2, ih st hss x]
      by_cases hx : x = c
      · subst hx
        simp only [List.mem_cons, true_or, true_and]
        rw [if_neg h2, if_neg (fun hh => h2 hh.2)]
      · simp [hx]

/-! ### Routes as lists and as counted expansions -/

theorem Reach.cons {g : Grid} {a b c : CellId} {n : Nat} (h : b ∈ getNeighbors g a)
    (hr : Reach g b n c) : Reach g a (n + 1) c := by
  induction hr with
  | refl => exact Reach.step Reach.refl h
  | step _ hn ih => exact Reach.step ih hn

theorem reach_of_chain (g : Grid) :
    ∀ (p : List CellId) (a b : CellId), List.Chain' (StepOk g) (a :: p) →
      (a :: p).getLast? = some b → Reach g a p.length b := by
  intro p
  induction p with
  | nil =>
    intro a b _ hl
    simp at hl
    subst hl
    exact Reach.refl
  | cons c cs ih =>
    intro a b hch hl
    rw [List.chain'_cons] at hch
    rw [List.getLast?_cons_cons] at hl
    exact Reach.cons ((mem_getNeighbors_iff g a c).mpr hch.1) (ih c b hch.2 hl)

theorem reach_of_isRoute {g : Grid} {a b : CellId} {p : List CellId} (h : IsRoute g a b p) :
    ∃ n, p.length = n + 1 ∧ Reach g a n b := by
  obtain ⟨hh, hl, hch⟩ := h
  cases p with
  | nil => simp at hh
  | cons x xs =>
    simp at hh
    subst hh
    exact ⟨xs.length, rfl, reach_of_chain g xs x b hch hl⟩

theorem isRoute_of_reach {g : Grid} {a b : CellId} {n : Nat} (h : Reach g a n b) :
    ∃ p, IsRoute g a b p ∧ p.length = n + 1 := by
  induction h with
  | refl => exact ⟨[a], ⟨rfl, rfl, List.chain'_singleton _⟩, rfl⟩
  | @step n b c _ hn ih =>
    obtain ⟨p, ⟨hh, hl, hch⟩, hlen⟩ := ih
    refine ⟨p ++ [c], ⟨?_, List.getLast?_concat _, ?_⟩, by simp [hlen]⟩
    · cases p with
      | nil => simp at hh
      | cons x xs => simpa using hh
    · apply List.Chain'.append hch (List.chain'_singleton _)
      intro x hx y hy
      rw [hl] at hx
      simp only [Option.mem_def, Option.some.injEq, List.head?_cons] at hx hy
      rw [← hx, ← hy]
      exact (mem_getNeighbors_iff g _ _).mp hn

/-! ### Consistency of the estimates -/

theorem consistent_dijkstra (g : Grid) (t : CellId) : Consistent .dijkstra g t := by
  intro a b _
  simp [hfun]

theorem consistent_astar (g : Grid) (t : CellId) :
    Consistent (.astar calculateHeuristic) g t := by
  intro a b hb
  have h := ((mem_getNeighbors_iff g a b).mp hb).2.2
  unfold manhattan at h
  simp only [hfun, calculateHeuristic]
  omega

/-! ### The run as a whole -/

theorem runSearch_unset (alg : Algorithm) (fuel : Nat) (stops : Nat → Bool) (e : Engine)
    (h : e.grid.startCell = none ∨ e.grid.endCell = none) :
    runSearch alg fuel stops e = some { path := none, engine := e, events := [] } := by
  unfold runSearch
  rcases h with h | h
  · rw [h]
  · rw [h]
    cases e.grid.startCell <;> rfl

theorem runSearch_cases {fuel : Nat} {stops : Nat → Bool} {e : Engine} {r : RunResult}
    (hs : e.grid.startCell = some s) (ht : e.grid.endCell = some t)
    (h : runSearch alg fuel stops e = some r) :
    (∃ stf, searchLoop alg stops s t fuel (initSearch alg e s t) = some (.exhausted stf) ∧
      r = { path := none
            engine := { grid := stf.grid, isRunning := false, shouldStop := stf.shouldStop }
            events := stf.events }) ∨
    (∃ st1 path, searchLoop alg stops s t fuel (initSearch alg e s t) = some (.found st1) ∧
      parentWalk st1.grid.store fuel t [] = some path ∧
      r = { path := some path
            engine := { grid := (revealPath stops path st1).grid, isRunning := false
                        shouldStop := (revealPath stops path st1).shouldStop }
            events := (revealPath stops path st1).events ++ [Event.pathFound path] }) := by
  unfold runSearch at h
  rw [hs, ht] at h
  simp only at h
  cases hl : searchLoop alg stops s t fuel (initSearch alg e s t) with
  | none => rw [hl] at h; cases h
  | some res =>
    rw [hl] at h
    cases res with
    | next st1 => cases h
    | exhausted stf =>
      left
      injection h with h
      exact ⟨stf, rfl, h.symm⟩
    | found st1 =>
      right
      simp only [reconstructPath] at h
      cases hw : parentWalk st1.grid.store fuel t [] with
      | none => rw [hw] at h; cases h
      | some path =>
        rw [hw] at h
        injection h with h
        exact ⟨st1, path, rfl, hw, h.symm⟩

/-- A run that returns a path: the state `stf` at which the loop found the end cell. -/
theorem runSearch_found {fuel : Nat} {stops : Nat → Bool} {e : Engine} {r : RunResult}
    {path : List CellId}
    (hc : Consistent alg e.grid t)
    (hs : e.grid.startCell = some s) (ht : e.grid.endCell = some t)
    (h : runSearch alg fuel stops e = some r) (hp : r.path = some path) :
    ∃ stf rest n, Inv alg e.grid s t (fun _ _ => True) stf ∧ t ∈ stf.openSet ∧
      stf.shouldStop = false ∧
      stf.gOf t = .fin n ∧ Reach e.grid s n t ∧ (∀ k, Reach e.grid s k t → n ≤ k) ∧
      parentWalk stf.grid.store fuel t [] = some path ∧
      r.engine.grid = (revealPath stops path { stf with openSet := rest }).grid ∧
      r.engine.shouldStop = (revealPath stops path { stf with openSet := rest }).shouldStop ∧
      r.engine.isRunning = false ∧
      r.events = (revealPath stops path { stf with openSet := rest }).events ++
        [Event.pathFound path] := by
  rcases runSearch_cases hs ht h with ⟨stf, _, rfl⟩ | ⟨st1, path', hl, hw, rfl⟩
  · cases hp
  · simp only [Option.some.injEq] at hp
    subst hp
    obtain ⟨stf, hi, _, hr⟩ := searchLoop_end stops hc fuel _ _ (inv_initSearch alg e s t) hl
    rcases hr with ⟨hr, _⟩ | ⟨rest, hr, hsort, hss⟩
    · cases hr
    · injection hr with hr
      subst hr
      obtain ⟨hperm, hmin⟩ := sortCells_head hsort
      have hto : t ∈ stf.openSet := hperm.mem_iff.mp (List.mem_cons_self _ _)
      obtain ⟨n, hn⟩ := hi.finite t (Or.inl hto)
      refine ⟨stf, rest, n, hi, hto, hss, hn, hi.reach_of_seen n t (Or.inl hto) hn, ?_, hw,
        rfl, rfl, rfl, rfl⟩
      intro k hk
      have := pop_optimal hi hc hto hmin hk
      rw [hn] at this
      simpa [Num.lt] using this

/-- A run that returns `null`: the state `stf` at which the loop gave up. -/
theorem runSearch_null {fuel : Nat} {stops : Nat → Bool} {e : Engine} {r : RunResult}
    (hc : Consistent alg e.grid t)
    (hs : e.grid.startCell = some s) (ht : e.grid.endCell = some t)
    (h : runSearch alg fuel stops e = some r) (hp : r.path = none) :
    ∃ stf, Inv alg e.grid s t (fun _ _ => True) stf ∧
      (stf.openSet = [] ∨ stf.shouldStop = true) ∧
      ((∀ k, stops k = false) → stf.shouldStop = false) ∧
      r = { path := none
            engine := { grid := stf.grid, isRunning := false, shouldStop := stf.shouldStop }
            events := stf.events } := by
  rcases runSearch_cases hs ht h with ⟨st1, hl, rfl⟩ | ⟨st1, path', hl, hw, rfl⟩
  · obtain ⟨stf, hi, hss, hr⟩ := searchLoop_end stops hc fuel _ _ (inv_initSearch alg e s t) hl
    rcases hr with ⟨hr, hor⟩ | ⟨rest, hr, _, _⟩
    · injection hr with hr
      subst hr
      exact ⟨st1, hi, hor, fun hstops => hss hstops rfl, rfl⟩
    · cases hr
  · cases hp

/-- Every run returns when given `rows * cols + 3` units of fuel. -/
theorem runSearch_total (alg : Algorithm) (stops : Nat → Bool) (e : Engine)
    (hc : ∀ t, e.grid.endCell = some t → Consistent alg e.grid t)
    (hsane : ∀ s, e.grid.startCell = some s → StartSane e.grid s)
    (fuel : Nat) (hf : e.grid.rows * e.grid.cols + 3 ≤ fuel) :
    ∃ r, runSearch alg fuel stops e = some r := by
  cases hs : e.grid.startCell with
  | none => exact ⟨_, runSearch_unset alg fuel stops e (Or.inl hs)⟩
  | some s =>
    cases ht : e.grid.endCell with
    | none => exact ⟨_, runSearch_unset alg fuel stops e (Or.inr ht)⟩
    | some t =>
      have hi := inv_initSearch alg e s t
      obtain ⟨res, hres⟩ := searchLoop_terminates stops (hc t ht) fuel _ hi (by omega)
      obtain ⟨stf, hif, _, hr⟩ := searchLoop_end stops (hc t ht) fuel _ _ hi hres
      unfold runSearch
      rw [hs, ht]
      simp only
      rw [hres]
      rcases hr with ⟨rfl, _⟩ | ⟨rest, rfl, hsort, _⟩
      · exact ⟨_, rfl⟩
      · have hto : t ∈ stf.openSet :=
          (sortCells_head hsort).1.mem_iff.mp (List.mem_cons_self _ _)
        obtain ⟨n, hn, hle⟩ := Num.lt_false_fin (hif.bound_open t hto)
        have hlen := hif.closed_length_le
        obtain ⟨chain, hw, _⟩ := parentWalk_spec hif (hsane s hs) n t [] fuel (Or.inl hto) hn
          (by omega)
        simp only [reconstructPath]
        have hw' : parentWalk stf.grid.store fuel t [] = some chain := by
          simpa using hw
        rw [hw']
        exact ⟨_, rfl⟩

theorem runSearch_mono {fuel : Nat} {stops : Nat → Bool} {e : Engine} {r : RunResult}
    (h : runSearch alg fuel stops e = some r) (k : Nat) :
    runSearch alg (fuel + k) stops e = some r := by
  cases hs : e.grid.startCell with
  | none =>
    rw [runSearch_unset alg _ stops e (Or.inl hs)] at h ⊢
    exact h
  | some s =>
    cases ht : e.grid.endCell with
    | none =>
      rw [runSearch_unset alg _ stops e (Or.inr ht)] at h ⊢
      exact h
    | some t =>
      unfold runSearch
      rw [hs, ht]
      simp only
      rcases runSearch_cases hs ht h with ⟨stf, hl, rfl⟩ | ⟨st1, path, hl, hw, rfl⟩
      · rw [searchLoop_mono stops fuel _ _ k hl]
      · rw [searchLoop_mono stops fuel _ _ k hl]
        simp only [reconstructPath]
        rw [parentWalk_mono _ fuel t [] path k hw]

/-- The returned path of a run whose start is sane, described from the final state
of the loop. -/
theorem parentWalk_path {P : CellId → CellId → Prop} {st : Search}
    (h : Inv alg g0 s t P st) (hsane : StartSane g0 s) {v : CellId} {n fuel : Nat}
    {path : List CellId}
    (hv : v ∈ st.openSet ∨ v ∈ st.closedSet) (hg : st.gOf v = .fin n)
    (hw : parentWalk st.grid.store fuel v [] = some path) :
    path.length = n ∧ (s :: path).getLast? = some v ∧
      List.Chain' (fun a b => b ∈ getNeighbors g0 a) (s :: path) ∧
      List.Chain' (fun a b => (st.grid.store b).parent = some a) (s :: path) ∧
      ∀ c ∈ path, c ≠ s ∧ (c = v ∨ c ∈ st.closedSet) := by
  obtain ⟨chain, hw', h1, h2, h3, h3', h4⟩ :=
    parentWalk_spec h hsane n v [] (fuel + (n + 1)) hv hg (by omega)
  have := parentWalk_mono st.grid.store fuel v [] path (n + 1) hw
  rw [this] at hw'
  simp only [List.append_nil, Option.some.injEq] at hw'
  subst hw'
  exact ⟨h1, h2, h3, h3', h4⟩

/-! ## Results -/

theorem scenarioD_dijkstra_returns : (runDijkstra 12 noStop scenarioD).isSome = true := by
  decide!

/-- C1: when an uncancelled `runDijkstra` returns a path, End's final `g` is the
number of moves of a route from Start to End whose cells after Start are non-Obstacle
cells of the grid, and no such route has fewer moves. -/
theorem runDijkstra_shortest (fuel : Nat) (e : Engine) (s t : CellId) (r : RunResult)
    (path : List CellId)
    (hs : e.grid.startCell = some s) (ht : e.grid.endCell = some t)
    (hrun : runDijkstra fuel noStop e = some r) (hpath : r.path = some path) :
    ∃ n, (r.engine.grid.store t).g = .fin n ∧
      (∃ p, IsRoute e.grid s t p ∧ p.length = n + 1) ∧
      ∀ p, IsRoute e.grid s t p → n + 1 ≤ p.length := by
  obtain ⟨stf, rest, n, _, _, _, hg, hreach, hmin, _, hgrid, _⟩ :=
    runSearch_found (consistent_dijkstra e.grid t) hs ht hrun hpath
  refine ⟨n, ?_, isRoute_of_reach hreach, ?_⟩
  · rw [hgrid, ((revealPath_frame noStop path _).2.2.2.2.2 t).1]
    exact hg
  · intro p hp
    obtain ⟨k, hk, hr⟩ := reach_of_isRoute hp
    have := hmin k hr
    omega

theorem runDijkstra_shortest_witness :
    ∃ n, (((runDijkstra 12 noStop scenarioD).get scenarioD_dijkstra_returns).engine.grid.store
        ⟨1, 1, 2⟩).g = .fin n ∧
      (∃ p, IsRoute scenarioD.grid ⟨1, 1, 0⟩ ⟨1, 1, 2⟩ p ∧ p.length = n + 1) ∧
      ∀ p, IsRoute scenarioD.grid ⟨1, 1, 0⟩ ⟨1, 1, 2⟩ p → n + 1 ≤ p.length :=
  runDijkstra_shortest 12 scenarioD ⟨1, 1, 0⟩ ⟨1, 1, 2⟩
    ((runDijkstra 12 noStop scenarioD).get scenarioD_dijkstra_returns)
    [⟨1, 0, 0⟩, ⟨1, 0, 1⟩, ⟨1, 0, 2⟩, ⟨1, 1, 2⟩]
    (by decide!) (by decide!) (Option.some_get _).symm (by decide!)

theorem parentWalk_congr {store1 store2 : CellId → Cell}
    (h : ∀ x, (store1 x).parent = (store2 x).parent) :
    ∀ (fuel : Nat) (v : CellId) (acc : List CellId),
      parentWalk store1 fuel v acc = parentWalk store2 fuel v acc := by
  intro fuel
  induction fuel with
  | zero => intro v acc; rfl
  | succ n ih =>
    intro v acc
    unfold parentWalk
    rw [h v]
    cases (store2 v).parent with
    | none => rfl
    | some p => exact ih p _

/-- The final `g` of End and the shape of the returned path, for a search whose
estimate is consistent. -/
theorem runSearch_end_g {alg : Algorithm} {fuel : Nat} {stops : Nat → Bool} {e : Engine}
    {s t : CellId} {r : RunResult} {path : List CellId}
    (hc : Consistent alg e.grid t)
    (hs : e.grid.startCell = some s) (ht : e.grid.endCell = some t)
    (hrun : runSearch alg fuel stops e = some r) (hpath : r.path = some path) :
    ∃ n, (r.engine.grid.store t).g = .fin n ∧ Reach e.grid s n t ∧
      (∀ k, Reach e.grid s k t → n ≤ k) ∧
      parentWalk r.engine.grid.store fuel t [] = some path ∧
      (StartSane e.grid s → path.length = n ∧
        List.Chain' (fun a b => b ∈ getNeighbors e.grid a) (s :: path) ∧
        (s :: path).getLast? = some t ∧ (∀ c ∈ path, c ≠ s) ∧
        (r.engine.grid.store s).parent = none ∧
        List.Chain' (fun a b => (r.engine.grid.store b).parent = some a) (s :: path)) := by
  obtain ⟨stf, rest, n, hi, hto, _, hg, hreach, hmin, hw, hgrid, _⟩ :=
    runSearch_found hc hs ht hrun hpath
  refine ⟨n, ?_, hreach, hmin, ?_, ?_⟩
  · rw [hgrid, ((revealPath_frame stops path _).2.2.2.2.2 t).1]
    exact hg
  · rw [hgrid, parentWalk_congr (fun x => ((revealPath_frame stops path _).2.2.2.2.2 x).2)]
    exact hw
  · intro hsane
    obtain ⟨h1, h2, h3, h3', h4⟩ := parentWalk_path hi hsane (Or.inl hto) hg hw
    refine ⟨h1, h3, h2, fun c hc => (h4 c hc).1, ?_, ?_⟩
    · rw [hgrid, ((revealPath_frame stops path _).2.2.2.2.2 s).2]
      exact hi.start_parent hsane
    · refine h3'.imp (fun {a b} hab => ?_)
      rw [hgrid, ((revealPath_frame stops path _).2.2.2.2.2 b).2]
      exact hab

theorem chain'_cons_mem {α : Type} {R : α → α → Prop} :
    ∀ {l : List α} {a : α}, List.Chain' R (a :: l) → ∀ c ∈ l, ∃ b, R b c := by
  intro l
  induction l with
  | nil => intro a _ c hc; cases hc
  | cons x xs ih =>
    intro a h c hc
    rw [List.chain'_cons] at h
    rcases List.mem_cons.mp hc with rfl | hc
    · exact ⟨a, h.1⟩
    · exact ih h.2 c hc

/-- From a cell met by the search the parent links arrive at Start after `g` steps. -/
theorem parentWalk_to_start {alg : Algorithm} {g0 : Grid} {s t : CellId}
    {P : CellId → CellId → Prop} {st : Search} (h : Inv alg g0 s t P st) :
    ∀ (n : Nat) (v : CellId) (acc : List CellId) (fuel : Nat),
      v ∈ st.openSet ∨ v ∈ st.closedSet → st.gOf v = .fin n →
      ∃ chain, chain.length = n ∧
        parentWalk st.grid.store (fuel + n) v acc =
          parentWalk st.grid.store fuel s (chain ++ acc) := by
  intro n
  induction n with
  | zero =>
    intro v acc fuel hv hg
    have hvs : v = s := by
      by_contra hvs
      obtain ⟨p, hp, _, _, hgv⟩ := h.tree v hv hvs
      obtain ⟨m, hm⟩ := h.finite p (Or.inr hp)
      rw [hm, hg] at hgv
      simp [Num.add] at hgv
    subst hvs
    exact ⟨[], rfl, rfl⟩
  | succ n ih =>
    intro v acc fuel hv hg
    have hvs : v ≠ s := by
      intro hvs
      subst hvs
      rw [h.start_g] at hg
      cases hg
    obtain ⟨p, hp, hpar, _, hgv⟩ := h.tree v hv hvs
    obtain ⟨m, hm⟩ := h.finite p (Or.inr hp)
    rw [hm, hg] at hgv
    simp [Num.add] at hgv
    subst hgv
    obtain ⟨chain, hlen, hw⟩ := ih p (v :: acc) fuel (Or.inr hp) hm
    refine ⟨chain ++ [v], by simp [hlen], ?_⟩
    rw [show fuel + (n + 1) = (fuel + n) + 1 by omega]
    conv_lhs => unfold parentWalk
    rw [hpar]
    simp only
    rw [hw]
    simp

/-- A walk that starts inside a set of cells closed under the parent link never ends. -/
theorem parentWalk_diverges (store : CellId → Cell) (S : CellId → Prop)
    (hS : ∀ c, S c → ∃ w, S w ∧ (store c).parent = some w) :
    ∀ (fuel : Nat) (c : CellId) (acc : List CellId), S c → parentWalk store fuel c acc = none := by
  intro fuel
  induction fuel with
  | zero => intro c acc _; rfl
  | succ n ih =>
    intro c acc hc
    obtain ⟨w, hw, hp⟩ := hS c hc
    unfold parentWalk
    rw [hp]
    exact ih w _ hw

/-- A cell of the grid that the parent links reach from Start was not met by a search
whose walk from some met cell ends. -/
theorem unseen_of_walk {alg : Algorithm} {g0 : Grid} {s t : CellId}
    {P : CellId → CellId → Prop} {st : Search} (h : Inv alg g0 s t P st)
    {fuel : Nat} {v0 : CellId} {acc0 path : List CellId}
    (hv0 : v0 ∈ st.openSet ∨ v0 ∈ st.closedSet)
    (hw0 : parentWalk st.grid.store fuel v0 acc0 = some path)
    {v : CellId} {vis : List CellId}
    (hvis : ∀ c ∈ vis, ∃ w, (st.grid.store c).parent = some w ∧ (w ∈ vis ∨ w = v))
    (hs : s ∈ vis) : v ∉ st.openSet ∧ v ∉ st.closedSet := by
  by_contra hcon
  have hv : v ∈ st.openSet ∨ v ∈ st.closedSet := by
    by_contra hh
    exact hcon ⟨fun a => hh (Or.inl a), fun a => hh (Or.inr a)⟩
  have hS : ∀ c, (c ∈ vis ∨ c ∈ st.openSet ∨ c ∈ st.closedSet) →
      ∃ w, (w ∈ vis ∨ w ∈ st.openSet ∨ w ∈ st.closedSet) ∧
        (st.grid.store c).parent = some w := by
    have hfromvis : ∀ c ∈ vis, ∃ w, (w ∈ vis ∨ w ∈ st.openSet ∨ w ∈ st.closedSet) ∧
        (st.grid.store c).parent = some w := by
      intro c hc
      obtain ⟨w, hp, hw⟩ := hvis c hc
      refine ⟨w, ?_, hp⟩
      rcases hw with hw | rfl
      · exact Or.inl hw
      · exact Or.inr hv
    intro c hc
    rcases hc with hc | hc
    · exact hfromvis c hc
    · by_cases hcs : c = s
      · subst hcs; exact hfromvis c hs
      · obtain ⟨p, hp, hpar, _, _⟩ := h.tree c hc hcs
        exact ⟨p, Or.inr (Or.inr hp), hpar⟩
  have := parentWalk_diverges st.grid.store _ hS fuel v0 acc0 (Or.inr hv0)
  rw [this] at hw0
  cases hw0

/-- Beyond Start the parent links are the same after two searches on the same grid,
so both walks add the same number of cells. -/
theorem tail_length_eq {algA algD : Algorithm} {g0 : Grid} {s t : CellId}
    {PA PD : CellId → CellId → Prop} {stA stD : Search}
    (hA : Inv algA g0 s t PA stA) (hD : Inv algD g0 s t PD stD)
    {fA fD : Nat} {vA vD : CellId} {aA aD qA qD : List CellId}
    (hvA : vA ∈ stA.openSet ∨ vA ∈ stA.closedSet)
    (hwA : parentWalk stA.grid.store fA vA aA = some qA)
    (hvD : vD ∈ stD.openSet ∨ vD ∈ stD.closedSet)
    (hwD : parentWalk stD.grid.store fD vD aD = some qD) :
    ∀ (fuelA fuelD : Nat) (v : CellId) (vis accA accD pa pd : List CellId),
      (∀ c ∈ vis, ∃ w, (stA.grid.store c).parent = some w ∧ (w ∈ vis ∨ w = v)) →
      (∀ c ∈ vis, ∃ w, (stD.grid.store c).parent = some w ∧ (w ∈ vis ∨ w = v)) →
      (s ∈ vis ∨ v = s) →
      parentWalk stA.grid.store fuelA v accA = some pa →
      parentWalk stD.grid.store fuelD v accD = some pd →
      pa.length + accD.length = pd.length + accA.length := by
  intro fuelA
  induction fuelA with
  | zero => intro fuelD v vis accA accD pa pd _ _ _ h1 _; cases h1
  | succ fa ih =>
    intro fuelD v vis accA accD pa pd hvisA hvisD hsv h1 h2
    cases fuelD with
    | zero => cases h2
    | succ fd =>
      unfold parentWalk at h1 h2
      by_cases hl : g0.isLive v = true
      · have hnone : (stA.grid.store v).parent = none ∧ (stD.grid.store v).parent = none := by
          by_cases hvs : v = s
          · subst hvs
            exact ⟨hA.start_parent (Or.inl hl), hD.start_parent (Or.inl hl)⟩
          · have hsvis : s ∈ vis := hsv.resolve_right (fun e => hvs e)
            obtain ⟨a1, a2⟩ := unseen_of_walk hA hvA hwA hvisA hsvis
            obtain ⟨d1, d2⟩ := unseen_of_walk hD hvD hwD hvisD hsvis
            exact ⟨(hA.unseen v hl a1 a2).2, (hD.unseen v hl d1 d2).2⟩
        rw [hnone.1] at h1
        rw [hnone.2] at h2
        simp only [Option.some.injEq] at h1 h2
        subst h1 h2
        omega
      · have hl' : g0.isLive v = false := by simpa using hl
        have hpA := hA.stale_parent v hl'
        have hpD := hD.stale_parent v hl'
        rw [hpA] at h1
        rw [hpD] at h2
        cases hp : (g0.store v).parent with
        | none =>
          rw [hp] at h1 h2
          simp only [Option.some.injEq] at h1 h2
          subst h1 h2
          omega
        | some w =>
          rw [hp] at h1 h2
          have step : ∀ {st : Search}, (st.grid.store v).parent = some w →
              (∀ c ∈ vis, ∃ w', (st.grid.store c).parent = some w' ∧ (w' ∈ vis ∨ w' = v)) →
              ∀ c ∈ v :: vis, ∃ w', (st.grid.store c).parent = some w' ∧
                (w' ∈ v :: vis ∨ w' = w) := by
            intro st hpv hvis c hc
            rcases List.mem_cons.mp hc with rfl | hc
            · exact ⟨w, hpv, Or.inr rfl⟩
            · obtain ⟨w', hp', hw'⟩ := hvis c hc
              refine ⟨w', hp', Or.inl ?_⟩
              rcases hw' with hw' | rfl
              · exact List.mem_cons_of_mem _ hw'
              · exact List.mem_cons_self _ _
          have hs' : s ∈ v :: vis ∨ w = s := by
            rcases hsv with hsv | rfl
            · exact Or.inl (List.mem_cons_of_mem _ hsv)
            · exact Or.inl (List.mem_cons_self _ _)
          have := ih fd w (v :: vis) (v :: accA) (v :: accD) pa pd
            (step (hpA.trans hp) hvisA) (step (hpD.trans hp) hvisD) hs' h1 h2
          simp only [List.length_cons] at this
          omega

theorem scenarioD_astar_returns : (runAStar 12 noStop scenarioD).isSome = true := by
  decide!

/-- C2: when uncancelled runs of `runAStar` and `runDijkstra` on the same grid both
return a path, the two paths have the same number of cells and End's final `g` is the
same in both runs. -/
theorem astar_dijkstra_same_length (fuelA fuelD : Nat) (e : Engine) (s t : CellId)
    (ra rd : RunResult) (pa pd : List CellId)
    (hs : e.grid.startCell = some s) (ht : e.grid.endCell = some t)
    (hA : runAStar fuelA noStop e = some ra) (hpa : ra.path = some pa)
    (hD : runDijkstra fuelD noStop e = some rd) (hpd : rd.path = some pd) :
    pa.length = pd.length ∧ (ra.engine.grid.store t).g = (rd.engine.grid.store t).g := by
  obtain ⟨stA, restA, n, hiA, htoA, _, hgA, hrA, hminA, hwA, hgridA, _⟩ :=
    runSearch_found (consistent_astar e.grid t) hs ht hA hpa
  obtain ⟨stD, restD, m, hiD, htoD, _, hgD, hrD, hminD, hwD, hgridD, _⟩ :=
    runSearch_found (consistent_dijkstra e.grid t) hs ht hD hpd
  have hnm : n = m := le_antisymm (hminA m hrD) (hminD n hrA)
  subst hnm
  constructor
  · obtain ⟨chainA, hlenA, heA⟩ := parentWalk_to_start hiA n t [] fuelA (Or.inl htoA) hgA
    obtain ⟨chainD, hlenD, heD⟩ := parentWalk_to_start hiD n t [] fuelD (Or.inl htoD) hgD
    rw [parentWalk_mono _ fuelA t [] pa n hwA] at heA
    rw [parentWalk_mono _ fuelD t [] pd n hwD] at heD
    have := tail_length_eq hiA hiD (Or.inl htoA) hwA (Or.inl htoD) hwD fuelA fuelD s []
      (chainA ++ []) (chainD ++ []) pa pd (by simp) (by simp) (Or.inr rfl) heA.symm heD.symm
    simp only [List.append_nil] at this
    omega
  · rw [hgridA, hgridD, ((revealPath_frame noStop pa _).2.2.2.2.2 t).1,
      ((revealPath_frame noStop pd _).2.2.2.2.2 t).1]
    exact hgA.trans hgD.symm

theorem astar_dijkstra_same_length_witness :
    ([⟨1, 0, 0⟩, ⟨1, 0, 1⟩, ⟨1, 0, 2⟩, ⟨1, 1, 2⟩] : List CellId).length =
        ([⟨1, 0, 0⟩, ⟨1, 0, 1⟩, ⟨1, 0, 2⟩, ⟨1, 1, 2⟩] : List CellId).length ∧
      (((runAStar 12 noStop scenarioD).get scenarioD_astar_returns).engine.grid.store
        ⟨1, 1, 2⟩).g =
      (((runDijkstra 12 noStop scenarioD).get scenarioD_dijkstra_returns).engine.grid.store
        ⟨1, 1, 2⟩).g :=
  astar_dijkstra_same_length 12 12 scenarioD ⟨1, 1, 0⟩ ⟨1, 1, 2⟩
    ((runAStar 12 noStop scenarioD).get scenarioD_astar_returns)
    ((runDijkstra 12 noStop scenarioD).get scenarioD_dijkstra_returns)
    [⟨1, 0, 0⟩, ⟨1, 0, 1⟩, ⟨1, 0, 2⟩, ⟨1, 1, 2⟩] [⟨1, 0, 0⟩, ⟨1, 0, 1⟩, ⟨1, 0, 2⟩, ⟨1, 1, 2⟩]
    (by decide!) (by decide!) (Option.some_get _).symm (by decide!)
    (Option.some_get _).symm (by decide!)

/-- A run of a search with a consistent estimate returns `null` exactly when no route
leads from Start to End, provided nobody asks it to stop. -/
theorem runSearch_null_iff {alg : Algorithm} {fuel : Nat} {e : Engine}
    {s t : CellId} {r : RunResult}
    (hc : Consistent alg e.grid t)
    (hs : e.grid.startCell = some s) (ht : e.grid.endCell = some t)
    (hrun : runSearch alg fuel noStop e = some r) :
    r.path = none ↔ ¬ ∃ p, IsRoute e.grid s t p := by
  constructor
  · intro hnone
    obtain ⟨stf, hi, hor, hss, _⟩ := runSearch_null hc hs ht hrun hnone
    have hopen : stf.openSet = [] := by
      rcases hor with h | h
      · exact h
      · rw [hss (fun _ => rfl)] at h; cases h
    rintro ⟨p, hp⟩
    obtain ⟨k, _, hr⟩ := reach_of_isRoute hp
    exact hi.end_open (hi.closed_of_reach hopen hr)
  · intro hno
    cases hp : r.path with
    | none => rfl
    | some path =>
      exfalso
      obtain ⟨n, _, hr, _⟩ := runSearch_end_g hc hs ht hrun hp
      obtain ⟨p, hp', _⟩ := isRoute_of_reach hr
      exact hno ⟨p, hp'⟩

theorem no_route_of_walledOff {g : Grid} {s t : CellId} (h : WalledOff g s t) :
    ¬ ∃ p, IsRoute g s t p := by
  rintro ⟨p, hp⟩
  obtain ⟨k, _, hr⟩ := reach_of_isRoute hp
  obtain ⟨hst, hadj, hwall⟩ := h
  cases hr with
  | refl => exact hst rfl
  | @step n b _ hr hn =>
    have hbt := (mem_getNeighbors_iff g b t).mp hn
    have hm : manhattan b t = 1 := hbt.2.2
    cases hr with
    | refl => exact hadj hm
    | @step m a _ _ hn' =>
      have hab := (mem_getNeighbors_iff g a b).mp hn'
      exact hab.2.1 (hwall b hab.1 hm)

/-- C3: on a grid with Start and End set (the Start reference naming a cell of the
grid or an object without parent, as in every grid the `Grid` methods produce), with
enough fuel an uncancelled `runDijkstra` and an uncancelled `runAStar` both return, and
each returns `null` exactly when no route leads from Start to End through non-Obstacle
cells of the grid; so they report no path on the same grids, in particular when End is
walled off by Obstacles. -/
theorem no_path_iff_no_route (e : Engine) (s t : CellId) (fuel : Nat)
    (hs : e.grid.startCell = some s) (ht : e.grid.endCell = some t)
    (hsane : StartSane e.grid s) (hf : e.grid.rows * e.grid.cols + 3 ≤ fuel) :
    ∃ rd ra, runDijkstra fuel noStop e = some rd ∧ runAStar fuel noStop e = some ra ∧
      (rd.path = none ↔ ¬ ∃ p, IsRoute e.grid s t p) ∧
      (ra.path = none ↔ ¬ ∃ p, IsRoute e.grid s t p) ∧
      (rd.path = none ↔ ra.path = none) ∧
      (WalledOff e.grid s t → rd.path = none ∧ ra.path = none) := by
  have hsane' : ∀ s', e.grid.startCell = some s' → StartSane e.grid s' := by
    intro s' hs'
    rw [hs] at hs'
    cases hs'
    exact hsane
  obtain ⟨rd, hrd⟩ := runSearch_total .dijkstra noStop e
    (fun t' _ => consistent_dijkstra e.grid t') hsane' fuel hf
  obtain ⟨ra, hra⟩ := runSearch_total (.astar calculateHeuristic) noStop e
    (fun t' _ => consistent_astar e.grid t') hsane' fuel hf
  have hd := runSearch_null_iff (consistent_dijkstra e.grid t) hs ht hrd
  have ha := runSearch_null_iff (consistent_astar e.grid t) hs ht hra
  refine ⟨rd, ra, hrd, hra, hd, ha, hd.trans ha.symm, fun hw => ?_⟩
  exact ⟨hd.mpr (no_route_of_walledOff hw), ha.mpr (no_route_of_walledOff hw)⟩

theorem no_path_iff_no_route_witness :
    ∃ rd ra, runDijkstra 19 noStop scenarioC = some rd ∧
      runAStar 19 noStop scenarioC = some ra ∧
      (rd.path = none ↔ ¬ ∃ p, IsRoute scenarioC.grid ⟨1, 0, 0⟩ ⟨1, 3, 3⟩ p) ∧
      (ra.path = none ↔ ¬ ∃ p, IsRoute scenarioC.grid ⟨1, 0, 0⟩ ⟨1, 3, 3⟩ p) ∧
      (rd.path = none ↔ ra.path = none) ∧
      (WalledOff scenarioC.grid ⟨1, 0, 0⟩ ⟨1, 3, 3⟩ → rd.path = none ∧ ra.path = none) :=
  no_path_iff_no_route scenarioC ⟨1, 0, 0⟩ ⟨1, 3, 3⟩ 19 (by decide!) (by decide!) (by decide!)
    (by decide!)

/-- C4: in every path returned by `runDijkstra` or `runAStar`, cancelled or not,
consecutive cells are 4-adjacent (Manhattan distance 1) and no cell had type Obstacle
when the run started (the Start reference naming a cell of the grid or an object
without parent, as in every grid the `Grid` methods produce). -/
theorem returned_path_valid (fuel : Nat) (stops : Nat → Bool) (e : Engine) (s t : CellId)
    (r : RunResult) (path : List CellId)
    (hs : e.grid.startCell = some s) (ht : e.grid.endCell = some t)
    (hsane : StartSane e.grid s)
    (hrun : runDijkstra fuel stops e = some r ∨ runAStar fuel stops e = some r)
    (hpath : r.path = some path) :
    List.Chain' (fun a b => manhattan a b = 1) path ∧
      ∀ c ∈ path, (e.grid.store c).type ≠ .OBSTACLE := by
  have key : List.Chain' (fun a b => b ∈ getNeighbors e.grid a) (s :: path) := by
    rcases hrun with hrun | hrun
    · obtain ⟨n, _, _, _, _, h⟩ :=
        runSearch_end_g (consistent_dijkstra e.grid t) hs ht hrun hpath
      exact (h hsane).2.1
    · obtain ⟨n, _, _, _, _, h⟩ :=
        runSearch_end_g (consistent_astar e.grid t) hs ht hrun hpath
      exact (h hsane).2.1
  constructor
  · exact (List.Chain'.tail key).imp (fun {a b} hab => ((mem_getNeighbors_iff _ a b).mp hab).2.2)
  · intro c hc
    obtain ⟨b, hb⟩ := chain'_cons_mem key c hc
    exact ((mem_getNeighbors_iff _ b c).mp hb).2.1

theorem returned_path_valid_witness :
    List.Chain' (fun a b => manhattan a b = 1)
        ([⟨1, 0, 0⟩, ⟨1, 0, 1⟩, ⟨1, 0, 2⟩, ⟨1, 1, 2⟩] : List CellId) ∧
      ∀ c ∈ ([⟨1, 0, 0⟩, ⟨1, 0, 1⟩, ⟨1, 0, 2⟩, ⟨1, 1, 2⟩] : List CellId),
        (scenarioD.grid.store c).type ≠ .OBSTACLE :=
  returned_path_valid 12 noStop scenarioD ⟨1, 1, 0⟩ ⟨1, 1, 2⟩
    ((runAStar 12 noStop scenarioD).get scenarioD_astar_returns)
    [⟨1, 0, 0⟩, ⟨1, 0, 1⟩, ⟨1, 0, 2⟩, ⟨1, 1, 2⟩]
    (by decide!) (by decide!) (by decide!) (Or.inr (Option.some_get _).symm) (by decide!)

/-- The shape of every returned path: Start followed by the path is a shortest route
from Start to End, and Start itself is not in the path. -/
theorem returned_path_shape (fuel : Nat) (stops : Nat → Bool) (e : Engine) (s t : CellId)
    (r : RunResult) (path : List CellId)
    (hs : e.grid.startCell = some s) (ht : e.grid.endCell = some t)
    (hsane : StartSane e.grid s)
    (hrun : runDijkstra fuel stops e = some r ∨ runAStar fuel stops e = some r)
    (hpath : r.path = some path) :
    s ∉ path ∧ IsRoute e.grid s t (s :: path) ∧
      ∀ p, IsRoute e.grid s t p → path.length + 1 ≤ p.length := by
  have key : ∃ n, (∀ k, Reach e.grid s k t → n ≤ k) ∧ path.length = n ∧
      List.Chain' (fun a b => b ∈ getNeighbors e.grid a) (s :: path) ∧
      (s :: path).getLast? = some t ∧ (∀ c ∈ path, c ≠ s) := by
    rcases hrun with hrun | hrun
    · obtain ⟨n, _, _, hmin, _, h⟩ :=
        runSearch_end_g (consistent_dijkstra e.grid t) hs ht hrun hpath
      exact ⟨n, hmin, (h hsane).1, (h hsane).2.1, (h hsane).2.2.1, (h hsane).2.2.2.1⟩
    · obtain ⟨n, _, _, hmin, _, h⟩ :=
        runSearch_end_g (consistent_astar e.grid t) hs ht hrun hpath
      exact ⟨n, hmin, (h hsane).1, (h hsane).2.1, (h hsane).2.2.1, (h hsane).2.2.2.1⟩
  obtain ⟨n, hmin, hlen, hch, hlast, hns⟩ := key
  refine ⟨fun h => hns s h rfl, ⟨rfl, hlast, ?_⟩, ?_⟩
  · exact hch.imp (fun {a b} hab => (mem_getNeighbors_iff _ a b).mp hab)
  · intro p hp
    obtain ⟨k, hk, hr⟩ := reach_of_isRoute hp
    have := hmin k hr
    omega

/-- C5: on Scenario A (5 x 5, no obstacles, Start (0,0), End (4,4)) both procedures
return the eight cells from (1,0) to (4,4): the sequence ends with End but does not
contain Start, so it has as many cells as the route has moves, not one more. -/
theorem scenarioA_path_omits_start :
    (runDijkstra 27 noStop scenarioA).map (fun r => r.path) =
      some (some [⟨1, 1, 0⟩, ⟨1, 2, 0⟩, ⟨1, 3, 0⟩, ⟨1, 4, 0⟩, ⟨1, 4, 1⟩, ⟨1, 4, 2⟩,
        ⟨1, 4, 3⟩, ⟨1, 4, 4⟩]) ∧
    (runAStar 27 noStop scenarioA).map (fun r => r.path) =
      some (some [⟨1, 1, 0⟩, ⟨1, 2, 0⟩, ⟨1, 3, 0⟩, ⟨1, 4, 0⟩, ⟨1, 4, 1⟩, ⟨1, 4, 2⟩,
        ⟨1, 4, 3⟩, ⟨1, 4, 4⟩]) ∧
    scenarioA.grid.startCell = some ⟨1, 0, 0⟩ ∧ scenarioA.grid.endCell = some ⟨1, 4, 4⟩ := by
  decide!

/-- C6: on Scenario B (Start and End on the same cell) both procedures return the
empty sequence, not a sequence of one cell; the only callback invoked is `onPathFound`
with that empty sequence, and no cell changes its type. -/
theorem scenarioB_returns_empty_path :
    (runDijkstra 1 noStop scenarioB).map (fun r => (r.path, r.events)) =
      some (some [], [Event.pathFound []]) ∧
    (runAStar 1 noStop scenarioB).map (fun r => (r.path, r.events)) =
      some (some [], [Event.pathFound []]) ∧
    scenarioB.grid.startCell = some ⟨1, 2, 3⟩ ∧ scenarioB.grid.endCell = some ⟨1, 2, 3⟩ ∧
    (runDijkstra 1 noStop scenarioB).map
        (fun r => scenarioB.grid.liveCells.map (fun c => (r.engine.grid.store c).type)) =
      some (scenarioB.grid.liveCells.map (fun c => (scenarioB.grid.store c).type)) := by
  decide!

/-- C7: after a successful uncancelled run of `runDijkstra` or `runAStar` the parent
links lead from End back to Start, which has no parent, along the returned path, and
their number, the length of the path, is End's final `g` (the Start reference naming a
cell of the grid or an object without parent before the run). -/
theorem path_length_eq_end_g (fuel : Nat) (e : Engine) (s t : CellId)
    (r : RunResult) (path : List CellId)
    (hs : e.grid.startCell = some s) (ht : e.grid.endCell = some t)
    (hsane : StartSane e.grid s)
    (hrun : runDijkstra fuel noStop e = some r ∨ runAStar fuel noStop e = some r)
    (hpath : r.path = some path) :
    (r.engine.grid.store s).parent = none ∧
      List.Chain' (fun a b => (r.engine.grid.store b).parent = some a) (s :: path) ∧
      (s :: path).getLast? = some t ∧
      parentWalk r.engine.grid.store fuel t [] = some path ∧
      (r.engine.grid.store t).g = .fin path.length := by
  have key : ∃ n, (r.engine.grid.store t).g = .fin n ∧
      parentWalk r.engine.grid.store fuel t [] = some path ∧
      (StartSane e.grid s → path.length = n ∧
        List.Chain' (fun a b => b ∈ getNeighbors e.grid a) (s :: path) ∧
        (s :: path).getLast? = some t ∧ (∀ c ∈ path, c ≠ s) ∧
        (r.engine.grid.store s).parent = none ∧
        List.Chain' (fun a b => (r.engine.grid.store b).parent = some a) (s :: path)) := by
    rcases hrun with hrun | hrun
    · obtain ⟨n, h1, _, _, h2, h3⟩ :=
        runSearch_end_g (consistent_dijkstra e.grid t) hs ht hrun hpath
      exact ⟨n, h1, h2, h3⟩
    · obtain ⟨n, h1, _, _, h2, h3⟩ :=
        runSearch_end_g (consistent_astar e.grid t) hs ht hrun hpath
      exact ⟨n, h1, h2, h3⟩
  obtain ⟨n, hg, hw, h⟩ := key
  obtain ⟨hlen, _, hlast, _, hsp, hchain⟩ := h hsane
  exact ⟨hsp, hchain, hlast, hw, by rw [hg, hlen]⟩

theorem path_length_eq_end_g_witness :
    (((runDijkstra 12 noStop scenarioD).get scenarioD_dijkstra_returns).engine.grid.store
        ⟨1, 1, 0⟩).parent = none ∧
      List.Chain' (fun a b =>
        (((runDijkstra 12 noStop scenarioD).get scenarioD_dijkstra_returns).engine.grid.store
          b).parent = some a)
        ([⟨1, 1, 0⟩, ⟨1, 0, 0⟩, ⟨1, 0, 1⟩, ⟨1, 0, 2⟩, ⟨1, 1, 2⟩] : List CellId) ∧
      ([⟨1, 1, 0⟩, ⟨1, 0, 0⟩, ⟨1, 0, 1⟩, ⟨1, 0, 2⟩, ⟨1, 1, 2⟩] : List CellId).getLast? =
        some ⟨1, 1, 2⟩ ∧
      parentWalk
        ((runDijkstra 12 noStop scenarioD).get scenarioD_dijkstra_returns).engine.grid.store
        12 ⟨1, 1, 2⟩ [] = some [⟨1, 0, 0⟩, ⟨1, 0, 1⟩, ⟨1, 0, 2⟩, ⟨1, 1, 2⟩] ∧
      (((runDijkstra 12 noStop scenarioD).get scenarioD_dijkstra_returns).engine.grid.store
        ⟨1, 1, 2⟩).g =
        .fin ([⟨1, 0, 0⟩, ⟨1, 0, 1⟩, ⟨1, 0, 2⟩, ⟨1, 1, 2⟩] : List CellId).length :=
  path_length_eq_end_g 12 scenarioD ⟨1, 1, 0⟩ ⟨1, 1, 2⟩
    ((runDijkstra 12 noStop scenarioD).get scenarioD_dijkstra_returns)
    [⟨1, 0, 0⟩, ⟨1, 0, 1⟩, ⟨1, 0, 2⟩, ⟨1, 1, 2⟩]
    (by decide!) (by decide!) (by decide!) (Or.inl (Option.some_get _).symm) (by decide!)

/-- The types of the cells after a successful uncancelled run of a search whose
estimate is consistent. -/
theorem runSearch_types {alg : Algorithm} {fuel : Nat} {e : Engine}
    {s t : CellId} {r : RunResult} {path : List CellId}
    (hc : Consistent alg e.grid t)
    (hs : e.grid.startCell = some s) (ht : e.grid.endCell = some t)
    (hsane : StartSane e.grid s)
    (hrun : runSearch alg fuel noStop e = some r) (hpath : r.path = some path) :
    (∀ c ∈ path, c ≠ t → (r.engine.grid.store c).type = .PATH) ∧
    (r.engine.grid.store s).type = (e.grid.store s).type ∧
    ((e.grid.store t).type = .END → (r.engine.grid.store t).type = .END) := by
  obtain ⟨stf, rest, n, hi, hto, hss, hg, _, _, hw, hgrid, _⟩ :=
    runSearch_found hc hs ht hrun hpath
  obtain ⟨_, _, _, _, hmem⟩ := parentWalk_path hi hsane (Or.inl hto) hg hw
  have hty := revealPath_type noStop (fun _ => rfl) path
    { stf with openSet := rest } hss
  rw [hgrid]
  refine ⟨?_, ?_, ?_⟩
  · intro c hc hct
    obtain ⟨hcs, hcl⟩ := hmem c hc
    have hcc : c ∈ stf.closedSet := hcl.resolve_left hct
    have hv : (stf.grid.store c).type = .VISITED := hi.visited c hcc hcs
    rw [hty c]
    simp [hc, hv]
  · have hsp : s ∉ path := fun h => (hmem s h).1 rfl
    rw [hty s]
    simp only [hsp, false_and, if_false]
    exact hi.untouched s (Or.inr rfl)
  · intro hte
    have htt : (stf.grid.store t).type = .END := by
      rw [hi.untouched t (Or.inl hi.end_open)]; exact hte
    rw [hty t]
    simp [htt]

/-- C8: after a successful uncancelled run of `runDijkstra` or `runAStar` on a grid
whose Start cell is typed START and whose End cell is typed END, every cell of the
found route other than Start and End is typed PATH, Start is still typed START and End
is still typed END (the Start reference naming a cell of the grid or an object without
parent before the run). -/
theorem route_cells_marked_path (fuel : Nat) (e : Engine) (s t : CellId)
    (r : RunResult) (path : List CellId)
    (hs : e.grid.startCell = some s) (ht : e.grid.endCell = some t)
    (hsane : StartSane e.grid s)
    (hst : (e.grid.store s).type = .START) (hte : (e.grid.store t).type = .END)
    (hrun : runDijkstra fuel noStop e = some r ∨ runAStar fuel noStop e = some r)
    (hpath : r.path = some path) :
    (∀ c ∈ s :: path, c ≠ s → c ≠ t → (r.engine.grid.store c).type = .PATH) ∧
      (r.engine.grid.store s).type = .START ∧ (r.engine.grid.store t).type = .END := by
  have key : (∀ c ∈ path, c ≠ t → (r.engine.grid.store c).type = .PATH) ∧
      (r.engine.grid.store s).type = (e.grid.store s).type ∧
      ((e.grid.store t).type = .END → (r.engine.grid.store t).type = .END) := by
    rcases hrun with hrun | hrun
    · exact runSearch_types (consistent_dijkstra e.grid t) hs ht hsane hrun hpath
    · exact runSearch_types (consistent_astar e.grid t) hs ht hsane hrun hpath
  obtain ⟨h1, h2, h3⟩ := key
  refine ⟨?_, by rw [h2, hst], h3 hte⟩
  intro c hc hcs hct
  rcases List.mem_cons.mp hc with rfl | hc
  · exact absurd rfl hcs
  · exact h1 c hc hct

theorem route_cells_marked_path_witness :
    (∀ c ∈ ([⟨1, 1, 0⟩, ⟨1, 0, 0⟩, ⟨1, 0, 1⟩, ⟨1, 0, 2⟩, ⟨1, 1, 2⟩] : List CellId),
        c ≠ ⟨1, 1, 0⟩ → c ≠ ⟨1, 1, 2⟩ →
        (((runAStar 12 noStop scenarioD).get scenarioD_astar_returns).engine.grid.store
          c).type = .PATH) ∧
      (((runAStar 12 noStop scenarioD).get scenarioD_astar_returns).engine.grid.store
        ⟨1, 1, 0⟩).type = .START ∧
      (((runAStar 12 noStop scenarioD).get scenarioD_astar_returns).engine.grid.store
        ⟨1, 1, 2⟩).type = .END :=
  route_cells_marked_path 12 scenarioD ⟨1, 1, 0⟩ ⟨1, 1, 2⟩
    ((runAStar 12 noStop scenarioD).get scenarioD_astar_returns)
    [⟨1, 0, 0⟩, ⟨1, 0, 1⟩, ⟨1, 0, 2⟩, ⟨1, 1, 2⟩]
    (by decide!) (by decide!) (by decide!) (by decide!) (by decide!)
    (Or.inr (Option.some_get _).symm) (by decide!)

/-- C9: with Start or End unset both procedures return `null` at once: no callback
is invoked and the engine, its grid included, is left exactly as it was. -/
theorem run_missing_endpoints (fuel : Nat) (stops : Nat → Bool) (e : Engine)
    (h : e.grid.startCell = none ∨ e.grid.endCell = none) :
    runDijkstra fuel stops e = some { path := none, engine := e, events := [] } ∧
    runAStar fuel stops e = some { path := none, engine := e, events := [] } :=
  ⟨runSearch_unset _ fuel stops e h, runSearch_unset _ fuel stops e h⟩

theorem run_missing_endpoints_witness :
    runDijkstra 0 noStop scenarioUnset =
        some { path := none, engine := scenarioUnset, events := [] } ∧
    runAStar 0 noStop scenarioUnset =
        some { path := none, engine := scenarioUnset, events := [] } :=
  run_missing_endpoints 0 noStop scenarioUnset (Or.inl rfl)

/-! ### Closed cells are never written again -/

theorem searchStates_inv {alg : Algorithm} {g0 : Grid} {s t : CellId} (stops : Nat → Bool)
    (hc : Consistent alg g0 t) :
    ∀ (n : Nat) (st a : Search), Inv alg g0 s t (fun _ _ => True) st →
      searchStates alg stops s t n st = some a → Inv alg g0 s t (fun _ _ => True) a := by
  intro n
  induction n with
  | zero =>
    intro st a h ha
    simp only [searchStates, Option.some.injEq] at ha
    exact ha ▸ h
  | succ n ih =>
    intro st a h ha
    unfold searchStates at ha
    cases hstep : searchStep alg stops s t st with
    | next st1 => rw [hstep] at ha; exact ih st1 a (inv_step h hc hstep) ha
    | found st1 => rw [hstep] at ha; cases ha
    | exhausted st1 => rw [hstep] at ha; cases ha

theorem searchStates_closed_stable {alg : Algorithm} {s t : CellId} (stops : Nat → Bool) :
    ∀ (m : Nat) (a b : Search), searchStates alg stops s t m a = some b →
      ∀ c ∈ a.closedSet, c ∈ b.closedSet ∧ (b.grid.store c).g = (a.grid.store c).g ∧
        (b.grid.store c).parent = (a.grid.store c).parent := by
  intro m
  induction m with
  | zero =>
    intro a b hb c hc
    simp only [searchStates, Option.some.injEq] at hb
    subst hb
    exact ⟨hc, rfl, rfl⟩
  | succ m ih =>
    intro a b hb c hc
    unfold searchStates at hb
    cases hstep : searchStep alg stops s t a with
    | next st1 =>
      rw [hstep] at hb
      obtain ⟨⟨u, _, hcl⟩, hstable⟩ := searchStep_next_closed hstep
      have hc1 : c ∈ st1.closedSet := by rw [hcl]; exact List.mem_cons_of_mem _ hc
      obtain ⟨h1, h2, h3⟩ := ih st1 b hb c hc1
      exact ⟨h1, h2.trans (hstable c hc).1, h3.trans (hstable c hc).2⟩
    | found st1 => rw [hstep] at hb; cases hb
    | exhausted st1 => rw [hstep] at hb; cases hb

/-- The state in which the loop ends keeps the closed cells of every earlier state. -/
theorem searchLoop_closed_stable {alg : Algorithm} {s t : CellId} (stops : Nat → Bool) :
    ∀ (fuel : Nat) (a : Search) (res : StepResult),
      searchLoop alg stops s t fuel a = some res →
      ∀ stf, (res = .found stf ∨ res = .exhausted stf) →
      ∀ c ∈ a.closedSet, (stf.grid.store c).g = (a.grid.store c).g ∧
        (stf.grid.store c).parent = (a.grid.store c).parent := by
  intro fuel
  induction fuel with
  | zero => intro a res h; cases h
  | succ n ih =>
    intro a res h stf hres c hc
    unfold searchLoop at h
    cases hstep : searchStep alg stops s t a with
    | next st1 =>
      rw [hstep] at h
      obtain ⟨⟨u, _, hcl⟩, hstable⟩ := searchStep_next_closed hstep
      have hc1 : c ∈ st1.closedSet := by rw [hcl]; exact List.mem_cons_of_mem _ hc
      obtain ⟨h2, h3⟩ := ih st1 res h stf hres c hc1
      exact ⟨h2.trans (hstable c hc).1, h3.trans (hstable c hc).2⟩
    | found st1 =>
      rw [hstep] at h
      injection h with h
      obtain ⟨rest, _, _, rfl⟩ := searchStep_found hstep
      rcases hres with hres | hres
      · rw [← h] at hres
        injection hres with hres
        subst hres
        exact ⟨rfl, rfl⟩
      · rw [← h] at hres; cases hres
    | exhausted st1 =>
      rw [hstep] at h
      injection h with h
      obtain ⟨rfl, _⟩ := searchStep_exhausted hstep
      rcases hres with hres | hres
      · rw [← h] at hres; cases hres
      · rw [← h] at hres
        injection hres with hres
        subst hres
        exact ⟨rfl, rfl⟩

theorem searchLoop_after_states {alg : Algorithm} {s t : CellId} (stops : Nat → Bool) :
    ∀ (n : Nat) (st a : Search) (fuel : Nat) (res : StepResult),
      searchStates alg stops s t n st = some a →
      searchLoop alg stops s t fuel st = some res →
      ∃ fuel1, searchLoop alg stops s t fuel1 a = some res := by
  intro n
  induction n with
  | zero =>
    intro st a fuel res ha hl
    simp only [searchStates, Option.some.injEq] at ha
    subst ha
    exact ⟨fuel, hl⟩
  | succ n ih =>
    intro st a fuel res ha hl
    unfold searchStates at ha
    cases hstep : searchStep alg stops s t st with
    | next st1 =>
      rw [hstep] at ha
      cases fuel with
      | zero => cases hl
      | succ f =>
        unfold searchLoop at hl
        rw [hstep] at hl
        exact ih st1 a f res ha hl
    | found st1 => rw [hstep] at ha; cases ha
    | exhausted st1 => rw [hstep] at ha; cases ha

theorem scenarioA_state2 :
    (searchStates .dijkstra noStop ⟨1, 0, 0⟩ ⟨1, 4, 4⟩ 2
      (initSearch .dijkstra scenarioA ⟨1, 0, 0⟩ ⟨1, 4, 4⟩)).isSome = true := by
  decide!

theorem scenarioA_state5 :
    (searchStates .dijkstra noStop ⟨1, 0, 0⟩ ⟨1, 4, 4⟩ 3
      ((searchStates .dijkstra noStop ⟨1, 0, 0⟩ ⟨1, 4, 4⟩ 2
        (initSearch .dijkstra scenarioA ⟨1, 0, 0⟩ ⟨1, 4, 4⟩)).get scenarioA_state2)).isSome =
      true := by
  decide!

/-- C10: in a run of `runDijkstra` or `runAStar`, cancelled or not, a cell that is in
the closed set at some evaluation of the loop keeps its `g` and its parent at every
later evaluation and in the grid the run leaves behind, the closed set never receives
a cell twice, and no single relaxation writes to a closed cell. -/
theorem closed_cells_stable (alg : Algorithm) (stops : Nat → Bool) (e : Engine)
    (s t : CellId) (n m : Nat) (a b : Search)
    (halg : alg = .dijkstra ∨ alg = .astar calculateHeuristic)
    (hs : e.grid.startCell = some s) (ht : e.grid.endCell = some t)
    (ha : searchStates alg stops s t n (initSearch alg e s t) = some a)
    (hb : searchStates alg stops s t m a = some b) :
    (∀ c ∈ a.closedSet, c ∈ b.closedSet ∧ (b.grid.store c).g = (a.grid.store c).g ∧
        (b.grid.store c).parent = (a.grid.store c).parent) ∧
      b.closedSet.Nodup ∧
      (∀ fuel r, runSearch alg fuel stops e = some r →
        ∀ c ∈ a.closedSet, (r.engine.grid.store c).g = (a.grid.store c).g ∧
          (r.engine.grid.store c).parent = (a.grid.store c).parent) ∧
      ∀ (st : Search) (current neighbor c : CellId), c ∈ st.closedSet →
        (relaxNeighbor alg t current st neighbor).grid.store c = st.grid.store c := by
  have hc : Consistent alg e.grid t := by
    rcases halg with rfl | rfl
    · exact consistent_dijkstra e.grid t
    · exact consistent_astar e.grid t
  have hia := searchStates_inv stops hc n _ a (inv_initSearch alg e s t) ha
  have hib := searchStates_inv stops hc m a b hia hb
  refine ⟨searchStates_closed_stable stops m a b hb, hib.closed_nodup, ?_, ?_⟩
  swap
  · intro st current neighbor c hcc
    apply relaxNeighbor_store_of_ne
    by_cases hcn : c = neighbor
    · exact Or.inr (hcn ▸ hcc)
    · exact Or.inl hcn
  intro fuel r hrun c hcc
  rcases runSearch_cases hs ht hrun with ⟨stf, hl, rfl⟩ | ⟨st1, path, hl, _, rfl⟩
  · obtain ⟨fuel1, hl1⟩ := searchLoop_after_states stops n _ a fuel _ ha hl
    exact searchLoop_closed_stable stops fuel1 a _ hl1 stf (Or.inr rfl) c hcc
  · obtain ⟨fuel1, hl1⟩ := searchLoop_after_states stops n _ a fuel _ ha hl
    have := searchLoop_closed_stable stops fuel1 a _ hl1 st1 (Or.inl rfl) c hcc
    have hf := (revealPath_frame stops path st1).2.2.2.2.2 c
    exact ⟨hf.1.trans this.1, hf.2.trans this.2⟩

theorem closed_cells_stable_witness :
    (∀ c ∈ ((searchStates .dijkstra noStop ⟨1, 0, 0⟩ ⟨1, 4, 4⟩ 2
          (initSearch .dijkstra scenarioA ⟨1, 0, 0⟩ ⟨1, 4, 4⟩)).get scenarioA_state2).closedSet,
        (((searchStates .dijkstra noStop ⟨1, 0, 0⟩ ⟨1, 4, 4⟩ 3
          ((searchStates .dijkstra noStop ⟨1, 0, 0⟩ ⟨1, 4, 4⟩ 2
            (initSearch .dijkstra scenarioA ⟨1, 0, 0⟩ ⟨1, 4, 4⟩)).get scenarioA_state2)).get
          scenarioA_state5).grid.store c).g =
          (((searchStates .dijkstra noStop ⟨1, 0, 0⟩ ⟨1, 4, 4⟩ 2
            (initSearch .dijkstra scenarioA ⟨1, 0, 0⟩ ⟨1, 4, 4⟩)).get
            scenarioA_state2).grid.store c).g) ∧
      ((searchStates .dijkstra noStop ⟨1, 0, 0⟩ ⟨1, 4, 4⟩ 3
          ((searchStates .dijkstra noStop ⟨1, 0, 0⟩ ⟨1, 4, 4⟩ 2
            (initSearch .dijkstra scenarioA ⟨1, 0, 0⟩ ⟨1, 4, 4⟩)).get scenarioA_state2)).get
          scenarioA_state5).closedSet.Nodup :=
  have h := closed_cells_stable .dijkstra noStop scenarioA ⟨1, 0, 0⟩ ⟨1, 4, 4⟩ 2 3 _ _
    (Or.inl rfl) (by decide!) (by decide!) (Option.some_get scenarioA_state2).symm
    (Option.some_get scenarioA_state5).symm
  ⟨fun c hc => (h.1 c hc).2.1, h.2.1⟩

/-! ## The start reference in reachable grids

The hypothesis `StartSane` of the results above holds in every grid that the
constructor, the methods of `Grid` and the two search procedures can produce. -/

theorem Grid.StartParentless.startSane {g : Grid} (h : g.StartParentless) {s : CellId}
    (hs : g.startCell = some s) : StartSane g s :=
  Or.inr (h s hs)

theorem Grid.startParentless_new (rows cols : Nat) : (Grid.new rows cols).StartParentless := by
  intro s hs
  cases hs

theorem Grid.resetPath_parent (g : Grid) (x : CellId) :
    ((g.resetPath).store x).parent = if g.isLive x then none else (g.store x).parent := by
  simp only [Grid.resetPath, Grid.forEachCell_store]
  split_ifs <;> rfl

theorem Grid.startParentless_resetPath {g : Grid} (h : g.StartParentless) :
    g.resetPath.StartParentless := by
  intro s hs
  rw [Grid.resetPath_parent]
  split_ifs
  · rfl
  · exact h s hs

theorem Grid.startParentless_modify_type {g : Grid} (h : g.StartParentless) (c : CellId)
    (ty : CellType) : (g.modify c (fun x => { x with type := ty })).StartParentless := by
  intro s hs
  rw [Grid.modify_store]
  split_ifs with hsc
  · subst hsc; exact h s hs
  · exact h s hs

theorem Grid.startParentless_toggleCellObstacle {g : Grid} (h : g.StartParentless)
    (row col : Int) : (g.toggleCellObstacle row col).1.StartParentless := by
  unfold Grid.toggleCellObstacle
  cases g.getCell row col with
  | none => exact h
  | some cell =>
    simp only
    split_ifs
    · exact Grid.startParentless_modify_type h cell _
    · exact Grid.startParentless_modify_type h cell _
    · exact h

theorem Grid.startParentless_resize {g : Grid} (h : g.StartParentless) (rows cols : Nat) :
    (g.resize rows cols).StartParentless := by
  intro s hs
  simp only [Grid.resize, Grid.initCells]
  split_ifs
  · rfl
  · exact h s hs

theorem Grid.startParentless_setCellType {g : Grid} (h : g.StartParentless)
    (row col : Int) (ty : CellType) : (g.setCellType row col ty).1.StartParentless := by
  unfold Grid.setCellType
  cases hgc : g.getCell row col with
  | none => exact h
  | some cell =>
    have hlive : g.isLive cell = true := by
      rw [Grid.getCell_eq_some] at hgc
      rw [Grid.isLive_iff]
      obtain ⟨h1, h2, h3, h4, h5, h6, h7⟩ := hgc
      exact ⟨h5, by omega, by omega⟩
    simp only
    split_ifs with h1 h2
    · -- the cell becomes Start
      intro s hs
      simp only [Option.some.injEq] at hs
      subst hs
      simp only [Grid.modify_store_self]
      rw [Grid.resetPath_parent]
      have : ∀ g1 : Grid, g1.rows = g.rows → g1.cols = g.cols → g1.gen = g.gen →
          g1.isLive cell = true := fun g1 a b c => by
        rw [Grid.isLive_congr a b c]; exact hlive
      rw [if_pos]
      cases g.startCell with
      | none => exact hlive
      | some old =>
        simp only
        split_ifs
        · exact this _ rfl rfl rfl
        · exact hlive
    · -- the cell becomes End
      have key : ∀ g1 : Grid, g1.StartParentless → g1.startCell = g.startCell →
          ({ (g1.resetPath.modify cell (fun c => { c with type := ty })) with
              endCell := some cell } : Grid).StartParentless := by
        intro g1 hg1 _ s hs
        exact Grid.startParentless_modify_type (Grid.startParentless_resetPath hg1) cell ty s hs
      cases g.endCell with
      | none => exact key g h rfl
      | some old =>
        simp only
        split_ifs
        · exact key _ (Grid.startParentless_modify_type h old _) rfl
        · exact key g h rfl
    · exact Grid.startParentless_modify_type h cell ty

/-- A run of a search with a consistent estimate keeps the start reference and leaves
the start cell without parent. -/
theorem runSearch_startParentless {alg : Algorithm} {fuel : Nat} {stops : Nat → Bool}
    {e : Engine} {r : RunResult}
    (hc : ∀ t, e.grid.endCell = some t → Consistent alg e.grid t)
    (h : e.grid.StartParentless) (hrun : runSearch alg fuel stops e = some r) :
    r.engine.grid.StartParentless := by
  cases hs : e.grid.startCell with
  | none =>
    rw [runSearch_unset alg fuel stops e (Or.inl hs)] at hrun
    cases hrun
    exact h
  | some s =>
    cases ht : e.grid.endCell with
    | none =>
      rw [runSearch_unset alg fuel stops e (Or.inr ht)] at hrun
      cases hrun
      exact h
    | some t =>
      have hsane : StartSane e.grid s := h.startSane hs
      cases hp : r.path with
      | none =>
        obtain ⟨stf, hi, _, _, rfl⟩ := runSearch_null (hc t ht) hs ht hrun hp
        intro s' hs'
        have : stf.grid.startCell = some s' := hs'
        rw [hi.start_eq, hs] at this
        cases this
        exact hi.start_parent hsane
      | some path =>
        obtain ⟨stf, rest, n, hi, _, _, _, _, _, _, hgrid, _⟩ :=
          runSearch_found (hc t ht) hs ht hrun hp
        intro s' hs'
        rw [hgrid] at hs' ⊢
        rw [(revealPath_frame stops path _).2.2.2.1] at hs'
        have : stf.grid.startCell = some s' := hs'
        rw [hi.start_eq, hs] at this
        cases this
        rw [((revealPath_frame stops path _).2.2.2.2.2 s).2]
        exact hi.start_parent hsane

/-! ## Editing the grid: types and references -/

theorem Grid.getCell_isLive {g : Grid} {row col : Int} {cell : CellId}
    (h : g.getCell row col = some cell) : g.isLive cell = true := by
  rw [Grid.getCell_eq_some] at h
  rw [Grid.isLive_iff]
  obtain ⟨h1, h2, h3, h4, h5, h6, h7⟩ := h
  exact ⟨h5, by omega, by omega⟩

theorem Grid.getCell_eq_none (g : Grid) (row col : Int) :
    g.getCell row col = none ↔ ¬ (0 ≤ row ∧ row < g.rows ∧ 0 ≤ col ∧ col < g.cols) := by
  unfold Grid.getCell
  split_ifs with h <;> simp [h]

theorem Cell.resetPathCell_type_eq_START (c : Cell) :
    c.resetPath.type = .START ↔ c.type = .START := by
  cases c with
  | mk type f g h parent => cases type <;> simp [Cell.resetPath]

theorem Cell.resetPathCell_type_eq_END (c : Cell) :
    c.resetPath.type = .END ↔ c.type = .END := by
  cases c with
  | mk type f g h parent => cases type <;> simp [Cell.resetPath]

theorem Cell.resetPathCell_type_eq_OBSTACLE (c : Cell) :
    c.resetPath.type = .OBSTACLE ↔ c.type = .OBSTACLE := by
  cases c with
  | mk type f g h parent => cases type <;> simp [Cell.resetPath]

theorem Grid.resetPath_store (g : Grid) (x : CellId) :
    g.resetPath.store x = if g.isLive x then (g.store x).resetPath else g.store x := rfl

@[simp] theorem Grid.resetPath_rows (g : Grid) : g.resetPath.rows = g.rows := rfl
@[simp] theorem Grid.resetPath_cols (g : Grid) : g.resetPath.cols = g.cols := rfl
@[simp] theorem Grid.resetPath_gen (g : Grid) : g.resetPath.gen = g.gen := rfl
@[simp] theorem Grid.resetPath_startCell (g : Grid) : g.resetPath.startCell = g.startCell := rfl
@[simp] theorem Grid.resetPath_endCell (g : Grid) : g.resetPath.endCell = g.endCell := rfl

theorem Grid.resetPath_type_eq_START (g : Grid) (x : CellId) :
    (g.resetPath.store x).type = .START ↔ (g.store x).type = .START := by
  rw [Grid.resetPath_store]
  split_ifs
  · exact Cell.resetPathCell_type_eq_START _
  · rfl

theorem Grid.resetPath_type_eq_END (g : Grid) (x : CellId) :
    (g.resetPath.store x).type = .END ↔ (g.store x).type = .END := by
  rw [Grid.resetPath_store]
  split_ifs
  · exact Cell.resetPathCell_type_eq_END _
  · rfl

theorem Grid.resetPath_type_eq_OBSTACLE (g : Grid) (x : CellId) :
    (g.resetPath.store x).type = .OBSTACLE ↔ (g.store x).type = .OBSTACLE := by
  rw [Grid.resetPath_store]
  split_ifs
  · exact Cell.resetPathCell_type_eq_OBSTACLE _
  · rfl

/-- The grid that `setCellType(row, col, START)` leaves (`js/grid.js`). -/
theorem Grid.setCellType_START {g : Grid} {row col : Int} {cell : CellId}
    (h : g.getCell row col = some cell) :
    g.setCellType row col .START =
      ({ ((match g.startCell with
            | some old =>
              if old ≠ cell then g.modify old (fun c => { c with type := .EMPTY }) else g
            | none => g).resetPath.modify cell (fun c => { c with type := .START })) with
          startCell := some cell, bunnyPosition := some (cell.row, cell.col) }, true) := by
  unfold Grid.setCellType
  rw [h]
  rfl

/-- The grid that `setCellType(row, col, END)` leaves (`js/grid.js`). -/
theorem Grid.setCellType_END {g : Grid} {row col : Int} {cell : CellId}
    (h : g.getCell row col = some cell) :
    g.setCellType row col .END =
      ({ ((match g.endCell with
            | some old =>
              if old ≠ cell then g.modify old (fun c => { c with type := .EMPTY }) else g
            | none => g).resetPath.modify cell (fun c => { c with type := .END })) with
          endCell := some cell }, true) := by
  unfold Grid.setCellType
  rw [h]
  rfl

/-- The grid that `setCellType` leaves for a type other than START and END. -/
theorem Grid.setCellType_other {g : Grid} {row col : Int} {cell : CellId} {type : CellType}
    (h : g.getCell row col = some cell) (h1 : type ≠ .START) (h2 : type ≠ .END) :
    g.setCellType row col type = (g.modify cell (fun c => { c with type := type }), true) := by
  simp [Grid.setCellType, h, h1, h2]

theorem Grid.setCellType_none {g : Grid} {row col : Int} (type : CellType)
    (h : g.getCell row col = none) : g.setCellType row col type = (g, false) := by
  simp [Grid.setCellType, h]

/-- The type of a cell after `setCellType(row, col, START)` on the cell `cell`. -/
theorem Grid.setCellType_START_type {g : Grid} {row col : Int} {cell : CellId}
    (h : g.getCell row col = some cell) (x : CellId) (ty : CellType)
    (hty : ty = .START ∨ ty = .END ∨ ty = .OBSTACLE) :
    (((g.setCellType row col .START).1.store x).type = ty ↔
      if x = cell then ty = .START
      else (g.store x).type = ty ∧ ¬ (g.startCell = some x)) := by
  rw [Grid.setCellType_START h]
  show ((((match g.startCell with
            | some old =>
              if old ≠ cell then g.modify old (fun c => { c with type := .EMPTY }) else g
            | none => g).resetPath.modify cell (fun c => { c with type := .START })).store x).type
            = ty ↔ _)
  rw [Grid.modify_store]
  by_cases hx : x = cell
  · simp only [hx, if_true]
    exact eq_comm
  · simp only [hx, if_false]
    have hr : ∀ g1 : Grid, ((g1.resetPath.store x).type = ty ↔ (g1.store x).type = ty) := by
      intro g1
      rcases hty with rfl | rfl | rfl
      · exact Grid.resetPath_type_eq_START g1 x
      · exact Grid.resetPath_type_eq_END g1 x
      · exact Grid.resetPath_type_eq_OBSTACLE g1 x
    rw [hr]
    cases hs : g.startCell with
    | none => simp
    | some old =>
      simp only
      by_cases ho : old = cell
      · simp only [ho, ne_eq, not_true_eq_false, if_false]
        have : ¬ (cell = x) := fun e => hx e.symm
        simp [this]
      · simp only [ne_eq, ho, not_false_eq_true, if_true]
        rw [Grid.modify_store]
        by_cases hxo : x = old
        · subst hxo
          simp only [if_true, Option.some.injEq, not_true_eq_false, and_false, iff_false]
          rcases hty with rfl | rfl | rfl <;> simp
        · have : ¬ (old = x) := fun e => hxo e.symm
          simp [hxo, this]

/-- The type of a cell after `setCellType(row, col, END)` on the cell `cell`. -/
theorem Grid.setCellType_END_type {g : Grid} {row col : Int} {cell : CellId}
    (h : g.getCell row col = some cell) (x : CellId) (ty : CellType)
    (hty : ty = .START ∨ ty = .END ∨ ty = .OBSTACLE) :
    (((g.setCellType row col .END).1.store x).type = ty ↔
      if x = cell then ty = .END
      else (g.store x).type = ty ∧ ¬ (g.endCell = some x)) := by
  rw [Grid.setCellType_END h]
  show ((((match g.endCell with
            | some old =>
              if old ≠ cell then g.modify old (fun c => { c with type := .EMPTY }) else g
            | none => g).resetPath.modify cell (fun c => { c with type := .END })).store x).type
            = ty ↔ _)
  rw [Grid.modify_store]
  by_cases hx : x = cell
  · simp only [hx, if_true]
    exact eq_comm
  · simp only [hx, if_false]
    have hr : ∀ g1 : Grid, ((g1.resetPath.store x).type = ty ↔ (g1.store x).type = ty) := by
      intro g1
      rcases hty with rfl | rfl | rfl
      · exact Grid.resetPath_type_eq_START g1 x
      · exact Grid.resetPath_type_eq_END g1 x
      · exact Grid.resetPath_type_eq_OBSTACLE g1 x
    rw [hr]
    cases hs : g.endCell with
    | none => simp
    | some old =>
      simp only
      by_cases ho : old = cell
      · simp only [ho, ne_eq, not_true_eq_false, if_false]
        have : ¬ (cell = x) := fun e => hx e.symm
        simp [this]
      · simp only [ne_eq, ho, not_false_eq_true, if_true]
        rw [Grid.modify_store]
        by_cases hxo : x = old
        · subst hxo
          simp only [if_true, Option.some.injEq, not_true_eq_false, and_false, iff_false]
          rcases hty with rfl | rfl | rfl <;> simp
        · have : ¬ (old = x) := fun e => hxo e.symm
          simp [hxo, this]

/-- The type of a cell after `setCellType` with a type other than START and END. -/
theorem Grid.setCellType_other_type {g : Grid} {row col : Int} {cell : CellId}
    {type : CellType} (h : g.getCell row col = some cell) (h1 : type ≠ .START)
    (h2 : type ≠ .END) (x : CellId) :
    ((g.setCellType row col type).1.store x).type =
      if x = cell then type else (g.store x).type := by
  rw [Grid.setCellType_other h h1 h2]
  simp only [Grid.modify_store]
  split_ifs <;> rfl

theorem Grid.setCellType_START_startCell {g : Grid} {row col : Int} {cell : CellId}
    (h : g.getCell row col = some cell) :
    (g.setCellType row col .START).1.startCell = some cell := by
  rw [Grid.setCellType_START h]

theorem Grid.setCellType_START_endCell {g : Grid} {row col : Int} {cell : CellId}
    (h : g.getCell row col = some cell) :
    (g.setCellType row col .START).1.endCell = g.endCell := by
  rw [Grid.setCellType_START h]
  show (Grid.resetPath _).endCell = _
  rw [Grid.resetPath_endCell]
  cases g.startCell with
  | none => rfl
  | some old =>
    simp only
    split_ifs <;> rfl

theorem Grid.setCellType_END_endCell {g : Grid} {row col : Int} {cell : CellId}
    (h : g.getCell row col = some cell) :
    (g.setCellType row col .END).1.endCell = some cell := by
  rw [Grid.setCellType_END h]

theorem Grid.setCellType_END_startCell {g : Grid} {row col : Int} {cell : CellId}
    (h : g.getCell row col = some cell) :
    (g.setCellType row col .END).1.startCell = g.startCell := by
  rw [Grid.setCellType_END h]
  show (Grid.resetPath _).startCell = _
  rw [Grid.resetPath_startCell]
  cases g.endCell with
  | none => rfl
  | some old =>
    simp only
    split_ifs <;> rfl

/-! ### The grid class of `assets/js/grid.js` -/

theorem assets_setCellType_none {g : Grid} {row col : Int} (type : CellType)
    (h : g.getCell row col = none) : Assets.setCellType g row col type = (g, false) := by
  simp [Assets.setCellType, h]

theorem assets_setCellType_START {g : Grid} {row col : Int} {cell : CellId}
    (h : g.getCell row col = some cell) :
    Assets.setCellType g row col .START =
      (Grid.modify { (match g.startCell with
            | some old => g.modify old (fun c => { c with type := .EMPTY })
            | none => g) with startCell := some cell } cell
          (fun c => { c with type := .START }), true) := by
  unfold Assets.setCellType
  rw [h]
  rfl

theorem assets_setCellType_END {g : Grid} {row col : Int} {cell : CellId}
    (h : g.getCell row col = some cell) :
    Assets.setCellType g row col .END =
      (Grid.modify { (match g.endCell with
            | some old => g.modify old (fun c => { c with type := .EMPTY })
            | none => g) with endCell := some cell } cell
          (fun c => { c with type := .END }), true) := by
  unfold Assets.setCellType
  rw [h]
  rfl

theorem assets_setCellType_other {g : Grid} {row col : Int} {cell : CellId} {type : CellType}
    (h : g.getCell row col = some cell) (h1 : type ≠ .START) (h2 : type ≠ .END) :
    Assets.setCellType g row col type =
      (g.modify cell (fun c => { c with type := type }), true) := by
  simp [Assets.setCellType, h, h1, h2]

theorem assets_setCellType_START_type {g : Grid} {row col : Int} {cell : CellId}
    (h : g.getCell row col = some cell) (x : CellId) (ty : CellType) (hty : ty ≠ .EMPTY) :
    (((Assets.setCellType g row col .START).1.store x).type = ty ↔
      if x = cell then ty = .START
      else (g.store x).type = ty ∧ ¬ (g.startCell = some x)) := by
  rw [assets_setCellType_START h]
  simp only [Grid.modify_store]
  by_cases hx : x = cell
  · simp only [hx, if_true]
    exact eq_comm
  · simp only [hx, if_false]
    cases hs : g.startCell with
    | none => simp
    | some old =>
      simp only [Grid.modify_store]
      by_cases hxo : x = old
      · subst hxo
        simp only [if_true, not_true_eq_false, and_false, iff_false]
        exact fun e => hty e.symm
      · have : ¬ (old = x) := fun e => hxo e.symm
        simp [hxo, this]

theorem assets_setCellType_END_type {g : Grid} {row col : Int} {cell : CellId}
    (h : g.getCell row col = some cell) (x : CellId) (ty : CellType) (hty : ty ≠ .EMPTY) :
    (((Assets.setCellType g row col .END).1.store x).type = ty ↔
      if x = cell then ty = .END
      else (g.store x).type = ty ∧ ¬ (g.endCell = some x)) := by
  rw [assets_setCellType_END h]
  simp only [Grid.modify_store]
  by_cases hx : x = cell
  · simp only [hx, if_true]
    exact eq_comm
  · simp only [hx, if_false]
    cases hs : g.endCell with
    | none => simp
    | some old =>
      simp only [Grid.modify_store]
      by_cases hxo : x = old
      · subst hxo
        simp only [if_true, not_true_eq_false, and_false, iff_false]
        exact fun e => hty e.symm
      · have : ¬ (old = x) := fun e => hxo e.symm
        simp [hxo, this]

theorem assets_setCellType_other_type {g : Grid} {row col : Int} {cell : CellId}
    {type : CellType} (h : g.getCell row col = some cell) (h1 : type ≠ .START)
    (h2 : type ≠ .END) (x : CellId) :
    ((Assets.setCellType g row col type).1.store x).type =
      if x = cell then type else (g.store x).type := by
  rw [assets_setCellType_other h h1 h2]
  simp only [Grid.modify_store]
  split_ifs <;> rfl

theorem assets_setCellType_START_refs {g : Grid} {row col : Int} {cell : CellId}
    (h : g.getCell row col = some cell) :
    (Assets.setCellType g row col .START).1.startCell = some cell ∧
      (Assets.setCellType g row col .START).1.endCell = g.endCell := by
  rw [assets_setCellType_START h]
  cases g.startCell <;> exact ⟨rfl, rfl⟩

theorem assets_setCellType_END_refs {g : Grid} {row col : Int} {cell : CellId}
    (h : g.getCell row col = some cell) :
    (Assets.setCellType g row col .END).1.startCell = g.startCell ∧
      (Assets.setCellType g row col .END).1.endCell = some cell := by
  rw [assets_setCellType_END h]
  cases g.endCell <;> exact ⟨rfl, rfl⟩

/-! ## At most one Start and one End -/

theorem Grid.marksReferenced_new (rows cols : Nat) : (Grid.new rows cols).MarksReferenced := by
  constructor <;>
  · intro c hc
    simp only [Grid.new, Grid.initCells] at hc
    split_ifs at hc <;> cases hc

theorem Grid.marksReferenced_setCellType {g : Grid} (h : g.MarksReferenced)
    (row col : Int) (type : CellType) : (g.setCellType row col type).1.MarksReferenced := by
  cases hgc : g.getCell row col with
  | none => rw [Grid.setCellType_none type hgc]; exact h
  | some cell =>
    by_cases h1 : type = .START
    · subst h1
      constructor
      · intro c hc
        rw [Grid.setCellType_START_type hgc c _ (Or.inl rfl)] at hc
        rw [Grid.setCellType_START_startCell hgc]
        split_ifs at hc with hx
        · rw [hx]
        · exact absurd (h.1 c hc.1) hc.2
      · intro c hc
        rw [Grid.setCellType_START_type hgc c _ (Or.inr (Or.inl rfl))] at hc
        rw [Grid.setCellType_START_endCell hgc]
        split_ifs at hc with hx
        exact h.2 c hc.1
    · by_cases h2 : type = .END
      · subst h2
        constructor
        · intro c hc
          rw [Grid.setCellType_END_type hgc c _ (Or.inl rfl)] at hc
          rw [Grid.setCellType_END_startCell hgc]
          split_ifs at hc with hx
          exact h.1 c hc.1
        · intro c hc
          rw [Grid.setCellType_END_type hgc c _ (Or.inr (Or.inl rfl))] at hc
          rw [Grid.setCellType_END_endCell hgc]
          split_ifs at hc with hx
          · rw [hx]
          · exact absurd (h.2 c hc.1) hc.2
      · have hrefs : (g.setCellType row col type).1.startCell = g.startCell ∧
            (g.setCellType row col type).1.endCell = g.endCell := by
          rw [Grid.setCellType_other hgc h1 h2]
          exact ⟨rfl, rfl⟩
        constructor
        · intro c hc
          rw [Grid.setCellType_other_type hgc h1 h2] at hc
          rw [hrefs.1]
          split_ifs at hc with hx
          · exact absurd hc h1
          · exact h.1 c hc
        · intro c hc
          rw [Grid.setCellType_other_type hgc h1 h2] at hc
          rw [hrefs.2]
          split_ifs at hc with hx
          · exact absurd hc h2
          · exact h.2 c hc

theorem assets_marksReferenced_setCellType {g : Grid} (h : g.MarksReferenced)
    (row col : Int) (type : CellType) :
    (Assets.setCellType g row col type).1.MarksReferenced := by
  cases hgc : g.getCell row col with
  | none => rw [assets_setCellType_none type hgc]; exact h
  | some cell =>
    by_cases h1 : type = .START
    · subst h1
      constructor
      · intro c hc
        rw [assets_setCellType_START_type hgc c _ (by decide)] at hc
        rw [(assets_setCellType_START_refs hgc).1]
        split_ifs at hc with hx
        · rw [hx]
        · exact absurd (h.1 c hc.1) hc.2
      · intro c hc
        rw [assets_setCellType_START_type hgc c _ (by decide)] at hc
        rw [(assets_setCellType_START_refs hgc).2]
        split_ifs at hc with hx
        exact h.2 c hc.1
    · by_cases h2 : type = .END
      · subst h2
        constructor
        · intro c hc
          rw [assets_setCellType_END_type hgc c _ (by decide)] at hc
          rw [(assets_setCellType_END_refs hgc).1]
          split_ifs at hc with hx
          exact h.1 c hc.1
        · intro c hc
          rw [assets_setCellType_END_type hgc c _ (by decide)] at hc
          rw [(assets_setCellType_END_refs hgc).2]
          split_ifs at hc with hx
          · rw [hx]
          · exact absurd (h.2 c hc.1) hc.2
      · have hrefs : (Assets.setCellType g row col type).1.startCell = g.startCell ∧
            (Assets.setCellType g row col type).1.endCell = g.endCell := by
          rw [assets_setCellType_other hgc h1 h2]
          exact ⟨rfl, rfl⟩
        constructor
        · intro c hc
          rw [assets_setCellType_other_type hgc h1 h2] at hc
          rw [hrefs.1]
          split_ifs at hc with hx
          · exact absurd hc h1
          · exact h.1 c hc
        · intro c hc
          rw [assets_setCellType_other_type hgc h1 h2] at hc
          rw [hrefs.2]
          split_ifs at hc with hx
          · exact absurd hc h2
          · exact h.2 c hc

theorem Grid.marksReferenced_setCellTypes (calls : List (Int × Int × CellType)) :
    ∀ {g : Grid}, g.MarksReferenced → (g.setCellTypes calls).MarksReferenced := by
  induction calls with
  | nil => intro g h; exact h
  | cons call calls ih =>
    intro g h
    obtain ⟨row, col, type⟩ := call
    exact ih (Grid.marksReferenced_setCellType h row col type)

theorem assets_marksReferenced_setCellTypes (calls : List (Int × Int × CellType)) :
    ∀ {g : Grid}, g.MarksReferenced → (Assets.setCellTypes g calls).MarksReferenced := by
  induction calls with
  | nil => intro g h; exact h
  | cons call calls ih =>
    intro g h
    obtain ⟨row, col, type⟩ := call
    exact ih (assets_marksReferenced_setCellType h row col type)

theorem Grid.MarksReferenced.unique {g : Grid} (h : g.MarksReferenced) :
    (∀ a b, (g.store a).type = .START → (g.store b).type = .START → a = b) ∧
      (∀ a b, (g.store a).type = .END → (g.store b).type = .END → a = b) := by
  constructor
  · intro a b ha hb
    have := (h.1 a ha).symm.trans (h.1 b hb)
    exact Option.some.inj this
  · intro a b ha hb
    have := (h.2 a ha).symm.trans (h.2 b hb)
    exact Option.some.inj this

/-- C11: starting from a freshly constructed grid, after any finite sequence of
`setCellType` calls with arbitrary coordinates and types, any two cells typed START are the
same cell and any two cells typed END are the same cell; this holds for the `setCellType`
of `js/grid.js` and for the one of `assets/js/grid.js`, and for all cell objects, those of
the grid included. -/
theorem setCellType_one_start_one_end (rows cols : Nat)
    (calls : List (Int × Int × CellType)) :
    ((∀ a b, (((Grid.new rows cols).setCellTypes calls).store a).type = .START →
        (((Grid.new rows cols).setCellTypes calls).store b).type = .START → a = b) ∧
      (∀ a b, (((Grid.new rows cols).setCellTypes calls).store a).type = .END →
        (((Grid.new rows cols).setCellTypes calls).store b).type = .END → a = b)) ∧
    ((∀ a b, ((Assets.setCellTypes (Assets.new rows cols) calls).store a).type = .START →
        ((Assets.setCellTypes (Assets.new rows cols) calls).store b).type = .START → a = b) ∧
      (∀ a b, ((Assets.setCellTypes (Assets.new rows cols) calls).store a).type = .END →
        ((Assets.setCellTypes (Assets.new rows cols) calls).store b).type = .END → a = b)) :=
  ⟨(Grid.marksReferenced_setCellTypes calls (Grid.marksReferenced_new rows cols)).unique,
   (assets_marksReferenced_setCellTypes calls (Grid.marksReferenced_new rows cols)).unique⟩

/-! ## Start and End references under edits -/

theorem Grid.toggleCellObstacle_none {g : Grid} {row col : Int}
    (h : g.getCell row col = none) : g.toggleCellObstacle row col = (g, false) := by
  simp [Grid.toggleCellObstacle, h]

theorem Grid.toggleCellObstacle_some {g : Grid} {row col : Int} {cell : CellId}
    (h : g.getCell row col = some cell) :
    g.toggleCellObstacle row col =
      (g.modify cell (fun c => { c with type :=
        if c.type = .EMPTY then .OBSTACLE else if c.type = .OBSTACLE then .EMPTY
        else c.type }), true) := by
  unfold Grid.toggleCellObstacle
  rw [h]
  simp only
  have hext : ∀ g1 g2 : Grid, g1.rows = g2.rows → g1.cols = g2.cols → g1.gen = g2.gen →
      g1.store = g2.store → g1.startCell = g2.startCell → g1.endCell = g2.endCell →
      g1.pathCells = g2.pathCells → g1.bunnyPosition = g2.bunnyPosition → g1 = g2 := by
    intro g1 g2 h1 h2 h3 h4 h5 h6 h7 h8
    cases g1; cases g2; simp only [Grid.mk.injEq]; simp_all
  split_ifs with h1 h2
  · congr 1
    apply hext <;> try rfl
    funext x
    simp only [Grid.modify_store]
    split_ifs <;> simp_all
  · congr 1
    apply hext <;> try rfl
    funext x
    simp only [Grid.modify_store]
    split_ifs <;> simp_all
  · congr 1
    apply hext <;> try rfl
    funext x
    simp only [Grid.modify_store]
    split_ifs with hx
    · subst hx; simp [h1, h2]
    · rfl

theorem Grid.toggleCellObstacle_refs (g : Grid) (row col : Int) :
    (g.toggleCellObstacle row col).1.startCell = g.startCell ∧
      (g.toggleCellObstacle row col).1.endCell = g.endCell := by
  cases h : g.getCell row col with
  | none => rw [Grid.toggleCellObstacle_none h]; exact ⟨rfl, rfl⟩
  | some cell => rw [Grid.toggleCellObstacle_some h]; exact ⟨rfl, rfl⟩

/-- The type of any cell after `toggleCellObstacle(row, col)`. -/
theorem Grid.toggleCellObstacle_type {g : Grid} {row col : Int} {cell : CellId}
    (h : g.getCell row col = some cell) (x : CellId) :
    ((g.toggleCellObstacle row col).1.store x).type =
      if x = cell then
        (if (g.store x).type = .EMPTY then .OBSTACLE
         else if (g.store x).type = .OBSTACLE then .EMPTY else (g.store x).type)
      else (g.store x).type := by
  rw [Grid.toggleCellObstacle_some h]
  simp only [Grid.modify_store]
  split_ifs with hx <;> simp_all

theorem Grid.refsTyped_apply {g : Grid} (h : g.RefsTyped) (op : GridOp)
    (hr : op.respects g = true) : (g.apply op).RefsTyped := by
  cases op with
  | resetPath =>
    constructor
    · intro c hc
      exact (Grid.resetPath_type_eq_START g c).mpr (h.1 c hc)
    · intro c hc
      exact (Grid.resetPath_type_eq_END g c).mpr (h.2 c hc)
  | toggleCellObstacle row col =>
    show (g.toggleCellObstacle row col).1.RefsTyped
    cases hgc : g.getCell row col with
    | none => rw [Grid.toggleCellObstacle_none hgc]; exact h
    | some cell =>
      constructor
      · intro c hc
        rw [(Grid.toggleCellObstacle_refs g row col).1] at hc
        rw [Grid.toggleCellObstacle_type hgc, h.1 c hc]
        simp
      · intro c hc
        rw [(Grid.toggleCellObstacle_refs g row col).2] at hc
        rw [Grid.toggleCellObstacle_type hgc, h.2 c hc]
        simp
  | setCellType row col type =>
    show (g.setCellType row col type).1.RefsTyped
    cases hgc : g.getCell row col with
    | none => rw [Grid.setCellType_none type hgc]; exact h
    | some cell =>
      simp only [GridOp.respects, hgc, Bool.and_eq_true, Bool.or_eq_true, decide_eq_true_eq]
        at hr
      obtain ⟨hs, he⟩ := hr
      by_cases h1 : type = .START
      · subst h1
        have hec : g.endCell ≠ some cell := by
          rcases he with he | he
          · exact he
          · cases he
        constructor
        · intro c hc
          rw [Grid.setCellType_START_startCell hgc] at hc
          cases hc
          rw [Grid.setCellType_START_type hgc cell _ (Or.inl rfl)]
          simp
        · intro c hc
          rw [Grid.setCellType_START_endCell hgc] at hc
          rw [Grid.setCellType_START_type hgc c _ (Or.inr (Or.inl rfl))]
          have hne : c ≠ cell := fun e => hec (e ▸ hc)
          simp only [hne, if_false]
          refine ⟨h.2 c hc, fun hsc => ?_⟩
          have := (h.1 c hsc).symm.trans (h.2 c hc)
          cases this
      · by_cases h2 : type = .END
        · subst h2
          have hsc : g.startCell ≠ some cell := by
            rcases hs with hs | hs
            · exact hs
            · cases hs
          constructor
          · intro c hc
            rw [Grid.setCellType_END_startCell hgc] at hc
            rw [Grid.setCellType_END_type hgc c _ (Or.inl rfl)]
            have hne : c ≠ cell := fun e => hsc (e ▸ hc)
            simp only [hne, if_false]
            refine ⟨h.1 c hc, fun hec => ?_⟩
            have := (h.1 c hc).symm.trans (h.2 c hec)
            cases this
          · intro c hc
            rw [Grid.setCellType_END_endCell hgc] at hc
            cases hc
            rw [Grid.setCellType_END_type hgc cell _ (Or.inr (Or.inl rfl))]
            simp
        · have hsc : g.startCell ≠ some cell := by
            rcases hs with hs | hs
            · exact hs
            · exact absurd hs h1
          have hec : g.endCell ≠ some cell := by
            rcases he with he | he
            · exact he
            · exact absurd he h2
          have hrefs : (g.setCellType row col type).1.startCell = g.startCell ∧
              (g.setCellType row col type).1.endCell = g.endCell := by
            rw [Grid.setCellType_other hgc h1 h2]
            exact ⟨rfl, rfl⟩
          constructor
          · intro c hc
            rw [hrefs.1] at hc
            rw [Grid.setCellType_other_type hgc h1 h2]
            have hne : c ≠ cell := fun e => hsc (e ▸ hc)
            simp only [hne, if_false]
            exact h.1 c hc
          · intro c hc
            rw [hrefs.2] at hc
            rw [Grid.setCellType_other_type hgc h1 h2]
            have hne : c ≠ cell := fun e => hec (e ▸ hc)
            simp only [hne, if_false]
            exact h.2 c hc

theorem Grid.refsTyped_new (rows cols : Nat) : (Grid.new rows cols).RefsTyped := by
  constructor <;>
  · intro c hc
    cases hc

theorem Grid.refsTyped_applyAll (ops : List GridOp) :
    ∀ {g : Grid}, g.RefsTyped → g.respectsAll ops = true → (g.applyAll ops).RefsTyped := by
  induction ops with
  | nil => intro g h _; exact h
  | cons op ops ih =>
    intro g h hr
    simp only [Grid.respectsAll, Bool.and_eq_true] at hr
    exact ih (Grid.refsTyped_apply h op hr.1) hr.2

/-- C12, as stated, fails: after `setCellType(2,3,START)` and `setCellType(2,3,END)` on a
new 6x6 grid both references are set and name the same cell; and after
`setCellType(0,0,START)`, `setCellType(5,5,END)`, `setCellType(5,5,START)`,
`setCellType(0,0,START)`, `toggleCellObstacle(5,5)` both references are set and the cell
referenced as End is typed OBSTACLE. -/
theorem start_end_invariant_counterexample :
    (((Grid.new 6 6).applyAll
        [.setCellType 2 3 .START, .setCellType 2 3 .END]).startCell = some ⟨1, 2, 3⟩ ∧
      ((Grid.new 6 6).applyAll
        [.setCellType 2 3 .START, .setCellType 2 3 .END]).endCell = some ⟨1, 2, 3⟩) ∧
    (((Grid.new 6 6).applyAll
        [.setCellType 0 0 .START, .setCellType 5 5 .END, .setCellType 5 5 .START,
          .setCellType 0 0 .START, .toggleCellObstacle 5 5]).startCell = some ⟨1, 0, 0⟩ ∧
      ((Grid.new 6 6).applyAll
        [.setCellType 0 0 .START, .setCellType 5 5 .END, .setCellType 5 5 .START,
          .setCellType 0 0 .START, .toggleCellObstacle 5 5]).endCell = some ⟨1, 5, 5⟩ ∧
      (((Grid.new 6 6).applyAll
        [.setCellType 0 0 .START, .setCellType 5 5 .END, .setCellType 5 5 .START,
          .setCellType 0 0 .START, .toggleCellObstacle 5 5]).store ⟨1, 5, 5⟩).type
        = .OBSTACLE) := by
  decide!

/-- C12, amended: starting from a freshly constructed grid, after any finite sequence of
`setCellType`, `toggleCellObstacle` and `resetPath` calls in which no `setCellType` call
gives the cell then referenced as Start a type other than START nor the cell then
referenced as End a type other than END, the cell referenced as Start is typed START and
the cell referenced as End is typed END; so if both references are set they name two
distinct cells and neither referenced cell is typed OBSTACLE. -/
theorem start_end_distinct_not_obstacle (rows cols : Nat) (ops : List GridOp)
    (h : (Grid.new rows cols).respectsAll ops = true) (s t : CellId)
    (hs : ((Grid.new rows cols).applyAll ops).startCell = some s)
    (ht : ((Grid.new rows cols).applyAll ops).endCell = some t) :
    (((Grid.new rows cols).applyAll ops).store s).type = .START ∧
      (((Grid.new rows cols).applyAll ops).store t).type = .END ∧
      s ≠ t ∧
      (((Grid.new rows cols).applyAll ops).store s).type ≠ .OBSTACLE ∧
      (((Grid.new rows cols).applyAll ops).store t).type ≠ .OBSTACLE := by
  have hk := Grid.refsTyped_applyAll ops (Grid.refsTyped_new rows cols) h
  have h1 := hk.1 s hs
  have h2 := hk.2 t ht
  refine ⟨h1, h2, ?_, ?_, ?_⟩
  · intro e
    subst e
    have := h1.symm.trans h2
    cases this
  · rw [h1]; decide
  · rw [h2]; decide

theorem start_end_distinct_not_obstacle_witness :
    (Grid.new 6 6).respectsAll respectfulEdits = true ∧
      ((Grid.new 6 6).applyAll respectfulEdits).startCell = some ⟨1, 0, 1⟩ ∧
      ((Grid.new 6 6).applyAll respectfulEdits).endCell = some ⟨1, 5, 5⟩ ∧
      ((((Grid.new 6 6).applyAll respectfulEdits).store ⟨1, 0, 1⟩).type = .START ∧
        (((Grid.new 6 6).applyAll respectfulEdits).store ⟨1, 5, 5⟩).type = .END ∧
        (⟨1, 0, 1⟩ : CellId) ≠ ⟨1, 5, 5⟩ ∧
        (((Grid.new 6 6).applyAll respectfulEdits).store ⟨1, 0, 1⟩).type ≠ .OBSTACLE ∧
        (((Grid.new 6 6).applyAll respectfulEdits).store ⟨1, 5, 5⟩).type ≠ .OBSTACLE) :=
  ⟨by decide!, by decide!, by decide!,
    start_end_distinct_not_obstacle 6 6 respectfulEdits (by decide!) ⟨1, 0, 1⟩ ⟨1, 5, 5⟩
      (by decide!) (by decide!)⟩

/-! ## `setCellType` with a type other than START and END -/

/-- C13, as stated, fails: on a new 6x6 grid, after `setCellType(0,0,START)` the call
`setCellType(0,0,EMPTY)` types the cell EMPTY and leaves the Start reference naming it;
likewise for End after `setCellType(5,5,END)` and `setCellType(5,5,OBSTACLE)`; in both
grid classes. -/
theorem setCellType_reference_counterexample :
    ((((Grid.new 6 6).setCellType 0 0 .START).1.setCellType 0 0 .EMPTY).1.startCell
        = some ⟨1, 0, 0⟩ ∧
      ((((Grid.new 6 6).setCellType 0 0 .START).1.setCellType 0 0 .EMPTY).1.store
        ⟨1, 0, 0⟩).type = .EMPTY) ∧
    ((((Grid.new 6 6).setCellType 5 5 .END).1.setCellType 5 5 .OBSTACLE).1.endCell
        = some ⟨1, 5, 5⟩ ∧
      ((((Grid.new 6 6).setCellType 5 5 .END).1.setCellType 5 5 .OBSTACLE).1.store
        ⟨1, 5, 5⟩).type = .OBSTACLE) ∧
    ((Assets.setCellType (Assets.setCellType (Assets.new 6 6) 0 0 .START).1 0 0 .EMPTY).1.startCell
        = some ⟨1, 0, 0⟩ ∧
      ((Assets.setCellType (Assets.setCellType (Assets.new 6 6) 0 0 .START).1 0 0 .EMPTY).1.store
        ⟨1, 0, 0⟩).type = .EMPTY) ∧
    ((Assets.setCellType (Assets.setCellType (Assets.new 6 6) 5 5 .END).1 5 5 .OBSTACLE).1.endCell
        = some ⟨1, 5, 5⟩ ∧
      ((Assets.setCellType (Assets.setCellType (Assets.new 6 6) 5 5 .END).1 5 5 .OBSTACLE).1.store
        ⟨1, 5, 5⟩).type = .OBSTACLE) := by
  decide!

/-- C13, amended: for every in-range cell `c` and every type `t` other than START and END,
`setCellType(c, t)` returns true, sets the type of `c` to `t` and leaves everything else as
it was: the other fields of `c`, every other cell, the dimensions and both references,
whichever cells they name (also when one of them names `c`).  In both grid classes. -/
theorem setCellType_other_overwrites (g : Grid) (row col : Int) (c : CellId) (t : CellType)
    (hc : g.getCell row col = some c) (h1 : t ≠ .START) (h2 : t ≠ .END) :
    ((g.setCellType row col t).2 = true ∧
      (g.setCellType row col t).1.store c = { g.store c with type := t } ∧
      (∀ x, x ≠ c → (g.setCellType row col t).1.store x = g.store x) ∧
      (g.setCellType row col t).1.startCell = g.startCell ∧
      (g.setCellType row col t).1.endCell = g.endCell ∧
      (g.setCellType row col t).1.rows = g.rows ∧
      (g.setCellType row col t).1.cols = g.cols) ∧
    ((Assets.setCellType g row col t).2 = true ∧
      (Assets.setCellType g row col t).1.store c = { g.store c with type := t } ∧
      (∀ x, x ≠ c → (Assets.setCellType g row col t).1.store x = g.store x) ∧
      (Assets.setCellType g row col t).1.startCell = g.startCell ∧
      (Assets.setCellType g row col t).1.endCell = g.endCell ∧
      (Assets.setCellType g row col t).1.rows = g.rows ∧
      (Assets.setCellType g row col t).1.cols = g.cols) := by
  rw [Grid.setCellType_other hc h1 h2, assets_setCellType_other hc h1 h2]
  have key : (g.modify c fun c => { c with type := t }).store c = { g.store c with type := t } ∧
      (∀ x, x ≠ c → (g.modify c fun c => { c with type := t }).store x = g.store x) :=
    ⟨Grid.modify_store_self g c _, fun x hx => Grid.modify_store_ne g _ hx⟩
  exact ⟨⟨rfl, key.1, key.2, rfl, rfl, rfl, rfl⟩, ⟨rfl, key.1, key.2, rfl, rfl, rfl, rfl⟩⟩

theorem setCellType_other_overwrites_witness :
    gridWithEndpoints.getCell 0 0 = some ⟨1, 0, 0⟩ ∧
    ((gridWithEndpoints.setCellType 0 0 .OBSTACLE).2 = true ∧
      (gridWithEndpoints.setCellType 0 0 .OBSTACLE).1.store ⟨1, 0, 0⟩ =
        { gridWithEndpoints.store ⟨1, 0, 0⟩ with type := .OBSTACLE } ∧
      (∀ x, x ≠ ⟨1, 0, 0⟩ →
        (gridWithEndpoints.setCellType 0 0 .OBSTACLE).1.store x = gridWithEndpoints.store x) ∧
      (gridWithEndpoints.setCellType 0 0 .OBSTACLE).1.startCell = gridWithEndpoints.startCell ∧
      (gridWithEndpoints.setCellType 0 0 .OBSTACLE).1.endCell = gridWithEndpoints.endCell ∧
      (gridWithEndpoints.setCellType 0 0 .OBSTACLE).1.rows = gridWithEndpoints.rows ∧
      (gridWithEndpoints.setCellType 0 0 .OBSTACLE).1.cols = gridWithEndpoints.cols) ∧
    ((Assets.setCellType gridWithEndpoints 0 0 .OBSTACLE).2 = true ∧
      (Assets.setCellType gridWithEndpoints 0 0 .OBSTACLE).1.store ⟨1, 0, 0⟩ =
        { gridWithEndpoints.store ⟨1, 0, 0⟩ with type := .OBSTACLE } ∧
      (∀ x, x ≠ ⟨1, 0, 0⟩ →
        (Assets.setCellType gridWithEndpoints 0 0 .OBSTACLE).1.store x =
          gridWithEndpoints.store x) ∧
      (Assets.setCellType gridWithEndpoints 0 0 .OBSTACLE).1.startCell =
        gridWithEndpoints.startCell ∧
      (Assets.setCellType gridWithEndpoints 0 0 .OBSTACLE).1.endCell =
        gridWithEndpoints.endCell ∧
      (Assets.setCellType gridWithEndpoints 0 0 .OBSTACLE).1.rows = gridWithEndpoints.rows ∧
      (Assets.setCellType gridWithEndpoints 0 0 .OBSTACLE).1.cols = gridWithEndpoints.cols) :=
  ⟨by decide!,
    setCellType_other_overwrites gridWithEndpoints 0 0 ⟨1, 0, 0⟩ .OBSTACLE (by decide!)
      (by decide) (by decide)⟩

/-! ## Bounds -/

/-- C14: for all integers `row` and `col`, `getCell(row, col)` returns the cell of the grid
whose `row` and `col` fields equal the arguments when `0 <= row < rows` and
`0 <= col < cols`, and returns null otherwise (it is a total function); on out-of-range
coordinates `setCellType`, for any type, and `toggleCellObstacle` return false and leave
the grid unchanged. -/
theorem getCell_bounds_checked (g : Grid) (row col : Int) :
    ((0 ≤ row ∧ row < g.rows ∧ 0 ≤ col ∧ col < g.cols) →
      ∃ c, g.getCell row col = some c ∧ g.isLive c = true ∧
        (c.row : Int) = row ∧ (c.col : Int) = col) ∧
    (¬ (0 ≤ row ∧ row < g.rows ∧ 0 ≤ col ∧ col < g.cols) →
      g.getCell row col = none ∧
      (∀ type, g.setCellType row col type = (g, false)) ∧
      g.toggleCellObstacle row col = (g, false)) := by
  constructor
  · intro h
    cases hgc : g.getCell row col with
    | none => exact absurd h ((Grid.getCell_eq_none g row col).mp hgc)
    | some c =>
      have hc := (Grid.getCell_eq_some g row col c).mp hgc
      exact ⟨c, rfl, Grid.getCell_isLive hgc, hc.2.2.2.2.2.1, hc.2.2.2.2.2.2⟩
  · intro h
    have hn := (Grid.getCell_eq_none g row col).mpr h
    exact ⟨hn, fun type => Grid.setCellType_none type hn, Grid.toggleCellObstacle_none hn⟩

theorem getCell_bounds_checked_witness :
    (∃ c, (Grid.new 6 6).getCell 2 3 = some c ∧ (Grid.new 6 6).isLive c = true ∧
        (c.row : Int) = 2 ∧ (c.col : Int) = 3) ∧
    ((Grid.new 6 6).getCell (-1) 6 = none ∧
      (∀ type, (Grid.new 6 6).setCellType (-1) 6 type = (Grid.new 6 6, false)) ∧
      (Grid.new 6 6).toggleCellObstacle (-1) 6 = (Grid.new 6 6, false)) :=
  ⟨(getCell_bounds_checked (Grid.new 6 6) 2 3).1 (by decide),
    (getCell_bounds_checked (Grid.new 6 6) (-1) 6).2 (by decide)⟩

/-! ## `toggleCellObstacle` -/

theorem Grid.ext_fields {g1 g2 : Grid} (h1 : g1.rows = g2.rows) (h2 : g1.cols = g2.cols)
    (h3 : g1.gen = g2.gen) (h4 : ∀ x, g1.store x = g2.store x)
    (h5 : g1.startCell = g2.startCell) (h6 : g1.endCell = g2.endCell)
    (h7 : g1.pathCells = g2.pathCells) (h8 : g1.bunnyPosition = g2.bunnyPosition) :
    g1 = g2 := by
  cases g1
  cases g2
  simp only [Grid.mk.injEq]
  exact ⟨h1, h2, h3, funext h4, h5, h6, h7, h8⟩

theorem Grid.toggleCellObstacle_twice (g : Grid) (row col : Int) :
    ((g.toggleCellObstacle row col).1.toggleCellObstacle row col).1 = g := by
  cases hgc : g.getCell row col with
  | none => rw [Grid.toggleCellObstacle_none hgc]; simp only; rw [Grid.toggleCellObstacle_none hgc]
  | some cell =>
    have hgc2 : (g.toggleCellObstacle row col).1.getCell row col = some cell := by
      rw [Grid.toggleCellObstacle_some hgc]
      exact hgc
    apply Grid.ext_fields
    · rw [Grid.toggleCellObstacle_some hgc2, Grid.toggleCellObstacle_some hgc]; rfl
    · rw [Grid.toggleCellObstacle_some hgc2, Grid.toggleCellObstacle_some hgc]; rfl
    · rw [Grid.toggleCellObstacle_some hgc2, Grid.toggleCellObstacle_some hgc]; rfl
    · intro x
      rw [Grid.toggleCellObstacle_some hgc2, Grid.toggleCellObstacle_some hgc]
      simp only [Grid.modify_store]
      by_cases hx : x = cell
      · subst hx
        simp only [if_true]
        cases hc : g.store x with
        | mk type f gg h parent => cases type <;> simp
      · simp [hx]
    · rw [Grid.toggleCellObstacle_some hgc2, Grid.toggleCellObstacle_some hgc]; rfl
    · rw [Grid.toggleCellObstacle_some hgc2, Grid.toggleCellObstacle_some hgc]; rfl
    · rw [Grid.toggleCellObstacle_some hgc2, Grid.toggleCellObstacle_some hgc]; rfl
    · rw [Grid.toggleCellObstacle_some hgc2, Grid.toggleCellObstacle_some hgc]; rfl

theorem assets_toggleCellObstacle_eq (g : Grid) (row col : Int) :
    Assets.toggleCellObstacle g row col = g.toggleCellObstacle row col := rfl

/-- C15: for every in-range `(row, col)`, `toggleCellObstacle` returns true and changes
the type of the target cell from EMPTY to OBSTACLE or from OBSTACLE to EMPTY and leaves it
unchanged for every other type; the other fields of the cell, every other cell, the
dimensions and both references are not modified, and applying it twice to the same cell
restores the grid.  In both grid classes. -/
theorem toggleCellObstacle_flips (g : Grid) (row col : Int) (c : CellId)
    (hc : g.getCell row col = some c) :
    ((g.toggleCellObstacle row col).2 = true ∧
      (g.toggleCellObstacle row col).1.store c =
        { g.store c with type :=
            if (g.store c).type = .EMPTY then .OBSTACLE
            else if (g.store c).type = .OBSTACLE then .EMPTY else (g.store c).type } ∧
      (∀ x, x ≠ c → (g.toggleCellObstacle row col).1.store x = g.store x) ∧
      (g.toggleCellObstacle row col).1.startCell = g.startCell ∧
      (g.toggleCellObstacle row col).1.endCell = g.endCell ∧
      (g.toggleCellObstacle row col).1.rows = g.rows ∧
      (g.toggleCellObstacle row col).1.cols = g.cols ∧
      ((g.toggleCellObstacle row col).1.toggleCellObstacle row col).1 = g) ∧
    ((Assets.toggleCellObstacle g row col).2 = true ∧
      (Assets.toggleCellObstacle g row col).1.store c =
        { g.store c with type :=
            if (g.store c).type = .EMPTY then .OBSTACLE
            else if (g.store c).type = .OBSTACLE then .EMPTY else (g.store c).type } ∧
      (∀ x, x ≠ c → (Assets.toggleCellObstacle g row col).1.store x = g.store x) ∧
      (Assets.toggleCellObstacle g row col).1.startCell = g.startCell ∧
      (Assets.toggleCellObstacle g row col).1.endCell = g.endCell ∧
      (Assets.toggleCellObstacle g row col).1.rows = g.rows ∧
      (Assets.toggleCellObstacle g row col).1.cols = g.cols ∧
      (Assets.toggleCellObstacle (Assets.toggleCellObstacle g row col).1 row col).1 = g) := by
  have key : (g.toggleCellObstacle row col).2 = true ∧
      (g.toggleCellObstacle row col).1.store c =
        { g.store c with type :=
            if (g.store c).type = .EMPTY then .OBSTACLE
            else if (g.store c).type = .OBSTACLE then .EMPTY else (g.store c).type } ∧
      (∀ x, x ≠ c → (g.toggleCellObstacle row col).1.store x = g.store x) ∧
      (g.toggleCellObstacle row col).1.startCell = g.startCell ∧
      (g.toggleCellObstacle row col).1.endCell = g.endCell ∧
      (g.toggleCellObstacle row col).1.rows = g.rows ∧
      (g.toggleCellObstacle row col).1.cols = g.cols ∧
      ((g.toggleCellObstacle row col).1.toggleCellObstacle row col).1 = g := by
    refine ⟨?_, ?_, ?_, ?_, ?_, ?_, ?_, Grid.toggleCellObstacle_twice g row col⟩
    · rw [Grid.toggleCellObstacle_some hc]
    · rw [Grid.toggleCellObstacle_some hc]
      simp only [Grid.modify_store_self]
    · intro x hx
      rw [Grid.toggleCellObstacle_some hc]
      simp only [Grid.modify_store, hx, if_false]
    · exact (Grid.toggleCellObstacle_refs g row col).1
    · exact (Grid.toggleCellObstacle_refs g row col).2
    · rw [Grid.toggleCellObstacle_some hc]; rfl
    · rw [Grid.toggleCellObstacle_some hc]; rfl
  exact ⟨key, key⟩

theorem toggleCellObstacle_flips_witness :
    gridWithEndpoints.getCell 2 2 = some ⟨1, 2, 2⟩ ∧
    ((gridWithEndpoints.toggleCellObstacle 2 2).2 = true ∧
      (gridWithEndpoints.toggleCellObstacle 2 2).1.store ⟨1, 2, 2⟩ =
        { gridWithEndpoints.store ⟨1, 2, 2⟩ with type :=
            if (gridWithEndpoints.store ⟨1, 2, 2⟩).type = .EMPTY then .OBSTACLE
            else if (gridWithEndpoints.store ⟨1, 2, 2⟩).type = .OBSTACLE then .EMPTY
            else (gridWithEndpoints.store ⟨1, 2, 2⟩).type } ∧
      (∀ x, x ≠ ⟨1, 2, 2⟩ →
        (gridWithEndpoints.toggleCellObstacle 2 2).1.store x = gridWithEndpoints.store x) ∧
      (gridWithEndpoints.toggleCellObstacle 2 2).1.startCell = gridWithEndpoints.startCell ∧
      (gridWithEndpoints.toggleCellObstacle 2 2).1.endCell = gridWithEndpoints.endCell ∧
      (gridWithEndpoints.toggleCellObstacle 2 2).1.rows = gridWithEndpoints.rows ∧
      (gridWithEndpoints.toggleCellObstacle 2 2).1.cols = gridWithEndpoints.cols ∧
      ((gridWithEndpoints.toggleCellObstacle 2 2).1.toggleCellObstacle 2 2).1 =
        gridWithEndpoints) ∧
    ((Assets.toggleCellObstacle gridWithEndpoints 2 2).2 = true ∧
      (Assets.toggleCellObstacle gridWithEndpoints 2 2).1.store ⟨1, 2, 2⟩ =
        { gridWithEndpoints.store ⟨1, 2, 2⟩ with type :=
            if (gridWithEndpoints.store ⟨1, 2, 2⟩).type = .EMPTY then .OBSTACLE
            else if (gridWithEndpoints.store ⟨1, 2, 2⟩).type = .OBSTACLE then .EMPTY
            else (gridWithEndpoints.store ⟨1, 2, 2⟩).type } ∧
      (∀ x, x ≠ ⟨1, 2, 2⟩ →
        (Assets.toggleCellObstacle gridWithEndpoints 2 2).1.store x =
          gridWithEndpoints.store x) ∧
      (Assets.toggleCellObstacle gridWithEndpoints 2 2).1.startCell =
        gridWithEndpoints.startCell ∧
      (Assets.toggleCellObstacle gridWithEndpoints 2 2).1.endCell =
        gridWithEndpoints.endCell ∧
      (Assets.toggleCellObstacle gridWithEndpoints 2 2).1.rows = gridWithEndpoints.rows ∧
      (Assets.toggleCellObstacle gridWithEndpoints 2 2).1.cols = gridWithEndpoints.cols ∧
      (Assets.toggleCellObstacle (Assets.toggleCellObstacle gridWithEndpoints 2 2).1 2 2).1 =
        gridWithEndpoints) :=
  ⟨by decide!, toggleCellObstacle_flips gridWithEndpoints 2 2 ⟨1, 2, 2⟩ (by decide!)⟩

/-! ## `resetPath` -/

theorem assets_resetPath_store (g : Grid) (x : CellId) :
    (Assets.resetPath g).store x =
      if g.isLive x then Assets.resetPathCell (g.store x) else g.store x := rfl

theorem Cell.resetPath_idem (c : Cell) : c.resetPath.resetPath = c.resetPath := by
  cases c with
  | mk type f g h parent => cases type <;> simp [Cell.resetPath]

theorem assets_resetPathCell_idem (c : Cell) :
    Assets.resetPathCell (Assets.resetPathCell c) = Assets.resetPathCell c := by
  cases c with
  | mk type f g h parent => cases type <;> simp [Assets.resetPathCell]

theorem Grid.resetPath_isLive (g : Grid) (x : CellId) : g.resetPath.isLive x = g.isLive x :=
  Grid.isLive_congr rfl rfl rfl x

theorem assets_resetPath_isLive (g : Grid) (x : CellId) :
    (Assets.resetPath g).isLive x = g.isLive x :=
  Grid.isLive_congr rfl rfl rfl x

/-- C16: after `resetPath()`, every cell of the grid that had type PATH or VISITED has
type EMPTY, every cell that had type EMPTY, OBSTACLE, START or END keeps its type, every
cell has `f = 0`, `g = 0`, `h = 0` and no parent, and the dimensions and the Start and End
references are unchanged.  In both grid classes. -/
theorem resetPath_effect (g : Grid) (c : CellId) (hc : g.isLive c = true) :
    (((g.store c).type = .PATH ∨ (g.store c).type = .VISITED →
        (g.resetPath.store c).type = .EMPTY) ∧
      ((g.store c).type = .EMPTY ∨ (g.store c).type = .OBSTACLE ∨
          (g.store c).type = .START ∨ (g.store c).type = .END →
        (g.resetPath.store c).type = (g.store c).type) ∧
      (g.resetPath.store c).f = .fin 0 ∧ (g.resetPath.store c).g = .fin 0 ∧
      (g.resetPath.store c).h = .fin 0 ∧ (g.resetPath.store c).parent = none ∧
      g.resetPath.rows = g.rows ∧ g.resetPath.cols = g.cols ∧
      g.resetPath.startCell = g.startCell ∧ g.resetPath.endCell = g.endCell) ∧
    (((g.store c).type = .PATH ∨ (g.store c).type = .VISITED →
        ((Assets.resetPath g).store c).type = .EMPTY) ∧
      ((g.store c).type = .EMPTY ∨ (g.store c).type = .OBSTACLE ∨
          (g.store c).type = .START ∨ (g.store c).type = .END →
        ((Assets.resetPath g).store c).type = (g.store c).type) ∧
      ((Assets.resetPath g).store c).f = .fin 0 ∧ ((Assets.resetPath g).store c).g = .fin 0 ∧
      ((Assets.resetPath g).store c).h = .fin 0 ∧ ((Assets.resetPath g).store c).parent = none ∧
      (Assets.resetPath g).rows = g.rows ∧ (Assets.resetPath g).cols = g.cols ∧
      (Assets.resetPath g).startCell = g.startCell ∧
      (Assets.resetPath g).endCell = g.endCell) := by
  rw [Grid.resetPath_store, assets_resetPath_store, hc]
  simp only [if_true]
  refine ⟨⟨?_, ?_, rfl, rfl, rfl, rfl, rfl, rfl, rfl, rfl⟩,
    ⟨?_, ?_, rfl, rfl, rfl, rfl, rfl, rfl, rfl, rfl⟩⟩
  · intro h
    rcases h with h | h <;> simp [Cell.resetPath, h]
  · intro h
    rcases h with h | h | h | h <;> simp [Cell.resetPath, h]
  · intro h
    rcases h with h | h <;> simp [Assets.resetPathCell, h]
  · intro h
    rcases h with h | h | h | h <;> simp [Assets.resetPathCell, h]

theorem resetPath_effect_witness :
    (gridAfterRun.isLive ⟨1, 0, 0⟩ = true ∧ (gridAfterRun.store ⟨1, 0, 0⟩).type = .PATH) ∧
    ((((gridAfterRun.store ⟨1, 0, 0⟩).type = .PATH ∨
          (gridAfterRun.store ⟨1, 0, 0⟩).type = .VISITED →
        (gridAfterRun.resetPath.store ⟨1, 0, 0⟩).type = .EMPTY) ∧
      ((gridAfterRun.store ⟨1, 0, 0⟩).type = .EMPTY ∨
          (gridAfterRun.store ⟨1, 0, 0⟩).type = .OBSTACLE ∨
          (gridAfterRun.store ⟨1, 0, 0⟩).type = .START ∨
          (gridAfterRun.store ⟨1, 0, 0⟩).type = .END →
        (gridAfterRun.resetPath.store ⟨1, 0, 0⟩).type = (gridAfterRun.store ⟨1, 0, 0⟩).type) ∧
      (gridAfterRun.resetPath.store ⟨1, 0, 0⟩).f = .fin 0 ∧
      (gridAfterRun.resetPath.store ⟨1, 0, 0⟩).g = .fin 0 ∧
      (gridAfterRun.resetPath.store ⟨1, 0, 0⟩).h = .fin 0 ∧
      (gridAfterRun.resetPath.store ⟨1, 0, 0⟩).parent = none ∧
      gridAfterRun.resetPath.rows = gridAfterRun.rows ∧
      gridAfterRun.resetPath.cols = gridAfterRun.cols ∧
      gridAfterRun.resetPath.startCell = gridAfterRun.startCell ∧
      gridAfterRun.resetPath.endCell = gridAfterRun.endCell) ∧
    (((gridAfterRun.store ⟨1, 0, 0⟩).type = .PATH ∨
          (gridAfterRun.store ⟨1, 0, 0⟩).type = .VISITED →
        ((Assets.resetPath gridAfterRun).store ⟨1, 0, 0⟩).type = .EMPTY) ∧
      ((gridAfterRun.store ⟨1, 0, 0⟩).type = .EMPTY ∨
          (gridAfterRun.store ⟨1, 0, 0⟩).type = .OBSTACLE ∨
          (gridAfterRun.store ⟨1, 0, 0⟩).type = .START ∨
          (gridAfterRun.store ⟨1, 0, 0⟩).type = .END →
        ((Assets.resetPath gridAfterRun).store ⟨1, 0, 0⟩).type =
          (gridAfterRun.store ⟨1, 0, 0⟩).type) ∧
      ((Assets.resetPath gridAfterRun).store ⟨1, 0, 0⟩).f = .fin 0 ∧
      ((Assets.resetPath gridAfterRun).store ⟨1, 0, 0⟩).g = .fin 0 ∧
      ((Assets.resetPath gridAfterRun).store ⟨1, 0, 0⟩).h = .fin 0 ∧
      ((Assets.resetPath gridAfterRun).store ⟨1, 0, 0⟩).parent = none ∧
      (Assets.resetPath gridAfterRun).rows = gridAfterRun.rows ∧
      (Assets.resetPath gridAfterRun).cols = gridAfterRun.cols ∧
      (Assets.resetPath gridAfterRun).startCell = gridAfterRun.startCell ∧
      (Assets.resetPath gridAfterRun).endCell = gridAfterRun.endCell)) :=
  ⟨by decide!, resetPath_effect gridAfterRun ⟨1, 0, 0⟩ (by decide!)⟩

/-- C17: `resetPath` is idempotent: for every grid state, calling `resetPath()` twice in a
row yields exactly the same grid state (all cell fields, `pathCells`, the Start and End
references and every other field) as calling it once.  In both grid classes. -/
theorem resetPath_idempotent (g : Grid) :
    g.resetPath.resetPath = g.resetPath ∧
      Assets.resetPath (Assets.resetPath g) = Assets.resetPath g := by
  constructor
  · apply Grid.ext_fields <;> try rfl
    intro x
    rw [Grid.resetPath_store, Grid.resetPath_isLive, Grid.resetPath_store]
    split_ifs
    · exact Cell.resetPath_idem _
    · rfl
  · apply Grid.ext_fields <;> try rfl
    intro x
    rw [assets_resetPath_store, assets_resetPath_isLive, assets_resetPath_store]
    split_ifs
    · exact assets_resetPathCell_idem _
    · rfl

/-! ## `resize` -/

/-- The part of the description of `resize` that holds: the grid has the new dimensions
and its cells are new objects with the fields of a fresh cell. -/
theorem Grid.resize_cells_fresh (g : Grid) (rows cols : Nat) :
    (g.resize rows cols).rows = rows ∧ (g.resize rows cols).cols = cols ∧
      (g.resize rows cols).liveCells.length = rows * cols ∧
      ∀ c, (g.resize rows cols).isLive c = true →
        (g.resize rows cols).store c = Cell.fresh ∧ g.isLive c = false := by
  refine ⟨rfl, rfl, Grid.length_liveCells _, ?_⟩
  intro c hc
  rw [Grid.isLive_iff] at hc
  have hgen : c.gen = g.gen + 1 := hc.1
  constructor
  · simp [Grid.resize, Grid.initCells, hgen]
  · cases hl : g.isLive c with
    | false => rfl
    | true =>
      rw [Grid.isLive_iff] at hl
      omega

/-- C18 on a concrete grid: after `setCellType(0,0,START)` and `setCellType(5,5,END)` on a
new 6x6 grid, `resize(8, 8)` leaves both references set; they name the cell objects of the
array that was replaced, which are not cells of the grid any more and keep the types START
and END, while the cells of the grid at (0,0) and (5,5) are typed EMPTY.  The same holds
for the grid class of `assets/js/grid.js`. -/
theorem resize_keeps_references :
    ((gridWithEndpoints.resize 8 8).startCell = some ⟨1, 0, 0⟩ ∧
      (gridWithEndpoints.resize 8 8).endCell = some ⟨1, 5, 5⟩ ∧
      (gridWithEndpoints.resize 8 8).isLive ⟨1, 0, 0⟩ = false ∧
      (gridWithEndpoints.resize 8 8).isLive ⟨1, 5, 5⟩ = false ∧
      ((gridWithEndpoints.resize 8 8).store ⟨1, 0, 0⟩).type = .START ∧
      ((gridWithEndpoints.resize 8 8).store ⟨1, 5, 5⟩).type = .END ∧
      (gridWithEndpoints.resize 8 8).getCell 0 0 = some ⟨2, 0, 0⟩ ∧
      (gridWithEndpoints.resize 8 8).getCell 5 5 = some ⟨2, 5, 5⟩ ∧
      ((gridWithEndpoints.resize 8 8).store ⟨2, 0, 0⟩).type = .EMPTY ∧
      ((gridWithEndpoints.resize 8 8).store ⟨2, 5, 5⟩).type = .EMPTY) ∧
    ((Assets.resize Assets.gridWithEndpoints 8 8).startCell = some ⟨1, 0, 0⟩ ∧
      (Assets.resize Assets.gridWithEndpoints 8 8).endCell = some ⟨1, 5, 5⟩ ∧
      (Assets.resize Assets.gridWithEndpoints 8 8).isLive ⟨1, 0, 0⟩ = false ∧
      (Assets.resize Assets.gridWithEndpoints 8 8).isLive ⟨1, 5, 5⟩ = false ∧
      ((Assets.resize Assets.gridWithEndpoints 8 8).store ⟨1, 0, 0⟩).type = .START ∧
      ((Assets.resize Assets.gridWithEndpoints 8 8).store ⟨1, 5, 5⟩).type = .END ∧
      (Assets.resize Assets.gridWithEndpoints 8 8).getCell 0 0 = some ⟨2, 0, 0⟩ ∧
      (Assets.resize Assets.gridWithEndpoints 8 8).getCell 5 5 = some ⟨2, 5, 5⟩ ∧
      ((Assets.resize Assets.gridWithEndpoints 8 8).store ⟨2, 0, 0⟩).type = .EMPTY ∧
      ((Assets.resize Assets.gridWithEndpoints 8 8).store ⟨2, 5, 5⟩).type = .EMPTY) := by
  decide!

/-! ## `clear` -/

theorem Grid.initCells_store_live (g : Grid) (c : CellId)
    (hc : g.initCells.isLive c = true) : g.initCells.store c = Cell.fresh := by
  rw [Grid.isLive_iff] at hc
  have hgen : c.gen = g.gen + 1 := hc.1
  simp [Grid.initCells, hgen]

theorem Grid.initCells_isLive_old (g : Grid) (rows cols : Nat) (c : CellId)
    (hc : g.initCells.isLive c = true) :
    Grid.isLive { g with rows := rows, cols := cols } c = false := by
  rw [Grid.isLive_iff] at hc
  have hgen : c.gen = g.gen + 1 := hc.1
  cases hl : Grid.isLive { g with rows := rows, cols := cols } c with
  | false => rfl
  | true =>
    rw [Grid.isLive_iff] at hl
    have : c.gen = g.gen := hl.1
    omega

/-- What `validPositions` tests on a grid whose cells are all fresh. -/
theorem Grid.validPositions_fresh (g : Grid) (hf : ∀ c, g.isLive c = true → g.store c = Cell.fresh)
    (d : Draw) :
    g.validPositions d = true ↔
      d.startRow < g.rows ∧ d.startCol < g.cols ∧ d.endRow < g.rows ∧ d.endCol < g.cols ∧
        5 ≤ ((d.startRow : Int) - d.endRow).natAbs + ((d.startCol : Int) - d.endCol).natAbs := by
  unfold Grid.validPositions
  cases hs : g.getCell d.startRow d.startCol with
  | none =>
    have := (Grid.getCell_eq_none g _ _).mp hs
    simp only [Bool.false_eq_true, false_iff]
    intro h
    apply this
    omega
  | some sc =>
    cases he : g.getCell d.endRow d.endCol with
    | none =>
      have := (Grid.getCell_eq_none g _ _).mp he
      simp only [Bool.false_eq_true, false_iff]
      intro h
      apply this
      omega
    | some ec =>
      have h1 := hf sc (Grid.getCell_isLive hs)
      have h2 := hf ec (Grid.getCell_isLive he)
      have hs1 := (Grid.getCell_eq_some g _ _ _).mp hs
      have he1 := (Grid.getCell_eq_some g _ _ _).mp he
      simp only [h1, h2, Cell.fresh, decide_eq_true_eq]
      constructor
      · intro h
        refine ⟨by omega, by omega, by omega, by omega, h.2.2⟩
      · intro h
        exact ⟨by decide, by decide, h.2.2.2.2⟩

theorem Grid.getCell_cellAt (g : Grid) (i j : Nat) (hi : i < g.rows) (hj : j < g.cols) :
    g.getCell i j = some ⟨g.gen, i, j⟩ := by
  rw [Grid.getCell_eq_some]
  exact ⟨by omega, by omega, by omega, by omega, rfl, rfl, rfl⟩

theorem Grid.getCell_congr {g g1 : Grid} (hr : g1.rows = g.rows) (hc : g1.cols = g.cols)
    (hg : g1.gen = g.gen) (row col : Int) : g1.getCell row col = g.getCell row col := by
  simp [Grid.getCell, Grid.cellAt, hr, hc, hg]

/-- The grid after the two `setCellType` calls that end `randomizeStartAndEnd()`, on a grid
without references whose cells are all fresh. -/
theorem Grid.place_endpoints (g : Grid) (hs : g.startCell = none) (he : g.endCell = none)
    (hf : ∀ c, g.isLive c = true → g.store c = Cell.fresh) (d : Draw)
    (h1 : d.startRow < g.rows) (h2 : d.startCol < g.cols) (h3 : d.endRow < g.rows)
    (h4 : d.endCol < g.cols) (hne : (d.startRow, d.startCol) ≠ (d.endRow, d.endCol))
    (g1 : Grid)
    (hg1 : g1 = ((g.setCellType d.startRow d.startCol .START).1.setCellType
      d.endRow d.endCol .END).1) :
    g1.startCell = some ⟨g.gen, d.startRow, d.startCol⟩ ∧
      g1.endCell = some ⟨g.gen, d.endRow, d.endCol⟩ ∧
      g1.rows = g.rows ∧ g1.cols = g.cols ∧ g1.gen = g.gen ∧ g1.pathCells = [] ∧
      g1.store ⟨g.gen, d.startRow, d.startCol⟩ = { Cell.fresh with type := .START } ∧
      g1.store ⟨g.gen, d.endRow, d.endCol⟩ = { Cell.fresh with type := .END } ∧
      ∀ c, g1.isLive c = true → c ≠ ⟨g.gen, d.startRow, d.startCol⟩ →
        c ≠ ⟨g.gen, d.endRow, d.endCol⟩ → g1.store c = Cell.fresh := by
  have hgs := Grid.getCell_cellAt g d.startRow d.startCol h1 h2
  have hA := Grid.setCellType_START hgs
  rw [hs] at hA
  simp only at hA
  obtain ⟨g4, hg4⟩ : ∃ g4, g4 = (g.setCellType d.startRow d.startCol .START).1 := ⟨_, rfl⟩
  rw [← hg4] at hg1
  rw [hA] at hg4
  have e4 : g4.rows = g.rows ∧ g4.cols = g.cols ∧ g4.gen = g.gen ∧ g4.endCell = none ∧
      g4.startCell = some ⟨g.gen, d.startRow, d.startCol⟩ ∧ g4.pathCells = [] ∧
      ∀ x, g4.store x = if x = ⟨g.gen, d.startRow, d.startCol⟩ then
        { g.resetPath.store ⟨g.gen, d.startRow, d.startCol⟩ with type := .START }
        else g.resetPath.store x := by
    rw [hg4]
    exact ⟨rfl, rfl, rfl, he, rfl, rfl, fun x => rfl⟩
  clear hg4 hA
  obtain ⟨r4, c4, n4, hend, hst4, hp4, hs4⟩ := e4
  have hge : g4.getCell d.endRow d.endCol = some ⟨g.gen, d.endRow, d.endCol⟩ := by
    rw [Grid.getCell_congr r4 c4 n4]
    exact Grid.getCell_cellAt g d.endRow d.endCol h3 h4
  have hB := Grid.setCellType_END hge
  rw [hend] at hB
  simp only at hB
  rw [hB] at hg1
  have e1 : g1.rows = g4.rows ∧ g1.cols = g4.cols ∧ g1.gen = g4.gen ∧
      g1.endCell = some ⟨g.gen, d.endRow, d.endCol⟩ ∧
      g1.startCell = g4.startCell ∧ g1.pathCells = [] ∧
      ∀ x, g1.store x = if x = ⟨g.gen, d.endRow, d.endCol⟩ then
        { g4.resetPath.store ⟨g.gen, d.endRow, d.endCol⟩ with type := .END }
        else g4.resetPath.store x := by
    rw [hg1]
    exact ⟨rfl, rfl, rfl, rfl, rfl, rfl, fun x => rfl⟩
  clear hg1 hB
  obtain ⟨r1, c1, n1, hen1, hst1, hp1, hs1⟩ := e1
  have hsne : (⟨g.gen, d.startRow, d.startCol⟩ : CellId) ≠ ⟨g.gen, d.endRow, d.endCol⟩ := by
    intro e
    simp only [CellId.mk.injEq, true_and] at e
    exact hne (Prod.ext e.1 e.2)
  have hls : g.isLive ⟨g.gen, d.startRow, d.startCol⟩ = true := by
    rw [Grid.isLive_iff]; exact ⟨rfl, h1, h2⟩
  have hle : g.isLive ⟨g.gen, d.endRow, d.endCol⟩ = true := by
    rw [Grid.isLive_iff]; exact ⟨rfl, h3, h4⟩
  have hl4 : ∀ x, g4.isLive x = g.isLive x := Grid.isLive_congr r4 c4 n4
  have hl1 : ∀ x, g1.isLive x = g.isLive x := fun x =>
    (Grid.isLive_congr r1 c1 n1 x).trans (hl4 x)
  have hfr : Cell.fresh.resetPath = Cell.fresh := rfl
  have hg0 : ∀ x, g.isLive x = true → g.resetPath.store x = Cell.fresh := by
    intro x hx
    rw [Grid.resetPath_store, hx, if_pos rfl, hf x hx, hfr]
  refine ⟨hst1.trans hst4, hen1, r1.trans r4, c1.trans c4, n1.trans n4, hp1, ?_, ?_, ?_⟩
  · rw [hs1, if_neg hsne, Grid.resetPath_store, hl4, hls, if_pos rfl, hs4, if_pos rfl,
      hg0 _ hls]
    rfl
  · rw [hs1, if_pos rfl, Grid.resetPath_store, hl4, hle, if_pos rfl, hs4,
      if_neg hsne.symm, hg0 _ hle]
    rfl
  · intro c hc hcs hce
    rw [hl1] at hc
    rw [hs1, if_neg hce, Grid.resetPath_store, hl4, hc, if_pos rfl, hs4, if_neg hcs,
      hg0 _ hc]
    rfl

theorem Grid.clear_eq (g : Grid) (draws : List Draw) :
    g.clear draws =
      match draws.find?
        (Grid.initCells { g with startCell := none, endCell := none, pathCells := [] }).validPositions
        with
      | none => none
      | some d =>
        some { ((((Grid.initCells { g with startCell := none, endCell := none, pathCells := [] }
            ).setCellType d.startRow d.startCol .START).1).setCellType
              d.endRow d.endCol .END).1 with
          bunnyPosition := some (d.startRow, d.startCol) } := rfl

/-- The grid that `clear()` of `js/grid.js` returns, described by the accepted pick. -/
theorem Grid.clear_result (g : Grid) (draws : List Draw) (g1 : Grid)
    (h : g.clear draws = some g1) :
    ∃ d ∈ draws,
      (d.startRow < g.rows ∧ d.startCol < g.cols ∧ d.endRow < g.rows ∧ d.endCol < g.cols ∧
        5 ≤ ((d.startRow : Int) - d.endRow).natAbs + ((d.startCol : Int) - d.endCol).natAbs) ∧
      g1.startCell = some ⟨g.gen + 1, d.startRow, d.startCol⟩ ∧
      g1.endCell = some ⟨g.gen + 1, d.endRow, d.endCol⟩ ∧
      g1.rows = g.rows ∧ g1.cols = g.cols ∧ g1.gen = g.gen + 1 ∧ g1.pathCells = [] ∧
      g1.bunnyPosition = some (d.startRow, d.startCol) ∧
      g1.store ⟨g.gen + 1, d.startRow, d.startCol⟩ = { Cell.fresh with type := .START } ∧
      g1.store ⟨g.gen + 1, d.endRow, d.endCol⟩ = { Cell.fresh with type := .END } ∧
      ∀ c, g1.isLive c = true → c ≠ ⟨g.gen + 1, d.startRow, d.startCol⟩ →
        c ≠ ⟨g.gen + 1, d.endRow, d.endCol⟩ → g1.store c = Cell.fresh := by
  rw [Grid.clear_eq] at h
  have hf : ∀ c, (Grid.initCells
      { g with startCell := none, endCell := none, pathCells := [] }).isLive c = true →
      (Grid.initCells { g with startCell := none, endCell := none, pathCells := [] }).store c
        = Cell.fresh := fun c hc => Grid.initCells_store_live _ c hc
  cases hfind : draws.find?
      (Grid.initCells { g with startCell := none, endCell := none, pathCells := [] }).validPositions
    with
  | none => rw [hfind] at h; cases h
  | some d =>
    rw [hfind] at h
    simp only [Option.some.injEq] at h
    have hmem := List.mem_of_find?_eq_some hfind
    have hval := List.find?_some hfind
    rw [Grid.validPositions_fresh _ hf] at hval
    obtain ⟨v1, v2, v3, v4, v5⟩ := hval
    have hne : (d.startRow, d.startCol) ≠ (d.endRow, d.endCol) := by
      intro e
      simp only [Prod.mk.injEq] at e
      have e1 := e.1
      have e2 := e.2
      omega
    obtain ⟨p1, p2, p3, p4, p5, p6, p7, p8, p9⟩ :=
      Grid.place_endpoints _ rfl rfl hf d v1 v2 v3 v4 hne _ rfl
    have hl : ∀ c, g1.isLive c = (((Grid.initCells
        { g with startCell := none, endCell := none, pathCells := [] }).setCellType
          d.startRow d.startCol .START).1.setCellType d.endRow d.endCol .END).1.isLive c := by
      intro c
      rw [← h]
      exact Grid.isLive_congr rfl rfl rfl c
    refine ⟨d, hmem, ⟨v1, v2, v3, v4, v5⟩, ?_, ?_, ?_, ?_, ?_, ?_, ?_, ?_, ?_, ?_⟩
    · rw [← h]; exact p1
    · rw [← h]; exact p2
    · rw [← h]; exact p3
    · rw [← h]; exact p4
    · rw [← h]; exact p5
    · rw [← h]; exact p6
    · rw [← h]
    · rw [← h]; exact p7
    · rw [← h]; exact p8
    · intro c hc h1 h2
      rw [hl] at hc
      rw [← h]
      exact p9 c hc h1 h2

theorem Grid.clear_returns (g : Grid) (draws : List Draw)
    (h : ∃ d ∈ draws, d.startRow < g.rows ∧ d.startCol < g.cols ∧ d.endRow < g.rows ∧
      d.endCol < g.cols ∧
      5 ≤ ((d.startRow : Int) - d.endRow).natAbs + ((d.startCol : Int) - d.endCol).natAbs) :
    ∃ g1, g.clear draws = some g1 := by
  obtain ⟨d, hd, hv⟩ := h
  have hf : ∀ c, (Grid.initCells
      { g with startCell := none, endCell := none, pathCells := [] }).isLive c = true →
      (Grid.initCells { g with startCell := none, endCell := none, pathCells := [] }).store c
        = Cell.fresh := fun c hc => Grid.initCells_store_live _ c hc
  have hval := (Grid.validPositions_fresh _ hf d).mpr hv
  rw [Grid.clear_eq]
  cases hfind : draws.find?
      (Grid.initCells { g with startCell := none, endCell := none, pathCells := [] }).validPositions
    with
  | none =>
    rw [List.find?_eq_none] at hfind
    exact absurd hval (hfind d hd)
  | some d1 => exact ⟨_, rfl⟩

theorem Grid.startParentless_randomizeStartAndEnd (g : Grid) (draws : List Draw) (g1 : Grid)
    (h : g.randomizeStartAndEnd draws = some g1) : g1.StartParentless := by
  unfold Grid.randomizeStartAndEnd at h
  simp only at h
  split at h
  · cases h
  · simp only [Option.some.injEq] at h
    rw [← h]
    have h0 : Grid.StartParentless
        { (match (match g.startCell with
              | some s => g.modify s (fun c => { c with type := .EMPTY })
              | none => g).endCell with
            | some t => (match g.startCell with
                | some s => g.modify s (fun c => { c with type := .EMPTY })
                | none => g).modify t (fun c => { c with type := .EMPTY })
            | none => (match g.startCell with
                | some s => g.modify s (fun c => { c with type := .EMPTY })
                | none => g)) with startCell := none, endCell := none } := by
      intro s hs
      cases hs
    exact Grid.startParentless_setCellType (Grid.startParentless_setCellType h0 _ _ _) _ _ _

theorem Grid.startParentless_clear (g : Grid) (draws : List Draw) (g1 : Grid)
    (h : g.clear draws = some g1) : g1.StartParentless :=
  Grid.startParentless_randomizeStartAndEnd _ draws g1 h

/-- C19, as stated, fails for `clear()` of `js/grid.js`: on a new 6x6 grid, when the
numbers picked are 0, 0, 5, 5, `clear()` returns with the Start reference naming the cell
(0,0), typed START, and the End reference naming the cell (5,5), typed END. -/
theorem clear_sets_references_counterexample :
    ((Grid.new 6 6).clear [⟨0, 0, 5, 5⟩]).map (fun g => g.startCell) =
        some (some ⟨2, 0, 0⟩) ∧
      ((Grid.new 6 6).clear [⟨0, 0, 5, 5⟩]).map (fun g => g.endCell) =
        some (some ⟨2, 5, 5⟩) ∧
      ((Grid.new 6 6).clear [⟨0, 0, 5, 5⟩]).map (fun g => g.getCell 0 0) =
        some (some ⟨2, 0, 0⟩) ∧
      ((Grid.new 6 6).clear [⟨0, 0, 5, 5⟩]).map (fun g => g.getCell 5 5) =
        some (some ⟨2, 5, 5⟩) ∧
      ((Grid.new 6 6).clear [⟨0, 0, 5, 5⟩]).map (fun g => (g.store ⟨2, 0, 0⟩).type) =
        some .START ∧
      ((Grid.new 6 6).clear [⟨0, 0, 5, 5⟩]).map (fun g => (g.store ⟨2, 5, 5⟩).type) =
        some .END := by
  decide!

/-- C19, amended: after `clear()` of `assets/js/grid.js`, every cell of the grid is
freshly allocated with type EMPTY and the Start and End references are both unset.  After
`clear()` of `js/grid.js`, which ends with `randomizeStartAndEnd()`, every cell of the
grid is freshly allocated and Start and End are placed again: the two references name two
cells of the grid at Manhattan distance at least 5, typed START and END, and every other
cell has the fields of a fresh cell, type EMPTY; the call returns as soon as the numbers
picked are in range and name two cells at distance at least 5.  The dimensions are
unchanged in both. -/
theorem clear_effect (g : Grid) (draws : List Draw) :
    ((Assets.clear g).startCell = none ∧ (Assets.clear g).endCell = none ∧
      (Assets.clear g).rows = g.rows ∧ (Assets.clear g).cols = g.cols ∧
      ∀ c, (Assets.clear g).isLive c = true →
        (Assets.clear g).store c = Cell.fresh ∧ g.isLive c = false) ∧
    ((∃ d ∈ draws, d.startRow < g.rows ∧ d.startCol < g.cols ∧ d.endRow < g.rows ∧
        d.endCol < g.cols ∧
        5 ≤ ((d.startRow : Int) - d.endRow).natAbs + ((d.startCol : Int) - d.endCol).natAbs) →
      ∃ g1, g.clear draws = some g1) ∧
    (∀ g1, g.clear draws = some g1 →
      g1.rows = g.rows ∧ g1.cols = g.cols ∧ g1.pathCells = [] ∧
      (∀ c, g1.isLive c = true → g.isLive c = false) ∧
      ∃ s t, g1.startCell = some s ∧ g1.endCell = some t ∧
        g1.isLive s = true ∧ g1.isLive t = true ∧ 5 ≤ manhattan s t ∧
        g1.store s = { Cell.fresh with type := .START } ∧
        g1.store t = { Cell.fresh with type := .END } ∧
        ∀ c, g1.isLive c = true → c ≠ s → c ≠ t → g1.store c = Cell.fresh) := by
  refine ⟨⟨rfl, rfl, rfl, rfl, ?_⟩, Grid.clear_returns g draws, ?_⟩
  · intro c hc
    refine ⟨Grid.initCells_store_live _ c hc, ?_⟩
    rw [Grid.isLive_iff] at hc
    have hgen : c.gen = g.gen + 1 := hc.1
    cases hl : g.isLive c with
    | false => rfl
    | true =>
      rw [Grid.isLive_iff] at hl
      omega
  · intro g1 h
    obtain ⟨d, _, ⟨v1, v2, v3, v4, v5⟩, p1, p2, p3, p4, p5, p6, _, p7, p8, p9⟩ :=
      Grid.clear_result g draws g1 h
    refine ⟨p3, p4, p6, ?_, ⟨g.gen + 1, d.startRow, d.startCol⟩,
      ⟨g.gen + 1, d.endRow, d.endCol⟩, p1, p2, ?_, ?_, ?_, p7, p8, p9⟩
    · intro c hc
      rw [Grid.isLive_iff] at hc
      cases hl : g.isLive c with
      | false => rfl
      | true =>
        rw [Grid.isLive_iff] at hl
        omega
    · rw [Grid.isLive_iff, p3, p4]; exact ⟨p5.symm, v1, v2⟩
    · rw [Grid.isLive_iff, p3, p4]; exact ⟨p5.symm, v3, v4⟩
    · exact v5

theorem gridWithEndpoints_clear_returns :
    (gridWithEndpoints.clear exampleDraws).isSome = true := by
  decide!

theorem clear_effect_witness :
    (∃ g1, gridWithEndpoints.clear exampleDraws = some g1) ∧
    (((gridWithEndpoints.clear exampleDraws).get gridWithEndpoints_clear_returns).rows =
        gridWithEndpoints.rows ∧
      ((gridWithEndpoints.clear exampleDraws).get gridWithEndpoints_clear_returns).cols =
        gridWithEndpoints.cols ∧
      ((gridWithEndpoints.clear exampleDraws).get gridWithEndpoints_clear_returns).pathCells
        = [] ∧
      (∀ c, ((gridWithEndpoints.clear exampleDraws).get
          gridWithEndpoints_clear_returns).isLive c = true →
        gridWithEndpoints.isLive c = false) ∧
      ∃ s t,
        ((gridWithEndpoints.clear exampleDraws).get gridWithEndpoints_clear_returns).startCell
          = some s ∧
        ((gridWithEndpoints.clear exampleDraws).get gridWithEndpoints_clear_returns).endCell
          = some t ∧
        ((gridWithEndpoints.clear exampleDraws).get gridWithEndpoints_clear_returns).isLive s
          = true ∧
        ((gridWithEndpoints.clear exampleDraws).get gridWithEndpoints_clear_returns).isLive t
          = true ∧
        5 ≤ manhattan s t ∧
        ((gridWithEndpoints.clear exampleDraws).get gridWithEndpoints_clear_returns).store s
          = { Cell.fresh with type := .START } ∧
        ((gridWithEndpoints.clear exampleDraws).get gridWithEndpoints_clear_returns).store t
          = { Cell.fresh with type := .END } ∧
        ∀ c, ((gridWithEndpoints.clear exampleDraws).get
            gridWithEndpoints_clear_returns).isLive c = true →
          c ≠ s → c ≠ t →
          ((gridWithEndpoints.clear exampleDraws).get gridWithEndpoints_clear_returns).store c
            = Cell.fresh) :=
  ⟨(clear_effect gridWithEndpoints exampleDraws).2.1
      ⟨⟨1, 2, 5, 5⟩, by decide, by decide!⟩,
    (clear_effect gridWithEndpoints exampleDraws).2.2 _ (Option.some_get _).symm⟩

/-! ## Cancelled runs -/

/-- C20 on Scenario D (3x3, Start (1,0), End (1,2), obstacle (1,1)), with `stop()` called
once during the run.  When it is called during the sixth delay, the last one of the search
loop, the run returns null and `onPathFound` is not invoked.  When it is called during the
seventh delay, the first one of the loop of `reconstructPath`, that loop is left after one
cell, and the run still invokes `onPathFound` with the four cells of the path and returns
them, for `runDijkstra` and for `runAStar`; only the cell (0,0) has been typed PATH. -/
theorem stop_during_reveal_fires_onPathFound :
    (runDijkstra 12 (stopAt 5) scenarioD).map (fun r => (r.path, r.events)) =
      some (none, [Event.nodeVisited ⟨1, 0, 0⟩, Event.nodeVisited ⟨1, 2, 0⟩,
        Event.nodeVisited ⟨1, 0, 1⟩, Event.nodeVisited ⟨1, 2, 1⟩,
        Event.nodeVisited ⟨1, 0, 2⟩, Event.nodeVisited ⟨1, 2, 2⟩]) ∧
    (runDijkstra 12 (stopAt 6) scenarioD).map
        (fun r => (r.path, r.events, r.engine.shouldStop)) =
      some (some [⟨1, 0, 0⟩, ⟨1, 0, 1⟩, ⟨1, 0, 2⟩, ⟨1, 1, 2⟩],
        [Event.nodeVisited ⟨1, 0, 0⟩, Event.nodeVisited ⟨1, 2, 0⟩,
          Event.nodeVisited ⟨1, 0, 1⟩, Event.nodeVisited ⟨1, 2, 1⟩,
          Event.nodeVisited ⟨1, 0, 2⟩, Event.nodeVisited ⟨1, 2, 2⟩,
          Event.nodeVisited ⟨1, 0, 0⟩,
          Event.pathFound [⟨1, 0, 0⟩, ⟨1, 0, 1⟩, ⟨1, 0, 2⟩, ⟨1, 1, 2⟩]], true) ∧
    (runAStar 12 (stopAt 6) scenarioD).map
        (fun r => (r.path, r.events, r.engine.shouldStop)) =
      some (some [⟨1, 0, 0⟩, ⟨1, 0, 1⟩, ⟨1, 0, 2⟩, ⟨1, 1, 2⟩],
        [Event.nodeVisited ⟨1, 0, 0⟩, Event.nodeVisited ⟨1, 2, 0⟩,
          Event.nodeVisited ⟨1, 0, 1⟩, Event.nodeVisited ⟨1, 2, 1⟩,
          Event.nodeVisited ⟨1, 0, 2⟩, Event.nodeVisited ⟨1, 2, 2⟩,
          Event.nodeVisited ⟨1, 0, 0⟩,
          Event.pathFound [⟨1, 0, 0⟩, ⟨1, 0, 1⟩, ⟨1, 0, 2⟩, ⟨1, 1, 2⟩]], true) ∧
    (runDijkstra 12 (stopAt 6) scenarioD).map
        (fun r => [(r.engine.grid.store ⟨1, 0, 0⟩).type, (r.engine.grid.store ⟨1, 0, 1⟩).type,
          (r.engine.grid.store ⟨1, 0, 2⟩).type, (r.engine.grid.store ⟨1, 1, 2⟩).type]) =
      some [.PATH, .VISITED, .VISITED, .END] := by
  decide!

/-! ## The heuristic -/

theorem calculateHeuristic_step (a b t : CellId) (h : manhattan a b = 1) :
    calculateHeuristic a t ≤ 1 + calculateHeuristic b t := by
  unfold manhattan at h
  unfold calculateHeuristic
  omega

theorem calculateHeuristic_chain (t : CellId) :
    ∀ (p : List CellId) (a : CellId), List.Chain' (fun x y => manhattan x y = 1) (a :: p) →
      (a :: p).getLast? = some t → calculateHeuristic a t ≤ p.length := by
  intro p
  induction p with
  | nil =>
    intro a _ hl
    simp only [List.getLast?_singleton, Option.some.injEq] at hl
    subst hl
    simp [calculateHeuristic]
  | cons b p ih =>
    intro a hch hl
    rw [List.chain'_cons] at hch
    have hl2 : (b :: p).getLast? = some t := by
      rw [List.getLast?_cons_cons] at hl
      exact hl
    have h1 := ih b hch.2 hl2
    have h2 := calculateHeuristic_step a b t hch.1
    simp only [List.length_cons]
    omega

/-- C22: `calculateHeuristic(a, b)` is `|a.row - b.row| + |a.col - b.col|`, and as the
estimate towards End it is consistent and admissible: it is 0 at End, it grows by at most
1 from a cell to a 4-adjacent cell, and so it is at most the number of edges (cells minus
one) of every sequence of successively 4-adjacent cells from `a` to End, in particular of
every 4-directional route of a grid. -/
theorem calculateHeuristic_admissible (a b t : CellId) :
    calculateHeuristic a b =
        ((a.row : Int) - b.row).natAbs + ((a.col : Int) - b.col).natAbs ∧
      calculateHeuristic t t = 0 ∧
      (manhattan a b = 1 → calculateHeuristic a t ≤ 1 + calculateHeuristic b t) ∧
      (∀ p : List CellId, p.head? = some a → p.getLast? = some t →
        List.Chain' (fun x y => manhattan x y = 1) p → calculateHeuristic a t ≤ p.length - 1) ∧
      (∀ (g : Grid) (p : List CellId), IsRoute g a t p →
        calculateHeuristic a t ≤ p.length - 1) := by
  have hchain : ∀ p : List CellId, p.head? = some a → p.getLast? = some t →
      List.Chain' (fun x y => manhattan x y = 1) p → calculateHeuristic a t ≤ p.length - 1 := by
    intro p hh hl hc
    cases p with
    | nil => cases hh
    | cons x p =>
      simp only [List.head?_cons, Option.some.injEq] at hh
      subst hh
      simpa using calculateHeuristic_chain t p x hc hl
  refine ⟨rfl, by simp [calculateHeuristic], calculateHeuristic_step a b t, hchain, ?_⟩
  intro g p hr
  obtain ⟨hh, hl, hc⟩ := hr
  apply hchain p hh hl
  exact hc.imp (fun _ _ h => h.2.2)

/-! ## Canvas coordinates -/

/-- What `canvasToGridCoordinates` guarantees for a positive cell size: a returned pair
satisfies `0 <= row <= rows` and `0 <= col <= cols`, both upper bounds included. -/
theorem canvasToGridCoordinates_range (r : GridRenderer) (hcs : 0 < r.cellSize)
    (canvasX canvasY : ℚ) (row col : Int)
    (h : r.canvasToGridCoordinates canvasX canvasY = some (row, col)) :
    0 ≤ row ∧ row ≤ r.grid.rows ∧ 0 ≤ col ∧ col ≤ r.grid.cols := by
  unfold GridRenderer.canvasToGridCoordinates at h
  split_ifs at h with hg
  simp only [not_or, not_lt, gt_iff_lt, Option.some.injEq, Prod.mk.injEq] at hg h
  obtain ⟨hx1, hx2, hy1, hy2⟩ := hg
  obtain ⟨hr, hc⟩ := h
  have floor_range : ∀ (x o : ℚ) (n : Nat), o ≤ x → x ≤ o + n * r.cellSize →
      0 ≤ Rat.floor ((x - o) / r.cellSize) ∧ Rat.floor ((x - o) / r.cellSize) ≤ n := by
    intro x o n h1 h2
    have e : Rat.floor ((x - o) / r.cellSize) = ⌊(x - o) / r.cellSize⌋ := rfl
    rw [e]
    constructor
    · apply Int.floor_nonneg.mpr
      apply div_nonneg
      · linarith
      · exact le_of_lt hcs
    · have h3 : (x - o) / r.cellSize ≤ n := by
        rw [div_le_iff₀ hcs]
        linarith
      have := Int.floor_le_floor h3
      simpa using this
  have hrow := floor_range canvasY r.offsetY r.grid.rows hy1 hy2
  have hcol := floor_range canvasX r.offsetX r.grid.cols hx1 hx2
  rw [hr] at hrow
  rw [hc] at hcol
  exact ⟨hrow.1, hrow.2, hcol.1, hcol.2⟩

/-- C30 on a concrete renderer: a 6 x 6 grid drawn with cells of size 100 from x = 100 to
x = 700.  For the canvas point (700, 0), on the far edge of the grid, the bounds test
lets the point through and `canvasToGridCoordinates` returns row 0, column 6, which is
not a position of the grid: `getCell(0, 6)` is null. -/
theorem canvasToGridCoordinates_far_edge :
    rendererExample.canvasToGridCoordinates 700 0 = some (0, 6) ∧
      rendererExample.grid.cols = 6 ∧ 0 < rendererExample.cellSize ∧
      rendererExample.grid.getCell 0 6 = none := by
  decide!

/-! ## The bunny -/

/-- C28 on Scenario A (5x5, Start (0,0), End (4,4)): when `visualizePath` passes the path
returned by `runDijkstra` or `runAStar` to `setPath`, the bunny stands on Start (0,0), the
node that `setPath` removes is (1,0), the cell after Start, and the first target is
(2,0), two cells from Start: the first move of the walk is not between 4-adjacent
cells and the bunny never stands on (1,0). -/
theorem bunny_first_move_skips_a_cell :
    (runDijkstra 27 noStop scenarioA).map
        (fun r => (r.path.getD []).head?) = some (some ⟨1, 1, 0⟩) ∧
    (runDijkstra 27 noStop scenarioA).map
        (fun r => ((visualizePath r.engine.grid BunnyCharacter.new (r.path.getD [])).currentPosition,
          (visualizePath r.engine.grid BunnyCharacter.new (r.path.getD [])).targetPosition)) =
      some (some (0, 0), some (2, 0)) ∧
    (runDijkstra 27 noStop scenarioA).map
        (fun r => (visualizePath r.engine.grid BunnyCharacter.new (r.path.getD [])).moves 20) =
      some [((0, 0), (2, 0)), ((2, 0), (3, 0)), ((3, 0), (4, 0)), ((4, 0), (4, 1)),
        ((4, 1), (4, 2)), ((4, 2), (4, 3)), ((4, 3), (4, 4))] ∧
    (runAStar 27 noStop scenarioA).map
        (fun r => (visualizePath r.engine.grid BunnyCharacter.new (r.path.getD [])).moves 20) =
      some [((0, 0), (2, 0)), ((2, 0), (3, 0)), ((3, 0), (4, 0)), ((4, 0), (4, 1)),
        ((4, 1), (4, 2)), ((4, 2), (4, 3)), ((4, 3), (4, 4))] := by
  decide!

/-! ## The sequence of `onNodeVisited` invocations -/

theorem visitedCells_append (l1 l2 : List Event) :
    visitedCells (l1 ++ l2) = visitedCells l1 ++ visitedCells l2 := by
  induction l1 with
  | nil => rfl
  | cons x l ih =>
    cases x with
    | nodeVisited c => simp [visitedCells, ih]
    | pathFound p => simp [visitedCells, ih]

theorem visitedCells_map (l : List CellId) : visitedCells (l.map Event.nodeVisited) = l := by
  induction l with
  | nil => rfl
  | cons x l ih => simp [visitedCells, ih]

theorem markVisited_events (stops : Nat → Bool) (s t u : CellId) (st : Search) :
    (markVisited stops s t u st).events =
      if u ≠ s ∧ u ≠ t then st.events ++ [Event.nodeVisited u] else st.events := by
  unfold markVisited; split_ifs <;> rfl

/-- The loop ends at some evaluation of its condition. -/
theorem searchLoop_last (stops : Nat → Bool) :
    ∀ (fuel : Nat) (st : Search) (res : StepResult),
      searchLoop alg stops s t fuel st = some res →
      ∃ n a, n < fuel ∧ searchStates alg stops s t n st = some a ∧
        searchStep alg stops s t a = res ∧
        ((∃ x, res = .found x) ∨ (∃ x, res = .exhausted x)) := by
  intro fuel
  induction fuel with
  | zero => intro st res h; cases h
  | succ f ih =>
    intro st res h
    unfold searchLoop at h
    cases hstep : searchStep alg stops s t st with
    | next st1 =>
      rw [hstep] at h
      obtain ⟨n, a, hn, ha, hr, hk⟩ := ih st1 res h
      refine ⟨n + 1, a, by omega, ?_, hr, hk⟩
      unfold searchStates
      rw [hstep]
      exact ha
    | found st1 =>
      rw [hstep] at h
      simp only [Option.some.injEq] at h
      subst h
      exact ⟨0, st, by omega, rfl, hstep, Or.inl ⟨_, rfl⟩⟩
    | exhausted st1 =>
      rw [hstep] at h
      simp only [Option.some.injEq] at h
      subst h
      exact ⟨0, st, by omega, rfl, hstep, Or.inr ⟨_, rfl⟩⟩

/-- The loop reaches every evaluation of its condition that `searchStates` describes. -/
theorem searchLoop_of_states (stops : Nat → Bool) :
    ∀ (n : Nat) (st a : Search) (res : StepResult),
      searchStates alg stops s t n st = some a →
      searchStep alg stops s t a = res →
      ((∃ x, res = .found x) ∨ (∃ x, res = .exhausted x)) →
      ∀ fuel, n < fuel → searchLoop alg stops s t fuel st = some res := by
  intro n
  induction n with
  | zero =>
    intro st a res ha hr hk fuel hf
    simp only [searchStates, Option.some.injEq] at ha
    subst ha
    obtain ⟨f, rfl⟩ : ∃ f, fuel = f + 1 := ⟨fuel - 1, by omega⟩
    unfold searchLoop
    rcases hk with ⟨x, rfl⟩ | ⟨x, rfl⟩ <;> rw [hr]
  | succ n ih =>
    intro st a res ha hr hk fuel hf
    obtain ⟨f, rfl⟩ : ∃ f, fuel = f + 1 := ⟨fuel - 1, by omega⟩
    unfold searchStates at ha
    unfold searchLoop
    cases hstep : searchStep alg stops s t st with
    | next st1 =>
      rw [hstep] at ha
      exact ih st1 a res ha hr hk f (by omega)
    | found st1 => rw [hstep] at ha; cases ha
    | exhausted st1 => rw [hstep] at ha; cases ha

/-- At every evaluation of the loop condition, `onNodeVisited` has been invoked once for
each cell of the closed set other than the start cell, in the order of insertion, and
the closed set has received one cell per iteration. -/
theorem searchStates_events (stops : Nat → Bool) :
    ∀ (n : Nat) (st a : Search), searchStates alg stops s t n st = some a →
      st.events = (st.closedSet.reverse.filter (fun c => decide (c ≠ s))).map
        Event.nodeVisited →
      a.events = (a.closedSet.reverse.filter (fun c => decide (c ≠ s))).map
        Event.nodeVisited ∧ a.closedSet.length = st.closedSet.length + n := by
  intro n
  induction n with
  | zero =>
    intro st a ha h
    simp only [searchStates, Option.some.injEq] at ha
    subst ha
    exact ⟨h, rfl⟩
  | succ n ih =>
    intro st a ha h
    unfold searchStates at ha
    cases hstep : searchStep alg stops s t st with
    | next st1 =>
      rw [hstep] at ha
      obtain ⟨u, rest, _, hut, _, hst1⟩ := searchStep_next hstep
      have hcl : st1.closedSet = u :: st.closedSet := by
        rw [hst1, foldl_relax_closedSet, markVisited_closedSet]
      have hev : st1.events =
          if u ≠ s ∧ u ≠ t then st.events ++ [Event.nodeVisited u] else st.events := by
        rw [hst1, foldl_relax_events, markVisited_events]
      have h1 : st1.events = (st1.closedSet.reverse.filter (fun c => decide (c ≠ s))).map
          Event.nodeVisited := by
        rw [hev, hcl, List.reverse_cons, List.filter_append, List.map_append, ← h]
        by_cases hus : u = s
        · simp [hus]
        · simp [hus, hut]
      obtain ⟨e1, e2⟩ := ih st1 a ha h1
      refine ⟨e1, ?_⟩
      rw [e2, hcl, List.length_cons]
      omega
    | found st1 => rw [hstep] at ha; cases ha
    | exhausted st1 => rw [hstep] at ha; cases ha

/-- The invocations of the loop of `reconstructPath` in a run that is not cancelled: one
for each cell of the path whose type is neither START nor END. -/
theorem revealPath_events (stops : Nat → Bool) (hstops : ∀ k, stops k = false)
    (path : List CellId) :
    ∀ st : Search, st.shouldStop = false →
      (revealPath stops path st).events = st.events ++
        (path.filter (fun c => decide ((st.grid.store c).type ≠ .START ∧
          (st.grid.store c).type ≠ .END))).map Event.nodeVisited := by
  induction path with
  | nil => intro st _; simp [revealPath]
  | cons c cs ih =>
    intro st hss
    by_cases h2 : (st.grid.store c).type ≠ .START ∧ (st.grid.store c).type ≠ .END
    · rw [revealPath_cons_mark stops c cs hss h2]
      rw [ih _ (by simp [hss, hstops])]
      have hf : cs.filter (fun x => decide (((st.grid.modify c
            (fun c => { c with type := .PATH })).store x).type ≠ .START ∧
          ((st.grid.modify c (fun c => { c with type := .PATH })).store x).type ≠ .END)) =
          cs.filter (fun x => decide ((st.grid.store x).type ≠ .START ∧
            (st.grid.store x).type ≠ .END)) := by
        apply List.filter_congr
        intro x _
        simp only [Grid.modify_store]
        by_cases hx : x = c
        · subst hx
          simp [h2.1, h2.2]
        · simp [hx]
      simp only [hf, List.filter_cons, h2, decide_True, if_true, List.map_cons,
        List.append_assoc, List.singleton_append, ne_eq, not_false_eq_true, and_self]
    · rw [revealPath_cons_skip stops c cs hss h2, ih st hss]
      simp only [List.filter_cons]
      have : decide ((st.grid.store c).type ≠ .START ∧ (st.grid.store c).type ≠ .END)
          = false := by simpa using h2
      rw [this]
      simp

/-- The anatomy of a run that returns: the loop is left at its `n`-th evaluation of the
condition, in a state `a` that satisfies the invariant, either with null or with the end
cell taken from the open set. -/
theorem runSearch_anatomy {fuel : Nat} {stops : Nat → Bool} {e : Engine} {r : RunResult}
    (hc : Consistent alg e.grid t)
    (hs : e.grid.startCell = some s) (ht : e.grid.endCell = some t)
    (h : runSearch alg fuel stops e = some r) :
    ∃ n a, n < fuel ∧ searchStates alg stops s t n (initSearch alg e s t) = some a ∧
      Inv alg e.grid s t (fun _ _ => True) a ∧
      a.events = (a.closedSet.reverse.filter (fun c => decide (c ≠ s))).map
        Event.nodeVisited ∧
      a.closedSet.length = n ∧
      ((searchStep alg stops s t a = .exhausted a ∧
          finalSearch alg fuel stops e = some a ∧
          r = { path := none
                engine := { grid := a.grid, isRunning := false, shouldStop := a.shouldStop }
                events := a.events }) ∨
        (∃ rest path, searchStep alg stops s t a = .found { a with openSet := rest } ∧
          t ∈ a.openSet ∧ a.shouldStop = false ∧
          finalSearch alg fuel stops e = some { a with openSet := rest } ∧
          parentWalk a.grid.store fuel t [] = some path ∧
          r = { path := some path
                engine := { grid := (revealPath stops path { a with openSet := rest }).grid
                            isRunning := false
                            shouldStop :=
                              (revealPath stops path { a with openSet := rest }).shouldStop }
                events := (revealPath stops path { a with openSet := rest }).events ++
                  [Event.pathFound path] })) := by
  have hfin : ∀ res, searchLoop alg stops s t fuel (initSearch alg e s t) = some res →
      finalSearch alg fuel stops e = match res with
        | .exhausted st => some st
        | .found st => some st
        | .next _ => none := by
    intro res hres
    unfold finalSearch
    rw [hs, ht]
    simp only [hres]
    cases res <;> rfl
  have hinit := inv_initSearch alg e s t
  have hev0 : (initSearch alg e s t).events =
      ((initSearch alg e s t).closedSet.reverse.filter (fun c => decide (c ≠ s))).map
        Event.nodeVisited := by
    simp [initSearch]
  rcases runSearch_cases hs ht h with ⟨stf, hl, hr⟩ | ⟨st1, path, hl, hw, hr⟩
  · obtain ⟨n, a, hn, ha, hstep, _⟩ := searchLoop_last stops fuel _ _ hl
    obtain ⟨rfl, _⟩ := searchStep_exhausted hstep
    obtain ⟨e1, e2⟩ := searchStates_events stops n _ _ ha hev0
    refine ⟨n, stf, hn, ha, searchStates_inv stops hc n _ _ hinit ha, e1, ?_, Or.inl ⟨hstep, ?_, hr⟩⟩
    · simpa [initSearch] using e2
    · rw [hfin _ hl]
  · obtain ⟨n, a, hn, ha, hstep, _⟩ := searchLoop_last stops fuel _ _ hl
    obtain ⟨rest, hsort, hss, rfl⟩ := searchStep_found hstep
    obtain ⟨e1, e2⟩ := searchStates_events stops n _ _ ha hev0
    have hto : t ∈ a.openSet :=
      (sortCells_head hsort).1.mem_iff.mp (List.mem_cons_self _ _)
    refine ⟨n, a, hn, ha, searchStates_inv stops hc n _ _ hinit ha, e1, ?_,
      Or.inr ⟨rest, path, hstep, hto, hss, ?_, hw, hr⟩⟩
    · simpa [initSearch] using e2
    · rw [hfin _ hl]

/-- C21, as stated, fails: in the uncancelled `runDijkstra()` on Scenario D the expanded
cells are (1,0) (Start), (0,0), (2,0), (0,1), (2,1), (0,2), (2,2), and `onNodeVisited` is
invoked nine times: once for each of the six expanded cells other than Start, and then
once more for (0,0), (0,1) and (0,2), the cells of the returned path before End. -/
theorem onNodeVisited_twice_counterexample :
    expandedCells .dijkstra 12 noStop scenarioD =
        some [⟨1, 1, 0⟩, ⟨1, 0, 0⟩, ⟨1, 2, 0⟩, ⟨1, 0, 1⟩, ⟨1, 2, 1⟩, ⟨1, 0, 2⟩, ⟨1, 2, 2⟩] ∧
      (runDijkstra 12 noStop scenarioD).map (fun r => visitedCells r.events) =
        some [⟨1, 0, 0⟩, ⟨1, 2, 0⟩, ⟨1, 0, 1⟩, ⟨1, 2, 1⟩, ⟨1, 0, 2⟩, ⟨1, 2, 2⟩,
          ⟨1, 0, 0⟩, ⟨1, 0, 1⟩, ⟨1, 0, 2⟩] ∧
      (runDijkstra 12 noStop scenarioD).map (fun r => r.path) =
        some (some [⟨1, 0, 0⟩, ⟨1, 0, 1⟩, ⟨1, 0, 2⟩, ⟨1, 1, 2⟩]) := by
  decide!

/-- C21, amended: in every uncancelled run of `runDijkstra` or `runAStar` (the Start
reference naming a cell of the grid or an object without parent), the sequence of
`onNodeVisited` invocations consists of each expanded cell other than Start and End
exactly once, in the order of expansion, followed, when a path is returned, by one
invocation of the loop of `reconstructPath` for each cell of the returned path other
than End, in the order of the path (and one for End as well when the type of the End
cell is neither START nor END); it contains no other invocation.  The expanded cells
are pairwise distinct and End is not among them. -/
theorem onNodeVisited_sequence (alg : Algorithm) (fuel : Nat) (e : Engine) (s t : CellId)
    (r : RunResult)
    (halg : alg = .dijkstra ∨ alg = .astar calculateHeuristic)
    (hs : e.grid.startCell = some s) (ht : e.grid.endCell = some t)
    (hsane : StartSane e.grid s)
    (hrun : runSearch alg fuel noStop e = some r) :
    ∃ expanded, expandedCells alg fuel noStop e = some expanded ∧
      expanded.Nodup ∧ t ∉ expanded ∧
      visitedCells r.events =
        expanded.filter (fun c => decide (c ≠ s ∧ c ≠ t)) ++
          (r.path.getD []).filter (fun c => decide (c ≠ t ∨
            ((e.grid.store t).type ≠ .START ∧ (e.grid.store t).type ≠ .END))) := by
  have hc : Consistent alg e.grid t := by
    rcases halg with rfl | rfl
    · exact consistent_dijkstra e.grid t
    · exact consistent_astar e.grid t
  obtain ⟨n, a, _, _, hi, hev, _, hcase⟩ := runSearch_anatomy hc hs ht hrun
  have hfilt : a.closedSet.reverse.filter (fun c => decide (c ≠ s ∧ c ≠ t)) =
      a.closedSet.reverse.filter (fun c => decide (c ≠ s)) := by
    apply List.filter_congr
    intro c hcm
    have hct : c ≠ t := fun e => hi.end_open (e ▸ List.mem_reverse.mp hcm)
    simp [hct]
  have hnd : a.closedSet.reverse.Nodup := List.nodup_reverse.mpr hi.closed_nodup
  have hte : t ∉ a.closedSet.reverse := fun h => hi.end_open (List.mem_reverse.mp h)
  rcases hcase with ⟨_, hfin, hr⟩ | ⟨rest, path, _, hto, hss, hfin, hw, hr⟩
  · refine ⟨a.closedSet.reverse, by simp [expandedCells, hfin], hnd, hte, ?_⟩
    rw [hr]
    simp only [Option.getD_none, List.filter_nil, List.append_nil]
    rw [hev, visitedCells_map, hfilt]
  · refine ⟨a.closedSet.reverse, by simp [expandedCells, hfin], hnd, hte, ?_⟩
    obtain ⟨k, hk⟩ := hi.finite t (Or.inl hto)
    obtain ⟨_, _, _, _, hmem⟩ := parentWalk_path hi hsane (Or.inl hto) hk hw
    have hrev := revealPath_events noStop (fun _ => rfl) path { a with openSet := rest } hss
    rw [hr]
    simp only [Option.getD_some]
    rw [visitedCells_append, hrev, visitedCells_append, visitedCells_map]
    simp only [hev, visitedCells_map, hfilt, visitedCells, List.append_nil]
    congr 1
    apply List.filter_congr
    intro c hcm
    obtain ⟨hcs, hcl⟩ := hmem c hcm
    by_cases hct : c = t
    · subst hct
      rw [hi.untouched c (Or.inl hi.end_open)]
      simp
    · have hcc : c ∈ a.closedSet := hcl.resolve_left hct
      have hv : (a.grid.store c).type = .VISITED := hi.visited c hcc hcs
      simp [hv, hct]

theorem onNodeVisited_sequence_witness :
    ∃ expanded, expandedCells .dijkstra 12 noStop scenarioD = some expanded ∧
      expanded.Nodup ∧ (⟨1, 1, 2⟩ : CellId) ∉ expanded ∧
      visitedCells ((runDijkstra 12 noStop scenarioD).get scenarioD_dijkstra_returns).events =
        expanded.filter (fun c => decide (c ≠ ⟨1, 1, 0⟩ ∧ c ≠ ⟨1, 1, 2⟩)) ++
          (((runDijkstra 12 noStop scenarioD).get scenarioD_dijkstra_returns).path.getD
            []).filter (fun c => decide (c ≠ ⟨1, 1, 2⟩ ∨
              ((scenarioD.grid.store ⟨1, 1, 2⟩).type ≠ .START ∧
                (scenarioD.grid.store ⟨1, 1, 2⟩).type ≠ .END))) :=
  have hrun : runSearch .dijkstra 12 noStop scenarioD =
      some ((runDijkstra 12 noStop scenarioD).get scenarioD_dijkstra_returns) :=
    (Option.some_get scenarioD_dijkstra_returns).symm
  have hs : scenarioD.grid.startCell = some ⟨1, 1, 0⟩ := by decide!
  have ht : scenarioD.grid.endCell = some ⟨1, 1, 2⟩ := by decide!
  have hsane : StartSane scenarioD.grid ⟨1, 1, 0⟩ := by decide!
  onNodeVisited_sequence .dijkstra 12 scenarioD ⟨1, 1, 0⟩ ⟨1, 1, 2⟩
    ((runDijkstra 12 noStop scenarioD).get scenarioD_dijkstra_returns)
    (Or.inl rfl) hs ht hsane hrun

/-! ## Obstacles -/

theorem revealPath_store_of_not_mem (stops : Nat → Bool) (path : List CellId) :
    ∀ (st : Search) (x : CellId), x ∉ path →
      (revealPath stops path st).grid.store x = st.grid.store x := by
  induction path with
  | nil => intro st x _; rfl
  | cons c cs ih =>
    intro st x hx
    have hxc : x ≠ c := fun e => hx (e ▸ List.mem_cons_self _ _)
    have hxcs : x ∉ cs := fun h => hx (List.mem_cons_of_mem _ h)
    cases hss : st.shouldStop with
    | true => rw [revealPath_cons_stop stops c cs hss]
    | false =>
      by_cases h2 : (st.grid.store c).type ≠ .START ∧ (st.grid.store c).type ≠ .END
      · rw [revealPath_cons_mark stops c cs hss h2, ih _ x hxcs]
        simp only [Grid.modify_store, hxc, if_false]
      · rw [revealPath_cons_skip stops c cs hss h2, ih st x hxcs]

/-- In a state of the loop no Obstacle is in the open or closed set, and an Obstacle of
the grid other than the start cell has its type, `g = Infinity` and no parent. -/
theorem Inv.obstacle_unseen {P : CellId → CellId → Prop} {st : Search}
    (h : Inv alg g0 s t P st) (hso : (g0.store s).type ≠ .OBSTACLE) (c : CellId)
    (hco : (g0.store c).type = .OBSTACLE) :
    c ∉ st.openSet ∧ c ∉ st.closedSet ∧ (st.grid.store c).type = .OBSTACLE ∧
      (g0.isLive c = true → (st.grid.store c).g = .inf ∧ (st.grid.store c).parent = none) := by
  have hcs : c ≠ s := fun e => hso (e ▸ hco)
  have hunseen : ¬ (c ∈ st.openSet ∨ c ∈ st.closedSet) := by
    intro hv
    obtain ⟨p, _, _, hn, _⟩ := h.tree c hv hcs
    exact ((mem_getNeighbors_iff g0 p c).mp hn).2.1 hco
  have h1 : c ∉ st.openSet := fun hh => hunseen (Or.inl hh)
  have h2 : c ∉ st.closedSet := fun hh => hunseen (Or.inr hh)
  exact ⟨h1, h2, (h.obst c).mpr hco, fun hl => h.unseen c hl h1 h2⟩

/-- C23: on a grid whose Start cell is not an Obstacle (the Start reference naming a cell
of the grid or an object without parent), in any run of `runDijkstra` or `runAStar`,
cancelled or not, no cell of type OBSTACLE is ever in the open set or in the closed set,
so none is marked VISITED or relaxed: at every evaluation of the loop condition and in
the grid that the run leaves, every Obstacle cell of the grid still has type OBSTACLE,
`g = Infinity` and no parent. -/
theorem obstacles_never_touched (alg : Algorithm) (stops : Nat → Bool) (e : Engine)
    (s t : CellId)
    (halg : alg = .dijkstra ∨ alg = .astar calculateHeuristic)
    (hs : e.grid.startCell = some s) (ht : e.grid.endCell = some t)
    (hsane : StartSane e.grid s) (hso : (e.grid.store s).type ≠ .OBSTACLE) :
    (∀ n a, searchStates alg stops s t n (initSearch alg e s t) = some a →
      ∀ c, e.grid.isLive c = true → (e.grid.store c).type = .OBSTACLE →
        c ∉ a.openSet ∧ c ∉ a.closedSet ∧ (a.grid.store c).type = .OBSTACLE ∧
          (a.grid.store c).g = .inf ∧ (a.grid.store c).parent = none) ∧
    (∀ fuel r, runSearch alg fuel stops e = some r →
      ∀ c, e.grid.isLive c = true → (e.grid.store c).type = .OBSTACLE →
        (r.engine.grid.store c).type = .OBSTACLE ∧ (r.engine.grid.store c).g = .inf ∧
          (r.engine.grid.store c).parent = none) := by
  have hc : Consistent alg e.grid t := by
    rcases halg with rfl | rfl
    · exact consistent_dijkstra e.grid t
    · exact consistent_astar e.grid t
  constructor
  · intro n a ha c hl hco
    have hi := searchStates_inv stops hc n _ _ (inv_initSearch alg e s t) ha
    obtain ⟨h1, h2, h3, h4⟩ := hi.obstacle_unseen hso c hco
    exact ⟨h1, h2, h3, (h4 hl).1, (h4 hl).2⟩
  · intro fuel r hrun c hl hco
    obtain ⟨n, a, _, _, hi, _, _, hcase⟩ := runSearch_anatomy hc hs ht hrun
    obtain ⟨h1, h2, h3, h4⟩ := hi.obstacle_unseen hso c hco
    rcases hcase with ⟨_, _, hr⟩ | ⟨rest, path, _, hto, _, _, hw, hr⟩
    · rw [hr]
      exact ⟨h3, (h4 hl).1, (h4 hl).2⟩
    · obtain ⟨k, hk⟩ := hi.finite t (Or.inl hto)
      obtain ⟨_, _, _, _, hmem⟩ := parentWalk_path hi hsane (Or.inl hto) hk hw
      have hcp : c ∉ path := by
        intro hcm
        rcases (hmem c hcm).2 with e1 | e1
        · exact h1 (e1 ▸ hto)
        · exact h2 e1
      have hf := (revealPath_frame stops path { a with openSet := rest }).2.2.2.2.2 c
      have hst := revealPath_store_of_not_mem stops path { a with openSet := rest } c hcp
      rw [hr]
      refine ⟨?_, ?_, ?_⟩
      · show ((revealPath stops path { a with openSet := rest }).grid.store c).type = _
        rw [hst]; exact h3
      · exact hf.1.trans (h4 hl).1
      · exact hf.2.trans (h4 hl).2

theorem obstacles_never_touched_witness :
    (∀ n a, searchStates .dijkstra noStop ⟨1, 1, 0⟩ ⟨1, 1, 2⟩ n
        (initSearch .dijkstra scenarioD ⟨1, 1, 0⟩ ⟨1, 1, 2⟩) = some a →
      ∀ c, scenarioD.grid.isLive c = true → (scenarioD.grid.store c).type = .OBSTACLE →
        c ∉ a.openSet ∧ c ∉ a.closedSet ∧ (a.grid.store c).type = .OBSTACLE ∧
          (a.grid.store c).g = .inf ∧ (a.grid.store c).parent = none) ∧
    (∀ fuel r, runSearch .dijkstra fuel noStop scenarioD = some r →
      ∀ c, scenarioD.grid.isLive c = true → (scenarioD.grid.store c).type = .OBSTACLE →
        (r.engine.grid.store c).type = .OBSTACLE ∧ (r.engine.grid.store c).g = .inf ∧
          (r.engine.grid.store c).parent = none) :=
  have hs : scenarioD.grid.startCell = some ⟨1, 1, 0⟩ := by decide!
  have ht : scenarioD.grid.endCell = some ⟨1, 1, 2⟩ := by decide!
  have hsane : StartSane scenarioD.grid ⟨1, 1, 0⟩ := by decide!
  have hso : (scenarioD.grid.store ⟨1, 1, 0⟩).type ≠ .OBSTACLE := by decide!
  obstacles_never_touched .dijkstra noStop scenarioD ⟨1, 1, 0⟩ ⟨1, 1, 2⟩
    (Or.inl rfl) hs ht hsane hso

/-! ## Number of iterations -/

/-- A duplicate-free list of cells of the grid, the start cell allowed among them, has
at most `rows * cols` elements, one more when the start cell is not a cell of the grid. -/
theorem length_le_of_seen (g : Grid) (s : CellId) (l : List CellId) (hnd : l.Nodup)
    (hl : ∀ c ∈ l, c = s ∨ g.isLive c = true) :
    l.length ≤ g.rows * g.cols + (if g.isLive s = true then 0 else 1) := by
  by_cases hs : g.isLive s = true
  · have hsub : l ⊆ g.liveCells := by
      intro c hc
      rcases hl c hc with e | e
      · exact (Grid.mem_liveCells g c).mpr (e ▸ hs)
      · exact (Grid.mem_liveCells g c).mpr e
    have := (List.subperm_of_subset hnd hsub).length_le
    simpa [Grid.length_liveCells, hs] using this
  · have hsub : l ⊆ s :: g.liveCells := by
      intro c hc
      rcases hl c hc with e | e
      · exact e ▸ List.mem_cons_self _ _
      · exact List.mem_cons_of_mem _ ((Grid.mem_liveCells g c).mpr e)
    have := (List.subperm_of_subset hnd hsub).length_le
    simpa [Grid.length_liveCells, hs] using this

theorem Inv.open_closed_nodup {P : CellId → CellId → Prop} {st : Search}
    (h : Inv alg g0 s t P st) : (st.openSet ++ st.closedSet).Nodup :=
  List.nodup_append.mpr ⟨h.open_nodup, h.closed_nodup, fun _ ho hc => h.disj _ ho hc⟩

/-- C29: for every grid with Start and End set, the search loop of `runDijkstra` and of
`runAStar` terminates, cancelled or not.  It is left at some evaluation `n` of its
condition, with null after `n` iterations or with the end cell taken from the open set
in iteration `n + 1`, and the number of iterations is at most `rows * cols`, plus one
when the Start reference does not name a cell of the grid; with more fuel than that the
loop of the model returns this result.  At every evaluation `m` of the condition the
closed set holds `m` cells (one expansion per iteration) and no cell occurs twice in the
open and closed sets together: no cell is expanded twice or inserted again. -/
theorem searchLoop_iterations (alg : Algorithm) (stops : Nat → Bool) (e : Engine)
    (s t : CellId)
    (halg : alg = .dijkstra ∨ alg = .astar calculateHeuristic)
    (hs : e.grid.startCell = some s) (ht : e.grid.endCell = some t) :
    ∃ n a, searchStates alg stops s t n (initSearch alg e s t) = some a ∧
      ((searchStep alg stops s t a = .exhausted a ∧
          n ≤ e.grid.rows * e.grid.cols + (if e.grid.isLive s = true then 0 else 1)) ∨
        (∃ rest, searchStep alg stops s t a = .found { a with openSet := rest } ∧
          n + 1 ≤ e.grid.rows * e.grid.cols + (if e.grid.isLive s = true then 0 else 1))) ∧
      (∀ fuel, e.grid.rows * e.grid.cols + (if e.grid.isLive s = true then 0 else 1) < fuel →
        searchLoop alg stops s t fuel (initSearch alg e s t) =
            some (searchStep alg stops s t a) ∧
          (finalSearch alg fuel stops e).isSome = true) ∧
      (∀ m b, searchStates alg stops s t m (initSearch alg e s t) = some b →
        b.closedSet.length = m ∧ (b.openSet ++ b.closedSet).Nodup) := by
  have hc : Consistent alg e.grid t := by
    rcases halg with rfl | rfl
    · exact consistent_dijkstra e.grid t
    · exact consistent_astar e.grid t
  have hinit := inv_initSearch alg e s t
  have hev0 : (initSearch alg e s t).events =
      ((initSearch alg e s t).closedSet.reverse.filter (fun c => decide (c ≠ s))).map
        Event.nodeVisited := by
    simp [initSearch]
  have hstates : ∀ m b, searchStates alg stops s t m (initSearch alg e s t) = some b →
      Inv alg e.grid s t (fun _ _ => True) b ∧ b.closedSet.length = m := by
    intro m b hb
    refine ⟨searchStates_inv stops hc m _ _ hinit hb, ?_⟩
    have := (searchStates_events stops m _ _ hb hev0).2
    simpa [initSearch] using this
  obtain ⟨res, hres⟩ := searchLoop_terminates stops hc (e.grid.rows * e.grid.cols + 2)
    (initSearch alg e s t) hinit (by simp)
  obtain ⟨n, a, _, ha, hstep, hk⟩ := searchLoop_last stops _ _ _ hres
  obtain ⟨hi, hlen⟩ := hstates n a ha
  have hbound : (searchStep alg stops s t a = .exhausted a ∧
        n ≤ e.grid.rows * e.grid.cols + (if e.grid.isLive s = true then 0 else 1)) ∨
      (∃ rest, searchStep alg stops s t a = .found { a with openSet := rest } ∧
        n + 1 ≤ e.grid.rows * e.grid.cols + (if e.grid.isLive s = true then 0 else 1)) := by
    rcases hk with ⟨x, rfl⟩ | ⟨x, rfl⟩
    · right
      obtain ⟨rest, hsort, _, rfl⟩ := searchStep_found hstep
      have hto : t ∈ a.openSet :=
        (sortCells_head hsort).1.mem_iff.mp (List.mem_cons_self _ _)
      refine ⟨rest, hstep, ?_⟩
      have hnd : (t :: a.closedSet).Nodup :=
        List.nodup_cons.mpr ⟨hi.disj t hto, hi.closed_nodup⟩
      have hseen : ∀ c ∈ t :: a.closedSet, c = s ∨ e.grid.isLive c = true := by
        intro c hcm
        rcases List.mem_cons.mp hcm with rfl | hcm
        · exact hi.seen_live (Or.inl hto)
        · exact hi.seen_live (Or.inr hcm)
      have := length_le_of_seen e.grid s _ hnd hseen
      rw [List.length_cons, hlen] at this
      exact this
    · left
      obtain ⟨rfl, _⟩ := searchStep_exhausted hstep
      refine ⟨hstep, ?_⟩
      have := length_le_of_seen e.grid s _ hi.closed_nodup
        (fun c hcm => hi.seen_live (Or.inr hcm))
      rw [hlen] at this
      exact this
  refine ⟨n, a, ha, hbound, ?_, ?_⟩
  · intro fuel hf
    have hn : n < fuel := by
      rcases hbound with ⟨_, h1⟩ | ⟨_, _, h1⟩ <;> omega
    have hl := searchLoop_of_states stops n _ a _ ha rfl (hstep ▸ hk) fuel hn
    refine ⟨hl, ?_⟩
    unfold finalSearch
    rw [hs, ht]
    simp only [hl]
    rcases hk with ⟨x, hx⟩ | ⟨x, hx⟩ <;> rw [hstep, hx] <;> rfl
  · intro m b hb
    obtain ⟨hib, hlb⟩ := hstates m b hb
    exact ⟨hlb, hib.open_closed_nodup⟩

theorem searchLoop_iterations_witness :
    ∃ n a, searchStates .dijkstra noStop ⟨1, 1, 0⟩ ⟨1, 1, 2⟩ n
        (initSearch .dijkstra scenarioD ⟨1, 1, 0⟩ ⟨1, 1, 2⟩) = some a ∧
      ((searchStep .dijkstra noStop ⟨1, 1, 0⟩ ⟨1, 1, 2⟩ a = .exhausted a ∧
          n ≤ scenarioD.grid.rows * scenarioD.grid.cols +
            (if scenarioD.grid.isLive ⟨1, 1, 0⟩ = true then 0 else 1)) ∨
        (∃ rest, searchStep .dijkstra noStop ⟨1, 1, 0⟩ ⟨1, 1, 2⟩ a =
            .found { a with openSet := rest } ∧
          n + 1 ≤ scenarioD.grid.rows * scenarioD.grid.cols +
            (if scenarioD.grid.isLive ⟨1, 1, 0⟩ = true then 0 else 1))) ∧
      (∀ fuel, scenarioD.grid.rows * scenarioD.grid.cols +
          (if scenarioD.grid.isLive ⟨1, 1, 0⟩ = true then 0 else 1) < fuel →
        searchLoop .dijkstra noStop ⟨1, 1, 0⟩ ⟨1, 1, 2⟩ fuel
            (initSearch .dijkstra scenarioD ⟨1, 1, 0⟩ ⟨1, 1, 2⟩) =
            some (searchStep .dijkstra noStop ⟨1, 1, 0⟩ ⟨1, 1, 2⟩ a) ∧
          (finalSearch .dijkstra fuel noStop scenarioD).isSome = true) ∧
      (∀ m b, searchStates .dijkstra noStop ⟨1, 1, 0⟩ ⟨1, 1, 2⟩ m
          (initSearch .dijkstra scenarioD ⟨1, 1, 0⟩ ⟨1, 1, 2⟩) = some b →
        b.closedSet.length = m ∧ (b.openSet ++ b.closedSet).Nodup) :=
  have hs : scenarioD.grid.startCell = some ⟨1, 1, 0⟩ := by decide!
  have ht : scenarioD.grid.endCell = some ⟨1, 1, 2⟩ := by decide!
  searchLoop_iterations .dijkstra noStop scenarioD ⟨1, 1, 0⟩ ⟨1, 1, 2⟩ (Or.inl rfl) hs ht

/-! ## The tree of parent links -/

theorem nthParent_congr {store1 store2 : CellId → Cell}
    (h : ∀ x, (store1 x).parent = (store2 x).parent) :
    ∀ (k : Nat) (c : CellId), nthParent store1 k c = nthParent store2 k c := by
  intro k
  induction k with
  | zero => intro c; rfl
  | succ k ih =>
    intro c
    unfold nthParent
    rw [h c]
    cases (store2 c).parent with
    | none => rfl
    | some p => exact ih p

theorem ParentTree.congr {g : Grid} {s : CellId} {store1 store2 : CellId → Cell}
    (hg : ∀ x, (store2 x).g = (store1 x).g)
    (hp : ∀ x, (store2 x).parent = (store1 x).parent)
    (h : ParentTree g s store1) : ParentTree g s store2 := by
  obtain ⟨⟨a1, a2⟩, b, c, d⟩ := h
  have hn : ∀ k x, nthParent store2 k x = nthParent store1 k x := nthParent_congr hp
  refine ⟨⟨by rw [hg]; exact a1, by rw [hp]; exact a2⟩, ?_, ?_, ?_⟩
  · intro x p hl hx
    rw [hp] at hx
    rw [hg, hg]
    exact b x p hl hx
  · intro x k hl hx
    rw [hg] at hx
    rw [hn, hn]
    exact c x k hl hx
  · intro x k hl hk
    rw [hn]
    exact d x k hl hk

/-- From a cell of the open or closed set with `g = k`, exactly `k` parent links lead to
the start cell, and there the links end. -/
theorem Inv.walk_to_start {P : CellId → CellId → Prop} {st : Search}
    (h : Inv alg g0 s t P st) (hsane : StartSane g0 s) :
    ∀ (k : Nat) (v : CellId), v ∈ st.openSet ∨ v ∈ st.closedSet → st.gOf v = .fin k →
      nthParent st.grid.store k v = some s ∧ nthParent st.grid.store (k + 1) v = none := by
  have hsp := h.start_parent hsane
  intro k
  induction k with
  | zero =>
    intro v hv hg
    have hvs : v = s := by
      by_contra hne
      obtain ⟨p, hp, _, _, hgp⟩ := h.tree v hv hne
      obtain ⟨m, hm⟩ := h.finite p (Or.inr hp)
      rw [hg, hm] at hgp
      simp at hgp
    subst hvs
    refine ⟨rfl, ?_⟩
    unfold nthParent
    rw [hsp]
  | succ k ih =>
    intro v hv hg
    have hvs : v ≠ s := by
      intro e
      rw [e, h.start_g] at hg
      cases hg
    obtain ⟨p, hp, hpar, _, hgp⟩ := h.tree v hv hvs
    obtain ⟨m, hm⟩ := h.finite p (Or.inr hp)
    rw [hg, hm] at hgp
    simp only [Num.add_fin_fin, Num.fin.injEq] at hgp
    have hm' : st.gOf p = .fin k := by rw [hm]; congr 1; omega
    obtain ⟨i1, i2⟩ := ih p (Or.inr hp) hm'
    constructor
    · unfold nthParent; rw [hpar]; exact i1
    · unfold nthParent; rw [hpar]; exact i2

/-- Along parent links from a cell of the open or closed set, `g` decreases by one per link. -/
theorem Inv.walk_g {P : CellId → CellId → Prop} {st : Search}
    (h : Inv alg g0 s t P st) (hsane : StartSane g0 s) :
    ∀ (j : Nat) (v w : CellId) (m : Nat), v ∈ st.openSet ∨ v ∈ st.closedSet →
      st.gOf v = .fin m → nthParent st.grid.store j v = some w →
      j ≤ m ∧ st.gOf w = .fin (m - j) := by
  have hsp := h.start_parent hsane
  intro j
  induction j with
  | zero =>
    intro v w m _ hg hw
    simp only [nthParent, Option.some.injEq] at hw
    subst hw
    exact ⟨Nat.zero_le _, hg⟩
  | succ j ih =>
    intro v w m hv hg hw
    unfold nthParent at hw
    have hvs : v ≠ s := by
      intro e
      rw [e, hsp] at hw
      cases hw
    obtain ⟨p, hp, hpar, _, hgp⟩ := h.tree v hv hvs
    rw [hpar] at hw
    obtain ⟨m1, hm1⟩ := h.finite p (Or.inr hp)
    rw [hg, hm1] at hgp
    simp only [Num.add_fin_fin, Num.fin.injEq] at hgp
    obtain ⟨i1, i2⟩ := ih p w m1 (Or.inr hp) hm1 hw
    refine ⟨by omega, ?_⟩
    rw [i2]
    congr 1
    omega

theorem Inv.parentTree {P : CellId → CellId → Prop} {st : Search}
    (h : Inv alg g0 s t P st) (hsane : StartSane g0 s) :
    ParentTree g0 s st.grid.store := by
  have hsp := h.start_parent hsane
  have hseen : ∀ c, g0.isLive c = true →
      ((st.grid.store c).parent ≠ none ∨ ∃ k, (st.grid.store c).g = .fin k) →
      c ∈ st.openSet ∨ c ∈ st.closedSet := by
    intro c hl hx
    by_contra hn
    have h1 : c ∉ st.openSet := fun hh => hn (Or.inl hh)
    have h2 : c ∉ st.closedSet := fun hh => hn (Or.inr hh)
    obtain ⟨u1, u2⟩ := h.unseen c hl h1 h2
    rcases hx with hx | ⟨k, hk⟩
    · exact hx u2
    · have : st.gOf c = .fin k := hk
      rw [u1] at this
      cases this
  refine ⟨⟨h.start_g, hsp⟩, ?_, ?_, ?_⟩
  · intro c p hl hpar
    have hcs : c ≠ s := by
      intro e
      rw [e, hsp] at hpar
      cases hpar
    have hv := hseen c hl (Or.inl (by rw [hpar]; simp))
    obtain ⟨p1, _, hpar1, hn, hg⟩ := h.tree c hv hcs
    rw [hpar] at hpar1
    cases hpar1
    exact ⟨hg, ((mem_getNeighbors_iff g0 p c).mp hn).2.2⟩
  · intro c k hl hg
    exact h.walk_to_start hsane k c (hseen c hl (Or.inr ⟨k, hg⟩)) hg
  · intro c k hl hk hw
    obtain ⟨j, rfl⟩ : ∃ j, k = j + 1 := ⟨k - 1, by omega⟩
    have hpar : (st.grid.store c).parent ≠ none := by
      intro e
      unfold nthParent at hw
      rw [e] at hw
      cases hw
    have hv := hseen c hl (Or.inl hpar)
    obtain ⟨m, hm⟩ := h.finite c hv
    obtain ⟨i1, i2⟩ := h.walk_g hsane (j + 1) c c m hv hm hw
    rw [hm] at i2
    simp only [Num.fin.injEq] at i2
    omega

/-- C26: at every evaluation of the loop condition of a run of `runDijkstra` or
`runAStar`, cancelled or not, and in the grid that the run leaves (the Start reference
naming a cell of the grid or an object without parent): Start has `g = 0` and no parent;
every cell of the grid with a parent has the `g` of its parent plus one and is 4-adjacent
to it; following the parent links from a cell of the grid with finite `g = k` reaches
Start after exactly `k` links, where the links end; and no positive number of parent
links leads from a cell of the grid back to itself. -/
theorem parent_links_form_tree (alg : Algorithm) (stops : Nat → Bool) (e : Engine)
    (s t : CellId)
    (halg : alg = .dijkstra ∨ alg = .astar calculateHeuristic)
    (hs : e.grid.startCell = some s) (ht : e.grid.endCell = some t)
    (hsane : StartSane e.grid s) :
    (∀ n a, searchStates alg stops s t n (initSearch alg e s t) = some a →
      ParentTree e.grid s a.grid.store) ∧
    (∀ fuel r, runSearch alg fuel stops e = some r →
      ParentTree e.grid s r.engine.grid.store) := by
  have hc : Consistent alg e.grid t := by
    rcases halg with rfl | rfl
    · exact consistent_dijkstra e.grid t
    · exact consistent_astar e.grid t
  constructor
  · intro n a ha
    exact (searchStates_inv stops hc n _ _ (inv_initSearch alg e s t) ha).parentTree hsane
  · intro fuel r hrun
    obtain ⟨n, a, _, _, hi, _, _, hcase⟩ := runSearch_anatomy hc hs ht hrun
    rcases hcase with ⟨_, _, hr⟩ | ⟨rest, path, _, _, _, _, _, hr⟩
    · rw [hr]
      exact hi.parentTree hsane
    · rw [hr]
      have hf := (revealPath_frame stops path { a with openSet := rest }).2.2.2.2.2
      exact ParentTree.congr (fun x => (hf x).1) (fun x => (hf x).2) (hi.parentTree hsane)

theorem parent_links_form_tree_witness :
    (∀ n a, searchStates .dijkstra noStop ⟨1, 1, 0⟩ ⟨1, 1, 2⟩ n
        (initSearch .dijkstra scenarioD ⟨1, 1, 0⟩ ⟨1, 1, 2⟩) = some a →
      ParentTree scenarioD.grid ⟨1, 1, 0⟩ a.grid.store) ∧
    (∀ fuel r, runSearch .dijkstra fuel noStop scenarioD = some r →
      ParentTree scenarioD.grid ⟨1, 1, 0⟩ r.engine.grid.store) :=
  have hs : scenarioD.grid.startCell = some ⟨1, 1, 0⟩ := by decide!
  have ht : scenarioD.grid.endCell = some ⟨1, 1, 2⟩ := by decide!
  have hsane : StartSane scenarioD.grid ⟨1, 1, 0⟩ := by decide!
  parent_links_form_tree .dijkstra noStop scenarioD ⟨1, 1, 0⟩ ⟨1, 1, 2⟩
    (Or.inl rfl) hs ht hsane

/-! ## The update condition of the relaxation -/

/-- In a state of a run, the disjunct `!openSet.includes(neighbor)` adds nothing: a
neighbour outside both sets has `g = Infinity`, above the finite `tentativeG`. -/
theorem Inv.relax_eq_strict {P : CellId → CellId → Prop} {st : Search}
    (h : Inv alg g0 s t P st) {u w : CellId} (hu : u ∈ st.closedSet)
    (hw : w ∈ getNeighbors g0 u) :
    relaxNeighbor alg t u st w = relaxNeighborStrict alg t u st w ∧
      (w ∉ st.closedSet → w ∉ st.openSet →
        Num.lt ((st.grid.store u).g.add (.fin 1)) (st.grid.store w).g = true) := by
  have key : w ∉ st.closedSet → w ∉ st.openSet →
      Num.lt ((st.grid.store u).g.add (.fin 1)) (st.grid.store w).g = true := by
    intro hc ho
    have hl := ((mem_getNeighbors_iff g0 u w).mp hw).1
    obtain ⟨hg, _⟩ := h.unseen w hl ho hc
    obtain ⟨m, hm⟩ := h.finite u (Or.inr hu)
    have hg1 : (st.grid.store w).g = .inf := hg
    have hm1 : (st.grid.store u).g = .fin m := hm
    rw [hg1, hm1]
    rfl
  refine ⟨?_, key⟩
  unfold relaxNeighbor relaxNeighborStrict
  by_cases hc : w ∈ st.closedSet
  · simp [hc]
  · simp only [hc, if_false]
    by_cases hlt : Num.lt ((st.grid.store u).g.add (.fin 1)) (st.grid.store w).g = true
    · simp [hlt]
    · have ho : w ∈ st.openSet := by
        by_contra ho
        exact hlt (key hc ho)
      simp [hlt, ho]

theorem foldl_relax_eq_strict {u : CellId} (l : List CellId) :
    ∀ {P : CellId → CellId → Prop} {st : Search}, Inv alg g0 s t P st → u ∈ st.closedSet →
      (∀ w ∈ l, w ∈ getNeighbors g0 u) →
      l.foldl (relaxNeighbor alg t u) st = l.foldl (relaxNeighborStrict alg t u) st := by
  induction l with
  | nil => intro P st _ _ _; rfl
  | cons w l ih =>
    intro P st h hu hl
    have hw := hl w (List.mem_cons_self _ _)
    simp only [List.foldl_cons]
    rw [← (h.relax_eq_strict hu hw).1]
    apply ih (inv_relax h hu hw)
    · rw [relaxNeighbor_closedSet]; exact hu
    · intro x hx
      exact hl x (List.mem_cons_of_mem _ hx)

theorem searchStep_eq_strict (stops : Nat → Bool) {st : Search}
    (h : Inv alg g0 s t (fun _ _ => True) st) (hc : Consistent alg g0 t) :
    searchStep alg stops s t st = searchStepStrict alg stops s t st := by
  unfold searchStep searchStepStrict
  split_ifs with h1
  · rfl
  · cases hsort : sortCells (sortKey alg st.grid) st.openSet with
    | nil => rfl
    | cons u rest =>
      simp only
      split_ifs with hut
      · rfl
      · have hi := inv_pop_mark stops h hc hsort hut
        have hu : u ∈ (markVisited stops s t u
            { st with openSet := rest, closedSet := u :: st.closedSet }).closedSet := by
          rw [markVisited_closedSet]
          exact List.mem_cons_self _ _
        congr 1
        apply foldl_relax_eq_strict _ hi hu
        intro w hw
        rw [hi.neighbors_eq] at hw
        exact hw

theorem searchLoop_eq_strict (stops : Nat → Bool) (hc : Consistent alg g0 t) :
    ∀ (fuel : Nat) (st : Search), Inv alg g0 s t (fun _ _ => True) st →
      searchLoop alg stops s t fuel st = searchLoopStrict alg stops s t fuel st := by
  intro fuel
  induction fuel with
  | zero => intro st _; rfl
  | succ f ih =>
    intro st h
    unfold searchLoop searchLoopStrict
    rw [← searchStep_eq_strict stops h hc]
    cases hstep : searchStep alg stops s t st with
    | next st1 => exact ih st1 (inv_step h hc hstep)
    | found st1 => rfl
    | exhausted st1 => rfl

theorem runSearch_eq_strict (alg : Algorithm) (fuel : Nat) (stops : Nat → Bool) (e : Engine)
    (hc : ∀ t, Consistent alg e.grid t) :
    runSearch alg fuel stops e = runSearchStrict alg fuel stops e := by
  unfold runSearch runSearchStrict
  cases hs : e.grid.startCell with
  | none => rfl
  | some s =>
    cases ht : e.grid.endCell with
    | none => rfl
    | some t =>
      simp only
      rw [searchLoop_eq_strict stops (hc t) fuel _ (inv_initSearch alg e s t)]

/-- C25: every run of `runDijkstra` and of `runAStar`, cancelled or not, is the run in
which a passable neighbour outside the closed set is updated exactly when
`tentativeG = current.g + 1` is strictly less than `neighbor.g`: same returned value, same
callback invocations, same final state.  The disjunct `!openSet.includes(neighbor)`
never decides an update, because at every relaxation of a run a neighbour that is
neither closed nor in the open set has `tentativeG < neighbor.g`; so no relaxation
increases a cell's `g` or leaves it equal. -/
theorem relaxation_is_strict (fuel : Nat) (stops : Nat → Bool) (e : Engine) :
    runDijkstra fuel stops e = runSearchStrict .dijkstra fuel stops e ∧
      runAStar fuel stops e = runSearchStrict (.astar calculateHeuristic) fuel stops e ∧
      (∀ (alg : Algorithm) (s t : CellId) (n : Nat) (a : Search),
        alg = .dijkstra ∨ alg = .astar calculateHeuristic →
        searchStates alg stops s t n (initSearch alg e s t) = some a →
        ∀ current ∈ a.closedSet, ∀ neighbor ∈ getNeighbors a.grid current,
          neighbor ∉ a.closedSet → neighbor ∉ a.openSet →
          Num.lt ((a.grid.store current).g.add (.fin 1)) (a.grid.store neighbor).g = true) := by
  refine ⟨runSearch_eq_strict _ _ _ _ (consistent_dijkstra e.grid),
    runSearch_eq_strict _ _ _ _ (consistent_astar e.grid), ?_⟩
  intro alg s t n a halg ha current hcur neighbor hnb hc ho
  have hcon : Consistent alg e.grid t := by
    rcases halg with rfl | rfl
    · exact consistent_dijkstra e.grid t
    · exact consistent_astar e.grid t
  have hi := searchStates_inv stops hcon n _ _ (inv_initSearch alg e s t) ha
  rw [hi.neighbors_eq] at hnb
  exact (hi.relax_eq_strict hcur hnb).2 hc ho

/-! ## Two runs in lockstep -/

theorem insertSorted_congr {k1 k2 : CellId → Num} (x : CellId) :
    ∀ l : List CellId, (∀ y ∈ x :: l, k1 y = k2 y) →
      insertSorted k1 x l = insertSorted k2 x l := by
  intro l
  induction l with
  | nil => intro _; rfl
  | cons y ys ih =>
    intro h
    unfold insertSorted
    rw [h x (List.mem_cons_self _ _), h y (List.mem_cons_of_mem _ (List.mem_cons_self _ _))]
    split_ifs
    · rw [ih]
      intro z hz
      rcases List.mem_cons.mp hz with rfl | hz
      · exact h z (List.mem_cons_self _ _)
      · exact h z (List.mem_cons_of_mem _ (List.mem_cons_of_mem _ hz))
    · rfl

theorem sortCells_congr {k1 k2 : CellId → Num} :
    ∀ l : List CellId, (∀ y ∈ l, k1 y = k2 y) → sortCells k1 l = sortCells k2 l := by
  intro l
  induction l with
  | nil => intro _; rfl
  | cons x xs ih =>
    intro h
    have hxs : sortCells k1 xs = sortCells k2 xs :=
      ih (fun y hy => h y (List.mem_cons_of_mem _ hy))
    show insertSorted k1 x (sortCells k1 xs) = insertSorted k2 x (sortCells k2 xs)
    rw [← hxs]
    apply insertSorted_congr
    intro y hy
    rcases List.mem_cons.mp hy with rfl | hy
    · exact h y (List.mem_cons_self _ _)
    · exact h y (List.mem_cons_of_mem _ ((sortCells_perm k1 xs).mem_iff.mp hy))

theorem sortKey_relaxCell (alg : Algorithm) (g : Grid) (t u w : CellId) (tg : Num) :
    sortKey alg (g.modify w (relaxCell alg t u w tg)) w = tg.add (.fin (hfun alg t w)) := by
  cases alg with
  | dijkstra => simp [sortKey, relaxCell, hfun]
  | astar heuristic => simp [sortKey, relaxCell, hfun]

theorem sortKey_modify_ne (alg : Algorithm) (g : Grid) {w x : CellId} (f : Cell → Cell)
    (h : x ≠ w) : sortKey alg (g.modify w f) x = sortKey alg g x := by
  cases alg <;> simp [sortKey, Grid.modify_store, h]

theorem sortKey_modify_type (alg : Algorithm) (g : Grid) (w x : CellId) (ty : CellType) :
    sortKey alg (g.modify w (fun c => { c with type := ty })) x = sortKey alg g x := by
  cases alg <;> simp only [sortKey, Grid.modify_store] <;> split_ifs with h <;>
    first | rfl | (subst h; rfl)

variable {D : CellId → Prop} {alg1 alg2 : Algorithm}

theorem Sim.markVisited {st1 st2 : Search} (h : Sim D alg1 alg2 st1 st2)
    (stops : Nat → Bool) (s t u : CellId) :
    Sim D alg1 alg2 (markVisited stops s t u st1) (markVisited stops s t u st2) := by
  unfold CarrotFinder.markVisited
  by_cases hu : u ≠ s ∧ u ≠ t
  · rw [if_pos hu, if_pos hu]
    simp only [Search.delayExecution]
    exact
      { openSet_eq := h.openSet_eq
        closedSet_eq := h.closedSet_eq
        shouldStop_eq := by simp only [h.shouldStop_eq, h.delays_eq]
        delays_eq := by simp only [h.delays_eq]
        events_eq := by simp only [h.events_eq]
        rows_eq := h.rows_eq
        cols_eq := h.cols_eq
        gen_eq := h.gen_eq
        type_eq := by
          intro c
          simp only [Grid.modify_store]
          split_ifs
          · rfl
          · exact h.type_eq c
        g_eq := by
          intro c hc
          simp only [Grid.modify_store]
          split_ifs with e
          · subst e; exact h.g_eq c hc
          · exact h.g_eq c hc
        parent_eq := by
          intro c hc
          simp only [Grid.modify_store]
          split_ifs with e
          · subst e; exact h.parent_eq c hc
          · exact h.parent_eq c hc
        key_eq := by
          intro c hc
          rw [sortKey_modify_type, sortKey_modify_type]
          exact h.key_eq c hc
        dom := h.dom
        up := by
          intro c p hc hp
          apply h.up c p hc
          simp only [Grid.modify_store] at hp
          split_ifs at hp with e
          · subst e; exact hp
          · exact hp
        live := fun c hc => h.live c hc }
  · rw [if_neg hu, if_neg hu]
    exact h

theorem Sim.relax {st1 st2 : Search} (h : Sim D alg1 alg2 st1 st2) (t u w : CellId)
    (hh : ∀ v, hfun alg1 t v = hfun alg2 t v) (hu : D u) (hw : D w) :
    Sim D alg1 alg2 (relaxNeighbor alg1 t u st1 w) (relaxNeighbor alg2 t u st2 w) := by
  by_cases hc : w ∈ st1.closedSet
  · rw [relaxNeighbor_closed alg1 t u hc,
      relaxNeighbor_closed alg2 t u (h.closedSet_eq ▸ hc)]
    exact h
  · have hc2 : w ∉ st2.closedSet := h.closedSet_eq ▸ hc
    have hgu : (st2.grid.store u).g = (st1.grid.store u).g := (h.g_eq u hu).symm
    have hgw : (st2.grid.store w).g = (st1.grid.store w).g := (h.g_eq w hw).symm
    by_cases hcond : Num.lt ((st1.grid.store u).g.add (.fin 1)) (st1.grid.store w).g = true ∨
        w ∉ st1.openSet
    · have hcond2 : Num.lt ((st2.grid.store u).g.add (.fin 1)) (st2.grid.store w).g = true ∨
          w ∉ st2.openSet := by
        rw [hgu, hgw, ← h.openSet_eq]; exact hcond
      rw [relaxNeighbor_update alg1 t u hc hcond, relaxNeighbor_update alg2 t u hc2 hcond2]
      exact
        { openSet_eq := by simp only [h.openSet_eq]
          closedSet_eq := h.closedSet_eq
          shouldStop_eq := h.shouldStop_eq
          delays_eq := h.delays_eq
          events_eq := h.events_eq
          rows_eq := h.rows_eq
          cols_eq := h.cols_eq
          gen_eq := h.gen_eq
          type_eq := by
            intro c
            simp only [Grid.modify_store]
            split_ifs with e
            · subst e; simp only [relaxCell_type]; exact h.type_eq c
            · exact h.type_eq c
          g_eq := by
            intro c hcD
            simp only [Grid.modify_store]
            split_ifs with e
            · simp only [relaxCell_g, hgu]
            · exact h.g_eq c hcD
          parent_eq := by
            intro c hcD
            simp only [Grid.modify_store]
            split_ifs with e
            · simp only [relaxCell_parent]
            · exact h.parent_eq c hcD
          key_eq := by
            intro c hcm
            by_cases e : c = w
            · subst e
              rw [sortKey_relaxCell, sortKey_relaxCell, hgu, hh]
            · rw [sortKey_modify_ne _ _ _ e, sortKey_modify_ne _ _ _ e]
              apply h.key_eq
              simp only at hcm
              split_ifs at hcm with ho
              · exact hcm
              · rcases List.mem_append.mp hcm with hcm | hcm
                · exact hcm
                · exact absurd (List.mem_singleton.mp hcm) e
          dom := by
            intro c hcm
            by_cases e : c = w
            · exact e ▸ hw
            · apply h.dom
              simp only at hcm
              rcases hcm with hcm | hcm
              · left
                split_ifs at hcm with ho
                · exact hcm
                · rcases List.mem_append.mp hcm with hcm | hcm
                  · exact hcm
                  · exact absurd (List.mem_singleton.mp hcm) e
              · exact Or.inr hcm
          up := by
            intro c p hcD hp
            simp only [Grid.modify_store] at hp
            split_ifs at hp with e
            · simp only [relaxCell_parent, Option.some.injEq] at hp
              exact hp ▸ hu
            · exact h.up c p hcD hp
          live := fun c hcl => h.live c hcl }
    · have hcond2 : ¬ (Num.lt ((st2.grid.store u).g.add (.fin 1)) (st2.grid.store w).g = true ∨
          w ∉ st2.openSet) := by
        rw [hgu, hgw, ← h.openSet_eq]; exact hcond
      rw [relaxNeighbor_keep alg1 t u hc hcond, relaxNeighbor_keep alg2 t u hc2 hcond2]
      exact h

theorem Sim.isLive_eq {st1 st2 : Search} (h : Sim D alg1 alg2 st1 st2) (c : CellId) :
    st2.grid.isLive c = st1.grid.isLive c :=
  Grid.isLive_congr h.rows_eq.symm h.cols_eq.symm h.gen_eq.symm c

theorem Sim.getNeighbors_eq {st1 st2 : Search} (h : Sim D alg1 alg2 st1 st2) (u : CellId) :
    getNeighbors st2.grid u = getNeighbors st1.grid u :=
  getNeighbors_congr h.rows_eq.symm h.cols_eq.symm h.gen_eq.symm
    (fun c => by rw [h.type_eq c]) u

theorem relaxNeighbor_isLive (alg : Algorithm) (t u : CellId) (st : Search) (w c : CellId) :
    (relaxNeighbor alg t u st w).grid.isLive c = st.grid.isLive c := by
  rcases relaxNeighbor_cases alg t u st w with e | ⟨_, e⟩ <;> rw [e]
  exact Grid.isLive_congr rfl rfl rfl c

theorem Sim.fold {t u : CellId} (hh : ∀ v, hfun alg1 t v = hfun alg2 t v) (hu : D u)
    (l : List CellId) :
    ∀ {st1 st2 : Search}, Sim D alg1 alg2 st1 st2 →
      (∀ w ∈ l, st1.grid.isLive w = true) →
      Sim D alg1 alg2 (l.foldl (relaxNeighbor alg1 t u) st1)
        (l.foldl (relaxNeighbor alg2 t u) st2) := by
  induction l with
  | nil => intro st1 st2 h _; exact h
  | cons w l ih =>
    intro st1 st2 h hl
    simp only [List.foldl_cons]
    apply ih (h.relax t u w hh hu (h.live w (hl w (List.mem_cons_self _ _))))
    intro x hx
    rw [relaxNeighbor_isLive]
    exact hl x (List.mem_cons_of_mem _ hx)

/-- One evaluation of the loop in lockstep. -/
theorem Sim.step {st1 st2 : Search} (h : Sim D alg1 alg2 st1 st2) (stops : Nat → Bool)
    (s t : CellId) (hh : ∀ v, hfun alg1 t v = hfun alg2 t v) :
    (∃ a b, searchStep alg1 stops s t st1 = .next a ∧ searchStep alg2 stops s t st2 = .next b ∧
      Sim D alg1 alg2 a b) ∨
    (∃ a b, searchStep alg1 stops s t st1 = .found a ∧ searchStep alg2 stops s t st2 = .found b ∧
      Sim D alg1 alg2 a b ∧ D t) ∨
    (∃ a b, searchStep alg1 stops s t st1 = .exhausted a ∧
      searchStep alg2 stops s t st2 = .exhausted b ∧ Sim D alg1 alg2 a b) := by
  have hsort : sortCells (sortKey alg2 st2.grid) st2.openSet =
      sortCells (sortKey alg1 st1.grid) st1.openSet := by
    rw [← h.openSet_eq]
    exact (sortCells_congr _ h.key_eq).symm
  have hcond : (st2.openSet = [] ∨ st2.shouldStop = true) ↔
      (st1.openSet = [] ∨ st1.shouldStop = true) := by
    rw [h.openSet_eq, h.shouldStop_eq]
  unfold searchStep
  rw [hsort]
  by_cases h1 : st1.openSet = [] ∨ st1.shouldStop = true
  · rw [if_pos h1, if_pos (hcond.mpr h1)]
    exact Or.inr (Or.inr ⟨_, _, rfl, rfl, h⟩)
  · rw [if_neg h1, if_neg (fun h2 => h1 (hcond.mp h2))]
    cases hs1 : sortCells (sortKey alg1 st1.grid) st1.openSet with
    | nil => exact Or.inr (Or.inr ⟨_, _, rfl, rfl, h⟩)
    | cons u rest =>
      have hperm := sortCells_perm (sortKey alg1 st1.grid) st1.openSet
      rw [hs1] at hperm
      have hmem : ∀ x, x ∈ u :: rest ↔ x ∈ st1.openSet := fun x => hperm.mem_iff
      have hsub : ∀ x ∈ rest, x ∈ st1.openSet :=
        fun x hx => (hmem x).mp (List.mem_cons_of_mem _ hx)
      have huo : u ∈ st1.openSet := (hmem u).mp (List.mem_cons_self _ _)
      have hDu : D u := h.dom u (Or.inl huo)
      simp only
      by_cases hut : u = t
      · rw [if_pos hut, if_pos hut]
        refine Or.inr (Or.inl ⟨_, _, rfl, rfl, ?_, hut ▸ hDu⟩)
        exact
          { openSet_eq := rfl
            closedSet_eq := h.closedSet_eq
            shouldStop_eq := h.shouldStop_eq
            delays_eq := h.delays_eq
            events_eq := h.events_eq
            rows_eq := h.rows_eq
            cols_eq := h.cols_eq
            gen_eq := h.gen_eq
            type_eq := h.type_eq
            g_eq := h.g_eq
            parent_eq := h.parent_eq
            key_eq := fun c hc => h.key_eq c (hsub c hc)
            dom := by
              intro c hc
              rcases hc with hc | hc
              · exact h.dom c (Or.inl (hsub c hc))
              · exact h.dom c (Or.inr hc)
            up := h.up
            live := h.live }
      · rw [if_neg hut, if_neg hut]
        have hpop : Sim D alg1 alg2
            { st1 with openSet := rest, closedSet := u :: st1.closedSet }
            { st2 with openSet := rest, closedSet := u :: st2.closedSet } :=
          { openSet_eq := rfl
            closedSet_eq := by simp only [h.closedSet_eq]
            shouldStop_eq := h.shouldStop_eq
            delays_eq := h.delays_eq
            events_eq := h.events_eq
            rows_eq := h.rows_eq
            cols_eq := h.cols_eq
            gen_eq := h.gen_eq
            type_eq := h.type_eq
            g_eq := h.g_eq
            parent_eq := h.parent_eq
            key_eq := fun c hc => h.key_eq c (hsub c hc)
            dom := by
              intro c hc
              rcases hc with hc | hc
              · exact h.dom c (Or.inl (hsub c hc))
              · rcases List.mem_cons.mp hc with rfl | hc
                · exact hDu
                · exact h.dom c (Or.inr hc)
            up := h.up
            live := h.live }
        have hmark := hpop.markVisited stops s t u
        refine Or.inl ⟨_, _, rfl, rfl, ?_⟩
        rw [hmark.getNeighbors_eq u]
        apply Sim.fold hh hDu _ hmark
        intro w hw
        exact ((mem_getNeighbors_iff _ u w).mp hw).1

/-- The loops in lockstep: both run out of fuel, or both end the same way in related
states. -/
theorem Sim.loop (stops : Nat → Bool) (s t : CellId)
    (hh : ∀ v, hfun alg1 t v = hfun alg2 t v) :
    ∀ (fuel : Nat) {st1 st2 : Search}, Sim D alg1 alg2 st1 st2 →
      (searchLoop alg1 stops s t fuel st1 = none ∧ searchLoop alg2 stops s t fuel st2 = none) ∨
      (∃ a b, searchLoop alg1 stops s t fuel st1 = some (.found a) ∧
        searchLoop alg2 stops s t fuel st2 = some (.found b) ∧ Sim D alg1 alg2 a b ∧ D t) ∨
      (∃ a b, searchLoop alg1 stops s t fuel st1 = some (.exhausted a) ∧
        searchLoop alg2 stops s t fuel st2 = some (.exhausted b) ∧ Sim D alg1 alg2 a b) := by
  intro fuel
  induction fuel with
  | zero => intro st1 st2 _; exact Or.inl ⟨rfl, rfl⟩
  | succ f ih =>
    intro st1 st2 h
    unfold searchLoop
    rcases h.step stops s t hh with ⟨a, b, e1, e2, hab⟩ | ⟨a, b, e1, e2, hab, hDt⟩ |
      ⟨a, b, e1, e2, hab⟩
    · rw [e1, e2]
      exact ih hab
    · rw [e1, e2]
      exact Or.inr (Or.inl ⟨a, b, rfl, rfl, hab, hDt⟩)
    · rw [e1, e2]
      exact Or.inr (Or.inr ⟨a, b, rfl, rfl, hab⟩)

theorem parentWalk_sim {store1 store2 : CellId → Cell}
    (hp : ∀ c, D c → (store1 c).parent = (store2 c).parent)
    (hup : ∀ c p, D c → (store1 c).parent = some p → D p) :
    ∀ (fuel : Nat) (v : CellId) (acc : List CellId), D v →
      parentWalk store1 fuel v acc = parentWalk store2 fuel v acc := by
  intro fuel
  induction fuel with
  | zero => intro v acc _; rfl
  | succ f ih =>
    intro v acc hv
    unfold parentWalk
    rw [← hp v hv]
    cases hpar : (store1 v).parent with
    | none => rfl
    | some p => exact ih p _ (hup v p hv hpar)

/-- The loop of `reconstructPath` in lockstep. -/
theorem revealPath_sim (stops : Nat → Bool) (path : List CellId) :
    ∀ (st1 st2 : Search), st1.shouldStop = st2.shouldStop → st1.delays = st2.delays →
      st1.events = st2.events →
      (∀ c, (st1.grid.store c).type = (st2.grid.store c).type) →
      (revealPath stops path st1).shouldStop = (revealPath stops path st2).shouldStop ∧
      (revealPath stops path st1).events = (revealPath stops path st2).events ∧
      (∀ c, ((revealPath stops path st1).grid.store c).type =
        ((revealPath stops path st2).grid.store c).type) := by
  induction path with
  | nil => intro st1 st2 h1 _ h3 h4; exact ⟨h1, h3, h4⟩
  | cons c cs ih =>
    intro st1 st2 h1 h2 h3 h4
    cases hss : st1.shouldStop with
    | true =>
      rw [revealPath_cons_stop stops c cs hss, revealPath_cons_stop stops c cs (h1 ▸ hss)]
      exact ⟨h1, h3, h4⟩
    | false =>
      have hss2 : st2.shouldStop = false := h1 ▸ hss
      by_cases hty : (st1.grid.store c).type ≠ .START ∧ (st1.grid.store c).type ≠ .END
      · have hty2 : (st2.grid.store c).type ≠ .START ∧ (st2.grid.store c).type ≠ .END := by
          rw [← h4 c]; exact hty
        rw [revealPath_cons_mark stops c cs hss hty, revealPath_cons_mark stops c cs hss2 hty2]
        apply ih
        · simp only [h1, h2]
        · simp only [h2]
        · simp only [h3]
        · intro x
          simp only [Grid.modify_store]
          split_ifs
          · rfl
          · exact h4 x
      · have hty2 : ¬ ((st2.grid.store c).type ≠ .START ∧ (st2.grid.store c).type ≠ .END) := by
          rw [← h4 c]; exact hty
        rw [revealPath_cons_skip stops c cs hss hty, revealPath_cons_skip stops c cs hss2 hty2]
        exact ih st1 st2 h1 h2 h3 h4

/-- Two runs whose initial states are in lockstep: both run out of fuel, or both return,
with the same value, the same callback invocations, the same stop flag, the same types
in every cell and the same `g` and `parent` in the cells of `D`. -/
theorem runSearch_sim (fuel : Nat) (stops : Nat → Bool) {e1 e2 : Engine} {s t : CellId}
    (hs1 : e1.grid.startCell = some s) (ht1 : e1.grid.endCell = some t)
    (hs2 : e2.grid.startCell = some s) (ht2 : e2.grid.endCell = some t)
    (hh : ∀ v, hfun alg1 t v = hfun alg2 t v)
    (h0 : Sim D alg1 alg2 (initSearch alg1 e1 s t) (initSearch alg2 e2 s t)) :
    (runSearch alg1 fuel stops e1 = none ∧ runSearch alg2 fuel stops e2 = none) ∨
    ∃ r1 r2, runSearch alg1 fuel stops e1 = some r1 ∧ runSearch alg2 fuel stops e2 = some r2 ∧
      r1.path = r2.path ∧ r1.events = r2.events ∧
      r1.engine.shouldStop = r2.engine.shouldStop ∧
      r1.engine.isRunning = r2.engine.isRunning ∧
      (∀ c, (r1.engine.grid.store c).type = (r2.engine.grid.store c).type) ∧
      (∀ c, D c → (r1.engine.grid.store c).g = (r2.engine.grid.store c).g ∧
        (r1.engine.grid.store c).parent = (r2.engine.grid.store c).parent) := by
  unfold runSearch
  rw [hs1, ht1, hs2, ht2]
  simp only
  rcases Sim.loop stops s t hh fuel h0 with ⟨e1', e2'⟩ | ⟨a, b, e1', e2', hab, hDt⟩ |
    ⟨a, b, e1', e2', hab⟩
  · rw [e1', e2']
    exact Or.inl ⟨rfl, rfl⟩
  · rw [e1', e2']
    simp only [reconstructPath]
    have hw := parentWalk_sim hab.parent_eq hab.up fuel t [] hDt
    rw [← hw]
    cases hpath : parentWalk a.grid.store fuel t [] with
    | none => exact Or.inl ⟨rfl, rfl⟩
    | some path =>
      simp only
      obtain ⟨q1, q2, q3⟩ := revealPath_sim stops path a b hab.shouldStop_eq hab.delays_eq
        hab.events_eq hab.type_eq
      have f1 := (revealPath_frame stops path a).2.2.2.2.2
      have f2 := (revealPath_frame stops path b).2.2.2.2.2
      refine Or.inr ⟨_, _, rfl, rfl, rfl, ?_, q1, rfl, q3, ?_⟩
      · simp only [q2]
      · intro c hc
        exact ⟨((f1 c).1.trans (hab.g_eq c hc)).trans (f2 c).1.symm,
          ((f1 c).2.trans (hab.parent_eq c hc)).trans (f2 c).2.symm⟩
  · rw [e1', e2']
    simp only
    exact Or.inr ⟨_, _, rfl, rfl, rfl, hab.events_eq, hab.shouldStop_eq, rfl, hab.type_eq,
      fun c hc => ⟨hab.g_eq c hc, hab.parent_eq c hc⟩⟩

/-! ## Dijkstra as A* with the heuristic 0, and independence of prior values -/

theorem initSearch_isLive (alg : Algorithm) (e : Engine) (s t c : CellId) :
    (initSearch alg e s t).grid.isLive c = e.grid.isLive c :=
  Grid.isLive_congr rfl rfl rfl c

theorem initSearch_type (alg : Algorithm) (e : Engine) (s t c : CellId) :
    ((initSearch alg e s t).grid.store c).type = (e.grid.store c).type := by
  rw [initSearch_store]
  split_ifs with h1 h2 h3 <;> simp [h1]

theorem initSearch_g (alg : Algorithm) (e : Engine) (s t c : CellId)
    (hc : e.grid.isLive c = true ∨ c = s) :
    ((initSearch alg e s t).grid.store c).g = if c = s then .fin 0 else .inf := by
  rw [initSearch_store]
  by_cases h1 : c = s
  · simp [h1]
  · have hl : e.grid.isLive c = true := hc.resolve_right h1
    simp [h1, hl]

theorem initSearch_parent (alg : Algorithm) (e : Engine) (s t c : CellId)
    (hsane : StartSane e.grid s) (hc : e.grid.isLive c = true ∨ c = s) :
    ((initSearch alg e s t).grid.store c).parent = none := by
  rw [initSearch_store]
  by_cases h1 : c = s
  · subst h1
    simp only [if_true, initStart_parent]
    split_ifs with hl
    · simp
    · exact hsane.resolve_left hl
  · have hl : e.grid.isLive c = true := hc.resolve_right h1
    simp [h1, hl]

theorem initSearch_key (alg : Algorithm) (e : Engine) (s t : CellId) :
    sortKey alg (initSearch alg e s t).grid s = .fin (hfun alg t s) := by
  cases alg with
  | dijkstra => simp [sortKey, initSearch_store, initStart, hfun]
  | astar heuristic => simp [sortKey, initSearch_store, initStart, hfun]

/-- The initial states of two runs on grids that agree on the dimensions, the cell
array, the types and sane start cells are in lockstep on the cells of the grid and the
start cell. -/
theorem sim_initSearch (alg1 alg2 : Algorithm) (e1 e2 : Engine) (s t : CellId)
    (hh : ∀ v, hfun alg1 t v = hfun alg2 t v)
    (hrows : e1.grid.rows = e2.grid.rows) (hcols : e1.grid.cols = e2.grid.cols)
    (hgen : e1.grid.gen = e2.grid.gen)
    (htype : ∀ c, (e1.grid.store c).type = (e2.grid.store c).type)
    (hsane1 : StartSane e1.grid s) (hsane2 : StartSane e2.grid s) :
    Sim (fun c => e1.grid.isLive c = true ∨ c = s) alg1 alg2
      (initSearch alg1 e1 s t) (initSearch alg2 e2 s t) := by
  have hlive : ∀ c, e2.grid.isLive c = e1.grid.isLive c :=
    Grid.isLive_congr hrows.symm hcols.symm hgen.symm
  have hD2 : ∀ c, (e1.grid.isLive c = true ∨ c = s) → (e2.grid.isLive c = true ∨ c = s) := by
    intro c hc
    rw [hlive]; exact hc
  exact
    { openSet_eq := rfl
      closedSet_eq := rfl
      shouldStop_eq := rfl
      delays_eq := rfl
      events_eq := rfl
      rows_eq := hrows
      cols_eq := hcols
      gen_eq := hgen
      type_eq := by
        intro c
        rw [initSearch_type, initSearch_type]
        exact htype c
      g_eq := by
        intro c hc
        rw [initSearch_g alg1 e1 s t c hc, initSearch_g alg2 e2 s t c (hD2 c hc)]
      parent_eq := by
        intro c hc
        rw [initSearch_parent alg1 e1 s t c hsane1 hc,
          initSearch_parent alg2 e2 s t c hsane2 (hD2 c hc)]
      key_eq := by
        intro c hc
        have : c = s := by simpa [initSearch] using hc
        subst this
        rw [initSearch_key, initSearch_key, hh]
      dom := by
        intro c hc
        have : c = s := by simpa [initSearch] using hc
        exact Or.inr this
      up := by
        intro c p hc hp
        rw [initSearch_parent alg1 e1 s t c hsane1 hc] at hp
        cases hp
      live := by
        intro c hc
        rw [initSearch_isLive] at hc
        exact Or.inl hc }

/-- The initial states of `runDijkstra` and of `runAStar` with a heuristic that is 0
everywhere are in lockstep on all cells. -/
theorem sim_initSearch_zero (e : Engine) (s t : CellId) :
    Sim (fun _ => True) .dijkstra (.astar zeroHeuristic)
      (initSearch .dijkstra e s t) (initSearch (.astar zeroHeuristic) e s t) :=
  { openSet_eq := rfl
    closedSet_eq := rfl
    shouldStop_eq := rfl
    delays_eq := rfl
    events_eq := rfl
    rows_eq := rfl
    cols_eq := rfl
    gen_eq := rfl
    type_eq := by
      intro c
      rw [initSearch_type, initSearch_type]
    g_eq := by
      intro c _
      simp only [initSearch_store]
      split_ifs <;> simp
    parent_eq := by
      intro c _
      simp only [initSearch_store]
      split_ifs <;> simp
    key_eq := by
      intro c hc
      have : c = s := by simpa [initSearch] using hc
      subst this
      rw [initSearch_key, initSearch_key]
      rfl
    dom := fun _ _ => trivial
    up := fun _ _ _ _ => trivial
    live := fun _ _ => trivial }

/-- C24: `runDijkstra` is `runAStar` with `calculateHeuristic` replaced by the constant
0: on every grid, for every stop schedule and every amount of fuel, both return or
neither does, and they yield the same returned path (or null), the same sequence of
callback invocations (so the same visited cells), the same stop flag and, in every cell,
the same final type, `g` and parent. -/
theorem dijkstra_is_astar_zero (fuel : Nat) (stops : Nat → Bool) (e : Engine) :
    (runDijkstra fuel stops e).map (fun r => (r.path, r.events, r.engine.shouldStop)) =
        (runAStarWith zeroHeuristic fuel stops e).map
          (fun r => (r.path, r.events, r.engine.shouldStop)) ∧
      ∀ c, (runDijkstra fuel stops e).map (fun r => ((r.engine.grid.store c).type,
            (r.engine.grid.store c).g, (r.engine.grid.store c).parent)) =
        (runAStarWith zeroHeuristic fuel stops e).map (fun r => ((r.engine.grid.store c).type,
            (r.engine.grid.store c).g, (r.engine.grid.store c).parent)) := by
  unfold runDijkstra runAStarWith
  cases hs : e.grid.startCell with
  | none =>
    rw [runSearch_unset _ _ _ _ (Or.inl hs), runSearch_unset _ _ _ _ (Or.inl hs)]
    exact ⟨rfl, fun _ => rfl⟩
  | some s =>
    cases ht : e.grid.endCell with
    | none =>
      rw [runSearch_unset _ _ _ _ (Or.inr ht), runSearch_unset _ _ _ _ (Or.inr ht)]
      exact ⟨rfl, fun _ => rfl⟩
    | some t =>
      have hh : ∀ v, hfun .dijkstra t v = hfun (.astar zeroHeuristic) t v := fun _ => rfl
      rcases runSearch_sim fuel stops hs ht hs ht hh
          (sim_initSearch_zero e s t) with
        ⟨e1, e2⟩ | ⟨r1, r2, e1, e2, q1, q2, q3, _, q5, q6⟩
      · rw [e1, e2]
        exact ⟨rfl, fun _ => rfl⟩
      · rw [e1, e2]
        simp only [Option.map_some', Option.some.injEq, Prod.mk.injEq]
        exact ⟨⟨q1, q2, q3⟩, fun c => ⟨q5 c, (q6 c trivial).1, (q6 c trivial).2⟩⟩

/-- A run of either procedure does not depend on the prior search values of the cells. -/
theorem runSearch_prior_values (alg : Algorithm) (fuel : Nat) (stops : Nat → Bool)
    (e1 e2 : Engine) (s t : CellId)
    (hrows : e1.grid.rows = e2.grid.rows) (hcols : e1.grid.cols = e2.grid.cols)
    (hgen : e1.grid.gen = e2.grid.gen)
    (htype : ∀ c, (e1.grid.store c).type = (e2.grid.store c).type)
    (hs1 : e1.grid.startCell = some s) (ht1 : e1.grid.endCell = some t)
    (hs2 : e2.grid.startCell = some s) (ht2 : e2.grid.endCell = some t)
    (hsane1 : StartSane e1.grid s) (hsane2 : StartSane e2.grid s) :
    (runSearch alg fuel stops e1).map (fun r => (r.path, r.events, r.engine.shouldStop)) =
        (runSearch alg fuel stops e2).map (fun r => (r.path, r.events, r.engine.shouldStop)) ∧
      (∀ c, (runSearch alg fuel stops e1).map (fun r => (r.engine.grid.store c).type) =
        (runSearch alg fuel stops e2).map (fun r => (r.engine.grid.store c).type)) ∧
      (∀ c, e1.grid.isLive c = true ∨ c = s →
        (runSearch alg fuel stops e1).map (fun r => ((r.engine.grid.store c).g,
            (r.engine.grid.store c).parent)) =
        (runSearch alg fuel stops e2).map (fun r => ((r.engine.grid.store c).g,
            (r.engine.grid.store c).parent))) := by
  rcases runSearch_sim fuel stops hs1 ht1 hs2 ht2 (fun _ => rfl)
      (sim_initSearch alg alg e1 e2 s t (fun _ => rfl) hrows hcols hgen htype hsane1 hsane2) with
    ⟨e1', e2'⟩ | ⟨r1, r2, e1', e2', q1, q2, q3, _, q5, q6⟩
  · rw [e1', e2']
    exact ⟨rfl, fun _ => rfl, fun _ _ => rfl⟩
  · rw [e1', e2']
    simp only [Option.map_some', Option.some.injEq, Prod.mk.injEq]
    exact ⟨⟨q1, q2, q3⟩, q5, fun c hc => q6 c hc⟩

/-- C27: for two grids that agree on the dimensions, the cells, every cell's type and the
Start and End references (the Start reference naming a cell of the grid or an object
without parent) but differ arbitrarily in the prior `f`, `g`, `h` and `parent` of their
cells, `runDijkstra` returns on both or on neither, with the same returned value, the
same sequence of callback invocations (so the same visited sequence), the same stop
flag, the same final type in every cell and the same final `g` and parent in every cell
of the grid and in the Start cell; and likewise `runAStar`.  For every stop schedule. -/
theorem run_ignores_prior_values (fuel : Nat) (stops : Nat → Bool)
    (e1 e2 : Engine) (s t : CellId)
    (hrows : e1.grid.rows = e2.grid.rows) (hcols : e1.grid.cols = e2.grid.cols)
    (hgen : e1.grid.gen = e2.grid.gen)
    (htype : ∀ c, (e1.grid.store c).type = (e2.grid.store c).type)
    (hs1 : e1.grid.startCell = some s) (ht1 : e1.grid.endCell = some t)
    (hs2 : e2.grid.startCell = some s) (ht2 : e2.grid.endCell = some t)
    (hsane1 : StartSane e1.grid s) (hsane2 : StartSane e2.grid s) :
    ((runDijkstra fuel stops e1).map (fun r => (r.path, r.events, r.engine.shouldStop)) =
        (runDijkstra fuel stops e2).map (fun r => (r.path, r.events, r.engine.shouldStop)) ∧
      (∀ c, (runDijkstra fuel stops e1).map (fun r => (r.engine.grid.store c).type) =
        (runDijkstra fuel stops e2).map (fun r => (r.engine.grid.store c).type)) ∧
      (∀ c, e1.grid.isLive c = true ∨ c = s →
        (runDijkstra fuel stops e1).map (fun r => ((r.engine.grid.store c).g,
            (r.engine.grid.store c).parent)) =
        (runDijkstra fuel stops e2).map (fun r => ((r.engine.grid.store c).g,
            (r.engine.grid.store c).parent)))) ∧
    ((runAStar fuel stops e1).map (fun r => (r.path, r.events, r.engine.shouldStop)) =
        (runAStar fuel stops e2).map (fun r => (r.path, r.events, r.engine.shouldStop)) ∧
      (∀ c, (runAStar fuel stops e1).map (fun r => (r.engine.grid.store c).type) =
        (runAStar fuel stops e2).map (fun r => (r.engine.grid.store c).type)) ∧
      (∀ c, e1.grid.isLive c = true ∨ c = s →
        (runAStar fuel stops e1).map (fun r => ((r.engine.grid.store c).g,
            (r.engine.grid.store c).parent)) =
        (runAStar fuel stops e2).map (fun r => ((r.engine.grid.store c).g,
            (r.engine.grid.store c).parent)))) :=
  ⟨runSearch_prior_values .dijkstra fuel stops e1 e2 s t hrows hcols hgen htype hs1 ht1 hs2 ht2
      hsane1 hsane2,
    runSearch_prior_values (.astar calculateHeuristic) fuel stops e1 e2 s t hrows hcols hgen
      htype hs1 ht1 hs2 ht2 hsane1 hsane2⟩

theorem scenarioDStale_type (c : CellId) :
    (scenarioD.grid.store c).type = (scenarioDStale.grid.store c).type := by
  simp only [scenarioDStale, Engine.idle, Grid.forEachCell_store]
  split_ifs <;> rfl

theorem run_ignores_prior_values_witness :
    ((scenarioD.grid.store ⟨1, 0, 0⟩).g ≠ (scenarioDStale.grid.store ⟨1, 0, 0⟩).g ∧
      (scenarioD.grid.store ⟨1, 0, 0⟩).parent ≠ (scenarioDStale.grid.store ⟨1, 0, 0⟩).parent) ∧
    (((runDijkstra 12 noStop scenarioD).map
          (fun r => (r.path, r.events, r.engine.shouldStop)) =
        (runDijkstra 12 noStop scenarioDStale).map
          (fun r => (r.path, r.events, r.engine.shouldStop)) ∧
      (∀ c, (runDijkstra 12 noStop scenarioD).map (fun r => (r.engine.grid.store c).type) =
        (runDijkstra 12 noStop scenarioDStale).map (fun r => (r.engine.grid.store c).type)) ∧
      (∀ c, scenarioD.grid.isLive c = true ∨ c = ⟨1, 1, 0⟩ →
        (runDijkstra 12 noStop scenarioD).map (fun r => ((r.engine.grid.store c).g,
            (r.engine.grid.store c).parent)) =
        (runDijkstra 12 noStop scenarioDStale).map (fun r => ((r.engine.grid.store c).g,
            (r.engine.grid.store c).parent)))) ∧
    ((runAStar 12 noStop scenarioD).map (fun r => (r.path, r.events, r.engine.shouldStop)) =
        (runAStar 12 noStop scenarioDStale).map
          (fun r => (r.path, r.events, r.engine.shouldStop)) ∧
      (∀ c, (runAStar 12 noStop scenarioD).map (fun r => (r.engine.grid.store c).type) =
        (runAStar 12 noStop scenarioDStale).map (fun r => (r.engine.grid.store c).type)) ∧
      (∀ c, scenarioD.grid.isLive c = true ∨ c = ⟨1, 1, 0⟩ →
        (runAStar 12 noStop scenarioD).map (fun r => ((r.engine.grid.store c).g,
            (r.engine.grid.store c).parent)) =
        (runAStar 12 noStop scenarioDStale).map (fun r => ((r.engine.grid.store c).g,
            (r.engine.grid.store c).parent))))) :=
  have hs1 : scenarioD.grid.startCell = some ⟨1, 1, 0⟩ := by decide!
  have ht1 : scenarioD.grid.endCell = some ⟨1, 1, 2⟩ := by decide!
  have hs2 : scenarioDStale.grid.startCell = some ⟨1, 1, 0⟩ := by decide!
  have ht2 : scenarioDStale.grid.endCell = some ⟨1, 1, 2⟩ := by decide!
  have hsane1 : StartSane scenarioD.grid ⟨1, 1, 0⟩ := by decide!
  have hsane2 : StartSane scenarioDStale.grid ⟨1, 1, 0⟩ := by decide!
  ⟨by decide!,
    run_ignores_prior_values 12 noStop scenarioD scenarioDStale ⟨1, 1, 0⟩ ⟨1, 1, 2⟩
      rfl rfl rfl scenarioDStale_type hs1 ht1 hs2 ht2 hsane1 hsane2⟩

end CarrotFinder
